import Mathlib

/-!
# Consensus layer of the oxy-blockchain node

Shallow embedding of `internal/consensus` (validators.go, ratelimit.go, cometbft.go,
abci_app.go), of `internal/crypto/signer.go`, of `internal/storage/db.go`, of
`internal/execution` (evmone.go, state.go) and of the query handler of
`internal/network/query_handler.go`.

Modelling conventions

* `*big.Int` values are `Int`; `big.Int.Div` is Euclidean division, which is
  what `/` on `Int` computes.
* `int`, `int64` and `time.Duration` values are `Int`; where the source
  narrows or increments a machine integer the wrap-around is written out
  (`wrapInt64`).
* `time.Time` is an `Int` count of nanoseconds, the zero `time.Time` is `0`,
  `t.Add(d)` is `t + d` and `time.Now()` is an explicit argument `now`;
  the calls of `time.Now()` made within one method read the same instant.
* The Go map `validators` is the list of its values in the order in which a
  `range` loop visits them.  Go leaves that order unspecified, so every
  ordering of the list is a possible run; the key of an entry is its
  `Address` field, as in every insertion the source performs.
* A method of the validator set that starts with `vs.mutex.Lock()` is given
  twice: as the transformer of the set that its statements make
  (`RegisterValidator`, `Stake`, ...), and as the call as it ends in its
  goroutine (`RegisterValidatorCall`, `StakeCall`, ...), which follows the
  operations of the method on the `sync.RWMutex` of the set.  A call returns,
  waits for ever at a lock operation, or panics (`Call`); the methods of the
  application that call such a method end as it does.  The log output and
  the write to storage done by `SaveValidators` are not part of the model.
* The calls into `encoding/json`, `math/big` and go-ethereum are parameters
  (`Lib`, `Codec`, `StateBackend`, `EVM`); what the library guarantees of a
  call is a hypothesis of the theorem that needs it.
* The key-value store is the log of its puts, newest first; a get returns the
  newest value put under the key.  The store a crash leaves behind is a
  suffix of that log.
* `fmt`'s verb `%d` is plain decimal formatting and scanning.
-/

namespace Oxy

/-! ## Data model -/

/-- Record `Validator` of validators.go. -/
structure Validator where
  Address : String
  PubKey : List Nat
  Stake : Int
  Power : Int
  DelegatedTo : String
  Jailed : Bool
  JailedUntil : Int
  CreatedAt : Int
  LastActiveAt : Int
  MissedBlocks : Int
  TotalMissed : Int
deriving DecidableEq, Repr

/-- Record `ValidatorSet` of validators.go (storage, executor and mutex left out). -/
structure ValidatorSet where
  validators : List Validator
  minStake : Int
  maxValidators : Int
deriving DecidableEq, Repr

/-- Record `GenesisValidator` of validators.go. -/
structure GenesisValidator where
  Address : String
  PubKey : List Nat
  Stake : Int
deriving DecidableEq, Repr

/-- Errors returned by the validator-set methods, one per `fmt.Errorf` site. -/
inductive VError where
  | alreadyRegistered
  | insufficientStake
  | maxValidatorsReached
  | notFound
  | inJail
  | cannotUnstake
  | notInJail
  | stillInJail
deriving DecidableEq, Repr

/-- Two's-complement reading of an integer as an `int64`. -/
def wrapInt64 (x : Int) : Int := (x + 2 ^ 63) % 2 ^ 64 - 2 ^ 63

/-- Method `big.Int.Int64`: the low 64 bits of the magnitude, negated for a
negative receiver. -/
def bigInt64 (x : Int) : Int :=
  let v := wrapInt64 ((x.natAbs % 2 ^ 64 : Nat) : Int)
  if x < 0 then wrapInt64 (-v) else v

/-- Function `NewValidatorSet`. -/
def NewValidatorSet (minStake : Int) (maxValidators : Int) : ValidatorSet :=
  { validators := [], minStake := minStake, maxValidators := maxValidators }

/-- Function `calculatePower`. -/
def calculatePower (stake : Int) : Int :=
  let maxPower : Int := 2 ^ 30
  let power := stake / 1000000000000000000
  if power > maxPower then maxPower else bigInt64 power

/-! ## The map of validators -/

/-- Map read `vs.validators[address]`. -/
def mapLookup (l : List Validator) (address : String) : Option Validator :=
  l.find? (fun v => v.Address == address)

/-- Built-in `delete(vs.validators, address)`. -/
def mapDelete (l : List Validator) (address : String) : List Validator :=
  l.filter (fun v => v.Address != address)

/-- Map write `vs.validators[v.Address] = v`: an existing key keeps its place,
a new key is visited last. -/
def mapInsert (l : List Validator) (v : Validator) : List Validator :=
  if l.any (fun w => w.Address == v.Address) then
    l.map (fun w => if w.Address == v.Address then v else w)
  else l ++ [v]

/-- Write through the pointer stored under `address`. -/
def mapUpdate (l : List Validator) (address : String) (f : Validator → Validator) :
    List Validator :=
  l.map (fun w => if w.Address == address then f w else w)

/-! ## Library code -/

/-- Inner loop of the insertion sort of package `sort`: the element `x` is
swapped leftwards while `less x y` holds for its left neighbour `y`.  The
argument is the sorted prefix in reverse, and so is the result. -/
def bubbleLeft {α : Type} (less : α → α → Bool) (x : α) : List α → List α
  | [] => [x]
  | y :: ys => if less x y then y :: bubbleLeft less x ys else x :: y :: ys

/-- Function `sort.Slice`, modelled by the insertion sort that the library
runs on slices of at most 12 elements. -/
def sortSlice {α : Type} (less : α → α → Bool) (l : List α) : List α :=
  (l.foldl (fun rev x => bubbleLeft less x rev) []).reverse

/-- Built-in `copy(dst, src)`: the new content of `dst`. -/
def copyBytes (dst src : List Nat) : List Nat := src.take dst.length ++ dst.drop src.length

/-- Record `abcitypes.ValidatorUpdate`. -/
structure ValidatorUpdate where
  PubKeyType : String
  PubKeyData : List Nat
  Power : Int
deriving DecidableEq, Repr

/-! ## Methods of `ValidatorSet` -/

/-- Method `findLowestStakeValidator`. -/
def findLowestStakeValidator (vs : ValidatorSet) : Option Validator :=
  vs.validators.foldl
    (fun lowest v =>
      match lowest with
      | none => some v
      | some l => if v.Stake < l.Stake then some v else some l)
    none

/-- The record built by `RegisterValidator` for a new validator. -/
def newValidator (address : String) (pubKey : List Nat) (stake : Int) (now : Int) : Validator :=
  { Address := address, PubKey := pubKey, Stake := stake,
    Power := calculatePower stake, DelegatedTo := "", Jailed := false,
    JailedUntil := 0, CreatedAt := now, LastActiveAt := now,
    MissedBlocks := 0, TotalMissed := 0 }

/-- Holds when a method returned a non-nil error. -/
def isError {α : Type} : Except VError α → Bool
  | .error _ => true
  | .ok _ => false

/-- Method `RegisterValidator` without its lock operations: the value of its return
statement and the set after its writes. The error returns come before the first write
and before `SaveValidators`; the return of the success path comes after the call of
`SaveValidators`, which `RegisterValidatorCall` accounts for. -/
def RegisterValidator (vs : ValidatorSet) (address : String) (pubKey : List Nat)
    (initialStake : Int) (now : Int) : Except VError Validator × ValidatorSet :=
  if (mapLookup vs.validators address).isSome then (.error .alreadyRegistered, vs)
  else if initialStake < vs.minStake then (.error .insufficientStake, vs)
  else
    let room : Except VError (List Validator) :=
      if (vs.validators.length : Int) ≥ vs.maxValidators then
        match findLowestStakeValidator vs with
        | none => .error .maxValidatorsReached
        | some minStakeVal =>
          if initialStake ≤ minStakeVal.Stake then .error .maxValidatorsReached
          else .ok (mapDelete vs.validators minStakeVal.Address)
      else .ok vs.validators
    match room with
    | .error e => (.error e, vs)
    | .ok l =>
      let validator : Validator :=
        { Address := address, PubKey := pubKey, Stake := initialStake,
          Power := calculatePower initialStake, DelegatedTo := "", Jailed := false,
          JailedUntil := 0, CreatedAt := now, LastActiveAt := now,
          MissedBlocks := 0, TotalMissed := 0 }
      (.ok validator, { vs with validators := mapInsert l validator })

/-- Method `Stake` without its lock operations: the value of its return statement and the
set after its writes; `StakeCall` is the call as it ends. -/
def Stake (vs : ValidatorSet) (address : String) (amount : Int) (now : Int) :
    Option VError × ValidatorSet :=
  match mapLookup vs.validators address with
  | none => (some .notFound, vs)
  | some validator =>
    if validator.Jailed then (some .inJail, vs)
    else
      let upd := fun (v : Validator) =>
        { v with Stake := v.Stake + amount, Power := calculatePower (v.Stake + amount),
                 LastActiveAt := now }
      (none, { vs with validators := mapUpdate vs.validators address upd })

/-- Method `Unstake` without its lock operations: the value of its return statement and
the set after its writes; `UnstakeCall` is the call as it ends. -/
def Unstake (vs : ValidatorSet) (address : String) (amount : Int) (now : Int) :
    Option VError × ValidatorSet :=
  match mapLookup vs.validators address with
  | none => (some .notFound, vs)
  | some validator =>
    if validator.Jailed then (some .inJail, vs)
    else
      let newStake := validator.Stake - amount
      if newStake < vs.minStake then (some .cannotUnstake, vs)
      else
        let upd := fun (v : Validator) =>
          { v with Stake := v.Stake - amount, Power := calculatePower (v.Stake - amount),
                   LastActiveAt := now }
        let l := mapUpdate vs.validators address upd
        let l := if validator.Stake - amount < vs.minStake then mapDelete l address else l
        (none, { vs with validators := l })

/-- Method `Slash` without its lock operations: the value of its return statement and the
set after its writes; `SlashCall` is the call as it ends. -/
def Slash (vs : ValidatorSet) (address : String) (slashPercent : Int) (jailDuration : Int)
    (now : Int) : Option VError × ValidatorSet :=
  match mapLookup vs.validators address with
  | none => (some .notFound, vs)
  | some validator =>
    let slashAmount := validator.Stake * slashPercent / 100
    let upd := fun (v : Validator) =>
      { v with Stake := v.Stake - slashAmount, Power := calculatePower (v.Stake - slashAmount),
               Jailed := true, JailedUntil := now + jailDuration }
    let l := mapUpdate vs.validators address upd
    let l := if validator.Stake - slashAmount < vs.minStake then mapDelete l address else l
    (none, { vs with validators := l })

/-- Modelled from the spec: method `SlashValidator`, which `UpdateValidatorActivity`
calls with the slash as a fraction of the stake, is not among the source files.  The
specification has the set "apply a slash of `min(50%, 5% × ⌊consecutive/100⌋)` with a
24-hour jail", so the call is `Slash` at the percentage `100 × fraction`.  The `float64`
fraction is an exact rational here. -/
def SlashValidator (vs : ValidatorSet) (address : String) (slashPercentage : ℚ)
    (jailDuration : Int) (now : Int) : Option VError × ValidatorSet :=
  Slash vs address ⌊slashPercentage * 100⌋ jailDuration now

/-- Constant `time.Hour`, in nanoseconds. -/
def timeHour : Int := 3600000000000

/-- Method `UpdateValidatorActivity`.  The counters are of type `int`; `/` on them
truncates. -/
def UpdateValidatorActivity (vs : ValidatorSet) (address : String) (missedBlock : Bool)
    (now : Int) : ValidatorSet :=
  match mapLookup vs.validators address with
  | none => vs
  | some validator =>
    let l := mapUpdate vs.validators address (fun v => { v with LastActiveAt := now })
    if missedBlock then
      let l := mapUpdate l address (fun v =>
        { v with MissedBlocks := wrapInt64 (v.MissedBlocks + 1),
                 TotalMissed := wrapInt64 (v.TotalMissed + 1) })
      let missedBlocks := wrapInt64 (validator.MissedBlocks + 1)
      if missedBlocks ≥ 100 then
        let slashPercentage : ℚ := ((Int.tdiv missedBlocks 100 : Int) : ℚ) * (5 / 100)
        let slashPercentage : ℚ := if slashPercentage > 50 / 100 then 50 / 100 else slashPercentage
        match SlashValidator { vs with validators := l } address slashPercentage
            (24 * timeHour) now with
        | (some _, s) => s
        | (none, s) =>
          { s with validators :=
              mapUpdate s.validators address (fun v => { v with MissedBlocks := 0 }) }
      else { vs with validators := l }
    else
      { vs with validators := mapUpdate l address (fun v => { v with MissedBlocks := 0 }) }

/-- Method `Unjail` without its lock operations: the value of its return statement and
the set after its writes; `UnjailCall` is the call as it ends. -/
def Unjail (vs : ValidatorSet) (address : String) (now : Int) : Option VError × ValidatorSet :=
  match mapLookup vs.validators address with
  | none => (some .notFound, vs)
  | some validator =>
    if !validator.Jailed then (some .notInJail, vs)
    else if now < validator.JailedUntil then (some .stillInJail, vs)
    else
      let upd := fun (v : Validator) =>
        { v with Jailed := false, JailedUntil := 0, MissedBlocks := 0 }
      (none, { vs with validators := mapUpdate vs.validators address upd })

/-- Method `GetActiveValidators`. -/
def GetActiveValidators (vs : ValidatorSet) : List Validator :=
  let validators := vs.validators.filter (fun v => !v.Jailed && decide (v.Stake ≥ vs.minStake))
  sortSlice (fun a b => decide (a.Stake > b.Stake)) validators

/-- Method `ToCometBFTValidators`; `ed25519.PubKeySize` is 32. The local `pubKey` is
declared as a slice of no length (`var pubKey ed25519.PubKey`), so that
`copy(pubKey[:], v.PubKey)` copies nothing and `pubKey.Bytes()` is empty. -/
def ToCometBFTValidators (vs : ValidatorSet) : List ValidatorUpdate :=
  (GetActiveValidators vs).filterMap (fun v =>
    if v.PubKey.length = 32 then
      some { PubKeyType := "/tm.PubKeyEd25519", PubKeyData := copyBytes [] v.PubKey,
             Power := v.Power }
    else none)

/-- Method `InitializeGenesisValidators` without its lock operations: the set after its
writes; `InitializeGenesisValidatorsCall` is the call as it ends.  The source stores the
`Stake` pointer of the genesis entry; the model stores its value. -/
def InitializeGenesisValidators (vs : ValidatorSet) (genesisValidators : List GenesisValidator)
    (now : Int) : ValidatorSet :=
  genesisValidators.foldl
    (fun s gv =>
      let validator : Validator :=
        { Address := gv.Address, PubKey := gv.PubKey, Stake := gv.Stake,
          Power := calculatePower gv.Stake, DelegatedTo := "", Jailed := false,
          JailedUntil := 0, CreatedAt := now, LastActiveAt := now,
          MissedBlocks := 0, TotalMissed := 0 }
      { s with validators := mapInsert s.validators validator })
    vs

/-! ## The mutex of the validator set (`validators.go`)

Each method below lists, in order, the operations on `vs.mutex` that one call of the
method makes in its own goroutine when none of them blocks: the `Lock` or `RLock` at its
head, those of the methods it calls, and the deferred unlock at its return. -/

/-- The operations of a `sync.RWMutex`. -/
inductive LockOp where
  | Lock
  | Unlock
  | RLock
  | RUnlock
deriving DecidableEq, Repr

/-- State of a `sync.RWMutex`: whether the write lock is held, and the number of read
locks held. -/
structure RWMutex where
  writer : Bool
  readers : Nat
deriving DecidableEq, Repr

/-- How the lock operations of one goroutine end while no other goroutine touches the
mutex: all of them return, or the operation at the given index waits for ever, or an
unlock finds the mutex not locked. -/
inductive LockRun where
  | returns (m : RWMutex)
  | blocks (index : Nat)
  | faults
deriving DecidableEq, Repr

/-- The lock operations in order from the state `m`, the first of them at `index`: `Lock`
waits while a write or a read lock is held, `RLock` waits while the write lock is held. -/
def runLocks (m : RWMutex) (index : Nat) : List LockOp → LockRun
  | [] => .returns m
  | .Lock :: rest =>
    if m.writer ∨ m.readers > 0 then .blocks index
    else runLocks { m with writer := true } (index + 1) rest
  | .RLock :: rest =>
    if m.writer then .blocks index
    else runLocks { m with readers := m.readers + 1 } (index + 1) rest
  | .Unlock :: rest =>
    if m.writer then runLocks { m with writer := false } (index + 1) rest else .faults
  | .RUnlock :: rest =>
    if m.readers > 0 then runLocks { m with readers := m.readers - 1 } (index + 1) rest
    else .faults

/-- A mutex that nobody holds. -/
def freeMutex : RWMutex := { writer := false, readers := 0 }

/-- Lock operations of `SaveValidators`. -/
def SaveValidatorsLocks : List LockOp := [.RLock, .RUnlock]

/-- Lock operations of `GetActiveValidators`. -/
def GetActiveValidatorsLocks : List LockOp := [.RLock, .RUnlock]

/-- Lock operations of `ToCometBFTValidators`, which calls `GetActiveValidators`. -/
def ToCometBFTValidatorsLocks : List LockOp := [.RLock] ++ GetActiveValidatorsLocks ++ [.RUnlock]

/-- Lock operations of `RegisterValidator`: it calls `SaveValidators` unless it returns an
error. -/
def RegisterValidatorLocks (vs : ValidatorSet) (address : String) (pubKey : List Nat)
    (initialStake : Int) (now : Int) : List LockOp :=
  [.Lock] ++
    (if isError (RegisterValidator vs address pubKey initialStake now).1 then []
      else SaveValidatorsLocks) ++ [.Unlock]

/-- Lock operations of `Stake`. -/
def StakeLocks (vs : ValidatorSet) (address : String) (amount : Int) (now : Int) :
    List LockOp :=
  [.Lock] ++ (if (Stake vs address amount now).1.isSome then [] else SaveValidatorsLocks) ++
    [.Unlock]

/-- Lock operations of `Unstake`. -/
def UnstakeLocks (vs : ValidatorSet) (address : String) (amount : Int) (now : Int) :
    List LockOp :=
  [.Lock] ++ (if (Unstake vs address amount now).1.isSome then [] else SaveValidatorsLocks) ++
    [.Unlock]

/-- Lock operations of `Slash`. -/
def SlashLocks (vs : ValidatorSet) (address : String) (slashPercent : Int)
    (jailDuration : Int) (now : Int) : List LockOp :=
  [.Lock] ++
    (if (Slash vs address slashPercent jailDuration now).1.isSome then []
      else SaveValidatorsLocks) ++ [.Unlock]

/-- Lock operations of `Unjail`. -/
def UnjailLocks (vs : ValidatorSet) (address : String) (now : Int) : List LockOp :=
  [.Lock] ++ (if (Unjail vs address now).1.isSome then [] else SaveValidatorsLocks) ++
    [.Unlock]

/-- Lock operations of `UpdateValidatorActivity`: it calls `SlashValidator`, which is not
among the source files and whose lock operations are the parameter, when a known
validator reaches 100 consecutive missed blocks. -/
def UpdateValidatorActivityLocks (slashValidatorLocks : List LockOp) (vs : ValidatorSet)
    (address : String) (missedBlock : Bool) : List LockOp :=
  match mapLookup vs.validators address with
  | none => [.Lock, .Unlock]
  | some validator =>
    if missedBlock ∧ wrapInt64 (validator.MissedBlocks + 1) ≥ 100 then
      [.Lock] ++ slashValidatorLocks ++ [.Unlock]
    else [.Lock, .Unlock]

/-- Lock operations of `RotateValidators`. -/
def RotateValidatorsLocks : List LockOp :=
  [.Lock] ++ GetActiveValidatorsLocks ++ ToCometBFTValidatorsLocks ++ [.Unlock]

/-- Lock operations of `InitializeGenesisValidators`. -/
def InitializeGenesisValidatorsLocks : List LockOp :=
  [.Lock] ++ SaveValidatorsLocks ++ [.Unlock]

/-- How a call ends in its goroutine: it returns a value, or it waits for ever at a lock
operation, or it panics. -/
inductive Call (α : Type) where
  | returns (value : α)
  | blocks
  | faults
deriving DecidableEq, Repr

/-- A call of a method that starts with `vs.mutex.Lock()`, made on a free mutex that no
other goroutine touches. `locks` are the lock operations of the call; `done` is the value
of its return statement and the set after its writes. All the writes of such a method lie
between its `Lock` and its next lock operation, so they are made also by a call that
ends at a later lock operation. -/
def lockedCall {α : Type} (locks : List LockOp) (done : α × ValidatorSet) :
    Call α × ValidatorSet :=
  match runLocks freeMutex 0 locks with
  | .returns _ => (.returns done.1, done.2)
  | .blocks _ => (.blocks, done.2)
  | .faults => (.faults, done.2)

/-- A call of `RegisterValidator` as it ends: `RegisterValidator` gives its writes and the
value of its return statement, `RegisterValidatorLocks` its lock operations. -/
def RegisterValidatorCall (vs : ValidatorSet) (address : String) (pubKey : List Nat)
    (initialStake : Int) (now : Int) : Call (Except VError Validator) × ValidatorSet :=
  lockedCall (RegisterValidatorLocks vs address pubKey initialStake now)
    (RegisterValidator vs address pubKey initialStake now)

/-- A call of `Stake` as it ends. -/
def StakeCall (vs : ValidatorSet) (address : String) (amount : Int) (now : Int) :
    Call (Option VError) × ValidatorSet :=
  lockedCall (StakeLocks vs address amount now) (Stake vs address amount now)

/-- A call of `Unstake` as it ends. -/
def UnstakeCall (vs : ValidatorSet) (address : String) (amount : Int) (now : Int) :
    Call (Option VError) × ValidatorSet :=
  lockedCall (UnstakeLocks vs address amount now) (Unstake vs address amount now)

/-- A call of `Slash` as it ends. -/
def SlashCall (vs : ValidatorSet) (address : String) (slashPercent : Int)
    (jailDuration : Int) (now : Int) : Call (Option VError) × ValidatorSet :=
  lockedCall (SlashLocks vs address slashPercent jailDuration now)
    (Slash vs address slashPercent jailDuration now)

/-- A call of `Unjail` as it ends. -/
def UnjailCall (vs : ValidatorSet) (address : String) (now : Int) :
    Call (Option VError) × ValidatorSet :=
  lockedCall (UnjailLocks vs address now) (Unjail vs address now)

/-- A call of `InitializeGenesisValidators` as it ends; the value is the error of
`SaveValidators`, which the model has succeed. -/
def InitializeGenesisValidatorsCall (vs : ValidatorSet)
    (genesisValidators : List GenesisValidator) (now : Int) :
    Call (Option VError) × ValidatorSet :=
  lockedCall InitializeGenesisValidatorsLocks
    (none, InitializeGenesisValidators vs genesisValidators now)

/-- Method `RotateValidators`, called on a free mutex that no other goroutine touches.
The call holds the write lock when `GetActiveValidators`, its first statement, asks for
the read lock: `runLocks` ends the call there, before the loop that recomputes the
powers. The slice expression `activeValidators[:vs.maxValidators]` panics for a negative
bound; its value is not used. The error of the pair is always nil. -/
def RotateValidators (vs : ValidatorSet) : Call (List ValidatorUpdate) × ValidatorSet :=
  let vs1 : ValidatorSet :=
    { vs with validators :=
        vs.validators.map (fun v => { v with Power := calculatePower v.Stake }) }
  match runLocks freeMutex 0 RotateValidatorsLocks with
  | .blocks index => (.blocks, if index ≤ 2 then vs else vs1)
  | .faults => (.faults, vs)
  | .returns _ =>
    let activeValidators := GetActiveValidators vs
    if (activeValidators.length : Int) > vs.maxValidators ∧ vs.maxValidators < 0 then
      (.faults, vs)
    else (.returns (ToCometBFTValidators vs1), vs1)

/-- Scenario driver: the registrations `(address, pubKey, stake)` of the list are called
in order by one goroutine, each on the set left by the one before, up to the first call
that does not return. -/
def registerAllCalls (vs : ValidatorSet) (now : Int) :
    List (String × List Nat × Int) → Call Unit × ValidatorSet
  | [] => (.returns (), vs)
  | reg :: rest =>
    match RegisterValidatorCall vs reg.1 reg.2.1 reg.2.2 now with
    | (.returns _, vs1) => registerAllCalls vs1 now rest
    | (.blocks, vs1) => (.blocks, vs1)
    | (.faults, vs1) => (.faults, vs1)

/-! ## Scenarios and sample data -/

/-- Scenario S6 of the specification: registration `i` has stake
`minStake + i * 10^18`, for `i = 0..100`. -/
def s6Registrations (addr : Nat → String) (pk : Nat → List Nat) (minStake : Int) :
    List (String × List Nat × Int) :=
  (List.range 101).map (fun i => (addr i, pk i, minStake + (i : Int) * 10 ^ 18))

/-- Sample addresses `""`, `"a"`, `"aa"`, ... -/
def sampleAddr (i : Nat) : String := String.mk (List.replicate i 'a')

/-- Sample set that is full: two validators, `maxValidators = 2`. -/
def sampleFull : ValidatorSet :=
  { validators := [newValidator "a" [] 10 0, newValidator "b" [] 20 0],
    minStake := 5, maxValidators := 2 }

/-- Sample genesis: two validators for a set with `maxValidators = 1`. -/
def sampleGenesis : List GenesisValidator :=
  [{ Address := "a", PubKey := [], Stake := 10 }, { Address := "b", PubKey := [], Stake := 20 }]

/-- Sample set with two validators of equal stake, visited as `"b"`, `"a"`. -/
def sampleTie : ValidatorSet :=
  { validators := [newValidator "b" [] 10 0, newValidator "a" [] 10 0],
    minStake := 5, maxValidators := 2 }

/-- The same set as `sampleTie`, visited as `"a"`, `"b"`. -/
def sampleTieSwapped : ValidatorSet :=
  { validators := [newValidator "a" [] 10 0, newValidator "b" [] 10 0],
    minStake := 5, maxValidators := 2 }

/-- Sample validator with 99 consecutive missed blocks. -/
def sampleMisser : Validator :=
  { newValidator "a" [] 1000 0 with MissedBlocks := 99, TotalMissed := 120 }

/-- Sample set holding `sampleMisser`. -/
def sampleMissing : ValidatorSet :=
  { validators := [sampleMisser], minStake := 5, maxValidators := 2 }

/-- Sample 32-byte public key made of the byte `b`. -/
def samplePubKey (b : Nat) : List Nat := List.replicate 32 b

/-! ## Rate limiter (`internal/consensus/ratelimit.go`)

The map `transactions` is the function from its keys to their entries; the methods
modelled here read and write single keys only. -/

/-- Record `RateLimiter` (mutex left out). -/
structure RateLimiter where
  perAddressLimit : Int
  timeWindow : Int
  transactions : String → Option (List Int)
  mempoolSizeLimit : Int

/-- Function `NewRateLimiter`. -/
def NewRateLimiter (perAddressLimit : Int) (timeWindow : Int) (mempoolSizeLimit : Int) :
    RateLimiter :=
  { perAddressLimit := perAddressLimit, timeWindow := timeWindow,
    transactions := fun _ => none, mempoolSizeLimit := mempoolSizeLimit }

/-- Method `RateLimiter.Allow`, called at the instant `now`. -/
def RateLimiter.Allow (rl : RateLimiter) (address : String) (now : Int) : Bool × RateLimiter :=
  let cutoff := now + (-rl.timeWindow)
  let rl1 : RateLimiter :=
    match rl.transactions address with
    | some times =>
      { rl with transactions :=
          (Function.update rl.transactions address
            (some (times.filter (fun t => decide (t > cutoff))))) }
    | none => rl
  let limited : Bool :=
    match rl1.transactions address with
    | some times => decide ((times.length : Int) ≥ rl1.perAddressLimit)
    | none => false
  if limited then (false, rl1)
  else
    let current : List Int :=
      match rl1.transactions address with
      | some times => times
      | none => []
    (true, { rl1 with transactions :=
               (Function.update rl1.transactions address (some (current ++ [now]))) })

/-- Method `RateLimiter.CheckMempoolSize`. -/
def RateLimiter.CheckMempoolSize (rl : RateLimiter) (currentSize : Int) : Bool :=
  decide (currentSize < rl.mempoolSizeLimit)

/-- Scenario driver: the calls `Allow(address)` of the list are made in order, each at its
own instant; the result pairs every call with what it returned. -/
def allowRun (rl : RateLimiter) : List (String × Int) → List ((String × Int) × Bool) × RateLimiter
  | [] => ([], rl)
  | call :: rest =>
    let r := rl.Allow call.1 call.2
    let out := allowRun r.2 rest
    ((call, r.1) :: out.1, out.2)

/-- Number of calls for `address` that returned `true` at an instant `t` with
`lo < t ≤ hi`. -/
def admittedIn (outs : List ((String × Int) × Bool)) (address : String) (lo hi : Int) : Nat :=
  (outs.filter (fun o =>
    o.2 && decide (o.1.1 = address) && decide (lo < o.1.2) && decide (o.1.2 ≤ hi))).length

/-- Number of calls for `address` that returned `true` at an instant `t` with
`lo ≤ t ≤ hi`. -/
def admittedInClosed (outs : List ((String × Int) × Bool)) (address : String) (lo hi : Int) :
    Nat :=
  (outs.filter (fun o =>
    o.2 && decide (o.1.1 = address) && decide (lo ≤ o.1.2) && decide (o.1.2 ≤ hi))).length

/-! ## Transactions and the mempool (`types.go`, `cometbft.go`) -/

/-- Record `Transaction` of types.go. -/
structure Transaction where
  Hash : String
  From : String
  To : String
  Value : String
  Data : List Nat
  GasLimit : Nat
  GasPrice : String
  Nonce : Nat
  Signature : List Nat
  Timestamp : Int
deriving DecidableEq, Repr

/-- Record `CometBFT` of cometbft.go: the fields that `SubmitTransaction` reads or writes. -/
structure CometBFT where
  mempool : List Transaction
  rateLimiter : RateLimiter
  running : Bool

/-- Errors returned by `SubmitTransaction`, one per `fmt.Errorf` site. -/
inductive SubmitError where
  | notRunning
  | noHash
  | mempoolFull
  | rateLimited
  | duplicate
deriving DecidableEq, Repr

/-- Method `CometBFT.SubmitTransaction`, called at the instant `now`. -/
def SubmitTransaction (c : CometBFT) (tx : Transaction) (now : Int) :
    Option SubmitError × CometBFT :=
  if !c.running then (some .notRunning, c)
  else if tx.Hash = "" then (some .noHash, c)
  else
    let mempoolSize : Int := c.mempool.length
    if !c.rateLimiter.CheckMempoolSize mempoolSize then (some .mempoolFull, c)
    else
      let r := c.rateLimiter.Allow tx.From now
      let c1 : CometBFT := { c with rateLimiter := r.2 }
      if !r.1 then (some .rateLimited, c1)
      else if c1.mempool.any (fun existingTx => existingTx.Hash == tx.Hash) then
        (some .duplicate, c1)
      else (none, { c1 with mempool := c1.mempool ++ [tx] })

/-! ## Signatures and hashes (`internal/crypto/signer.go`)

The map `map[string]interface{}` is the function from its keys to their entries.  The
packages `encoding/json`, `math/big` and go-ethereum's `crypto` and `common` are not part
of the repository: their functions are the fields of `Lib`, and every theorem holds for
all values of them unless it names a sample. -/

/-- Values stored in a transaction map. -/
inductive JValue where
  | str (s : String)
  | bytes (b : List Nat)
  | num (n : Nat)
deriving DecidableEq, Repr

/-- External functions used by signer.go and abci_app.go. -/
structure Lib where
  jsonMarshal : (String → Option JValue) → Option (List Nat)
  jsonMarshalTx : Transaction → List Nat
  jsonUnmarshalTx : List Nat → Option Transaction
  keccak256 : List Nat → List Nat
  sign : List Nat → Nat → Option (List Nat)
  sigToPub : List Nat → List Nat → Option (List Nat)
  publicKey : Nat → List Nat
  pubkeyToAddress : List Nat → List Nat
  hexToAddress : String → List Nat
  hexToHash : String → List Nat
  hashHex : List Nat → String
  isHexAddress : String → Bool
  bigSetString : String → Option Int

/-- Errors returned by the functions of signer.go, one per `fmt.Errorf` site. -/
inductive SignerError where
  | hashRequired
  | signatureRequired
  | fromRequired
  | badLength
  | recoverFailed
  | addressMismatch
  | marshalFailed
  | signFailed
deriving DecidableEq, Repr

/-- The copy `txCopy` made by `SignTransaction` and by `CalculateTransactionHash`: every
entry except the one under `"signature"`. -/
def txCopy (txData : String → Option JValue) : String → Option JValue :=
  fun k => if k ≠ "signature" then txData k else none

/-- Function `VerifyTransactionSignature`. -/
def VerifyTransactionSignature (lib : Lib) (txData : String → Option JValue) :
    Except SignerError (List Nat) :=
  match txData "hash" with
  | some (.str hashHex) =>
    if hashHex = "" then .error .hashRequired
    else
      match txData "signature" with
      | some (.bytes signatureBytes) =>
        if signatureBytes.length = 0 then .error .signatureRequired
        else
          match txData "from" with
          | some (.str fromAddrStr) =>
            if fromAddrStr = "" then .error .fromRequired
            else
              let fromAddr := lib.hexToAddress fromAddrStr
              let hashBytes := lib.hexToHash hashHex
              if signatureBytes.length ≠ 65 then .error .badLength
              else
                let v := signatureBytes.getD 64 0
                let v := if v < 27 then v + 27 else v
                match lib.sigToPub hashBytes (signatureBytes.take 64 ++ [v]) with
                | none => .error .recoverFailed
                | some pubKey =>
                  let recoveredAddr := lib.pubkeyToAddress pubKey
                  if recoveredAddr ≠ fromAddr then .error .addressMismatch
                  else .ok recoveredAddr
          | _ => .error .fromRequired
      | _ => .error .signatureRequired
  | _ => .error .hashRequired

/-- Function `SignTransaction`. -/
def SignTransaction (lib : Lib) (txData : String → Option JValue) (privateKey : Nat) :
    Except SignerError (List Nat) :=
  match lib.jsonMarshal (txCopy txData) with
  | none => .error .marshalFailed
  | some txBytes =>
    let hash := lib.keccak256 txBytes
    match lib.sign hash privateKey with
    | none => .error .signFailed
    | some signature => .ok signature

/-- Function `CalculateTransactionHash`. -/
def CalculateTransactionHash (lib : Lib) (txData : String → Option JValue) :
    Except SignerError (List Nat) :=
  match lib.jsonMarshal (txCopy txData) with
  | none => .error .marshalFailed
  | some txBytes => .ok (lib.keccak256 txBytes)

/-! ## Application state machine (`abci_app.go`)

The executor of package `execution` runs go-ethereum's EVM; its state is a type `σ` and
its methods are the fields of `Executor σ`. -/

/-- Record `Log` of types.go. -/
structure Log where
  Address : String
  Topics : List String
  Data : List Nat
  BlockNumber : Nat
  TxHash : String
deriving DecidableEq, Repr

/-- Record `TransactionReceipt` of types.go. -/
structure TransactionReceipt where
  TransactionHash : String
  BlockHash : String
  BlockNumber : Nat
  GasUsed : Nat
  Status : String
  Logs : List Log
  Error : String
deriving DecidableEq, Repr

/-- Record `BlockHeader` of types.go. -/
structure BlockHeader where
  Height : Nat
  Hash : String
  ParentHash : String
  Timestamp : Int
  Validator : String
  ChainID : String
deriving DecidableEq, Repr

/-- Record `Block` of types.go. -/
structure Block where
  Header : BlockHeader
  Transactions : List Transaction
  Receipts : List TransactionReceipt
deriving DecidableEq, Repr

/-- Record `execution.Log`. -/
structure ExecutionLog where
  Address : String
  Topics : List String
  Data : List Nat
deriving DecidableEq, Repr

/-- Record `execution.Transaction`. -/
structure ExecutionTransaction where
  Hash : String
  From : String
  To : String
  Value : String
  Data : List Nat
  GasLimit : Nat
  GasPrice : String
  Nonce : Nat
deriving DecidableEq, Repr

/-- Record `execution.ExecutionResult`. -/
structure ExecutionResult where
  Success : Bool
  GasUsed : Nat
  ReturnData : List Nat
  Logs : List ExecutionLog
  Error : String
deriving DecidableEq, Repr

/-- Record `execution.AccountState`. -/
structure AccountState where
  Address : String
  Balance : String
  Nonce : Nat
  CodeHash : String
  Storage : List (String × String)
deriving DecidableEq, Repr

/-- What a call returning a pair `(value, err)` comes to: a nil-pointer dereference
(`fault`), the error of the pair, or the value of the pair. -/
inductive Outcome (α : Type) where
  | fault
  | error (msg : String)
  | ok (value : α)
deriving DecidableEq, Repr

/-- Methods of `execution.EVMExecutor` called by the application; `GetState` returns
`none` where the source returns a non-nil error. `evmExecutor` below is the executor of
the repository. -/
structure Executor (σ : Type) where
  GetState : σ → String → Option AccountState
  SetCurrentBlockInfo : σ → Nat → Int → σ
  ExecuteTransaction : σ → ExecutionTransaction → Outcome ExecutionResult × σ

/-- Record `storage.BlockchainDB`: the writes made so far, newest first. -/
structure BlockchainDB where
  puts : List (String × List Nat)
deriving DecidableEq, Repr

/-- Method `BlockchainDB.SaveTransaction`. -/
def BlockchainDB.SaveTransaction (db : BlockchainDB) (txHash : String) (txData : List Nat) :
    BlockchainDB :=
  { puts := ("tx:" ++ txHash, txData) :: db.puts }

/-- Record `ABCIApp` together with its `AppState` (`stateHeight`, `stateAppHash`,
`stateValidators`). -/
structure ABCIApp (σ : Type) where
  storage : BlockchainDB
  executor : σ
  validators : Option ValidatorSet
  stateHeight : Int
  stateAppHash : List Nat
  stateValidators : List ValidatorUpdate
  currentBlockHeight : Nat
  currentBlockTime : Int
  currentBlockTxs : List Transaction
  currentBlockReceipts : List TransactionReceipt
  chainID : String

/-- Record `abcitypes.Event`: its `Type` and its attributes. -/
structure Event where
  EventType : String
  Attributes : List (String × String)
deriving DecidableEq, Repr

/-- Record `abcitypes.ResponseDeliverTx`. -/
structure ResponseDeliverTx where
  Code : Nat
  Log : String
  GasUsed : Nat
  Events : List Event
deriving DecidableEq, Repr

/-- Record `abcitypes.ResponseCheckTx`. -/
structure ResponseCheckTx where
  Code : Nat
  Log : String
deriving DecidableEq, Repr

/-- Errors returned by `validateTransaction` and `validateTransactionComplete`, one per
`fmt.Errorf` site. -/
inductive TxError where
  | emptySender
  | invalidSender
  | invalidRecipient
  | noHash
  | invalidNonce
  | accountNotFound
  | invalidValue
  | invalidBalance
  | invalidGasPrice
  | insufficientBalance
  | noSignature
  | invalidSignature (e : SignerError)
  | hashError (e : SignerError)
  | hashMismatch
deriving DecidableEq, Repr

/-- Method `ABCIApp.BeginBlock`; `height` is `req.Header.Height` and `time` is
`req.Header.Time.Unix()`. -/
def BeginBlock {σ : Type} (app : ABCIApp σ) (height : Int) (time : Int) : ABCIApp σ :=
  { app with
    stateHeight := height,
    currentBlockHeight := (height % 2 ^ 64).toNat,
    currentBlockTime := time,
    currentBlockTxs := [],
    currentBlockReceipts := [] }

/-- Method `ABCIApp.validateTransaction`. -/
def validateTransaction (lib : Lib) (tx : Transaction) : Option TxError :=
  if tx.From = "" then some .emptySender
  else if !lib.isHexAddress tx.From then some .invalidSender
  else if tx.To ≠ "" ∧ !lib.isHexAddress tx.To then some .invalidRecipient
  else none

/-- The map `txMap` built by `validateTransactionComplete`. -/
def txMap (tx : Transaction) : String → Option JValue :=
  fun k =>
    if k = "hash" then some (.str tx.Hash)
    else if k = "from" then some (.str tx.From)
    else if k = "to" then some (.str tx.To)
    else if k = "value" then some (.str tx.Value)
    else if k = "data" then some (.bytes tx.Data)
    else if k = "gasLimit" then some (.num tx.GasLimit)
    else if k = "gasPrice" then some (.str tx.GasPrice)
    else if k = "nonce" then some (.num tx.Nonce)
    else if k = "signature" then some (.bytes tx.Signature)
    else none

/-- Method `ABCIApp.validateTransactionComplete`. -/
def validateTransactionComplete {σ : Type} (lib : Lib) (ex : Executor σ) (app : ABCIApp σ)
    (tx : Transaction) : Option TxError :=
  match validateTransaction lib tx with
  | some err => some err
  | none =>
    if tx.Hash = "" then some .noHash
    else
      let accountState := ex.GetState app.executor tx.From
      let nonceError : Option TxError :=
        match accountState with
        | some acc => if tx.Nonce < acc.Nonce then some .invalidNonce else none
        | none => none
      match nonceError with
      | some err => some err
      | none =>
        let balanceError : Option TxError :=
          if tx.Value ≠ "" ∧ tx.Value ≠ "0" then
            match accountState with
            | none => some .accountNotFound
            | some acc =>
              match lib.bigSetString tx.Value with
              | none => some .invalidValue
              | some value =>
                match lib.bigSetString acc.Balance with
                | none => some .invalidBalance
                | some balance =>
                  match lib.bigSetString tx.GasPrice with
                  | none => some .invalidGasPrice
                  | some gasPrice =>
                    let gasCost := gasPrice * wrapInt64 (tx.GasLimit : Int)
                    let totalCost := value + gasCost
                    if balance < totalCost then some .insufficientBalance else none
          else none
        match balanceError with
        | some err => some err
        | none =>
          if tx.Signature.length = 0 then some .noSignature
          else
            match VerifyTransactionSignature lib (txMap tx) with
            | .error e => some (.invalidSignature e)
            | .ok _ =>
              match CalculateTransactionHash lib (txMap tx) with
              | .error e => some (.hashError e)
              | .ok expectedHash =>
                if tx.Hash ≠ lib.hashHex expectedHash then some .hashMismatch else none

/-- Method `ABCIApp.CheckTx`; the application is returned as the method leaves it. -/
def CheckTx {σ : Type} (lib : Lib) (ex : Executor σ) (app : ABCIApp σ) (reqTx : List Nat) :
    ResponseCheckTx × ABCIApp σ :=
  match lib.jsonUnmarshalTx reqTx with
  | none => ({ Code := 1, Log := "Error decodificando transacción" }, app)
  | some tx =>
    match validateTransactionComplete lib ex app tx with
    | some _ => ({ Code := 2, Log := "Transacción inválida" }, app)
    | none => ({ Code := 0, Log := "OK" }, app)

/-- Function `convertLogs`. -/
def convertLogs (execLogs : List ExecutionLog) : List Log :=
  execLogs.map (fun log =>
    { Address := log.Address, Topics := log.Topics, Data := log.Data,
      BlockNumber := 0, TxHash := "" })

/-- Method `ABCIApp.buildEvents`. -/
def buildEvents (result : ExecutionResult) : List Event :=
  [{ EventType := "execution",
     Attributes := [("success", toString result.Success),
                    ("gas_used", toString result.GasUsed)] }] ++
    result.Logs.map (fun log =>
      { EventType := "contract_log", Attributes := [("address", log.Address)] })

/-- Method `ABCIApp.DeliverTx`: how the call ends, with its response, and the application.
A panic of the executor is not recovered. The logs of the codes 1 and 2 are given without
the error text that follows them. -/
def DeliverTx {σ : Type} (lib : Lib) (ex : Executor σ) (app : ABCIApp σ) (reqTx : List Nat) :
    Call ResponseDeliverTx × ABCIApp σ :=
  match lib.jsonUnmarshalTx reqTx with
  | none =>
    (.returns { Code := 1, Log := "Error decodificando transacción", GasUsed := 0,
                Events := [] }, app)
  | some tx =>
    match validateTransaction lib tx with
    | some _ =>
      (.returns { Code := 2, Log := "Transacción inválida", GasUsed := 0, Events := [] }, app)
    | none =>
      let executionTx : ExecutionTransaction :=
        { Hash := tx.Hash, From := tx.From, To := tx.To, Value := tx.Value, Data := tx.Data,
          GasLimit := tx.GasLimit, GasPrice := tx.GasPrice, Nonce := tx.Nonce }
      let e1 := ex.SetCurrentBlockInfo app.executor (app.stateHeight % 2 ^ 64).toNat
        app.currentBlockTime
      let r := ex.ExecuteTransaction e1 executionTx
      let app1 : ABCIApp σ := { app with executor := r.2 }
      match r.1 with
      | .fault => (.faults, app1)
      | .error msg =>
        (.returns { Code := 3, Log := "Error ejecutando transacción: " ++ msg, GasUsed := 0,
                    Events := [] }, app1)
      | .ok result =>
        if !result.Success then
          (.returns { Code := 4, Log := result.Error, GasUsed := 0, Events := [] }, app1)
        else
          let txData := lib.jsonMarshalTx tx
          let receipt : TransactionReceipt :=
            { TransactionHash := tx.Hash, BlockHash := "",
              BlockNumber := app.currentBlockHeight, GasUsed := result.GasUsed,
              Status := if !result.Success then "failed" else "success",
              Logs := convertLogs result.Logs, Error := result.Error }
          (.returns { Code := 0, Log := "OK", GasUsed := result.GasUsed,
                      Events := buildEvents result },
            { app1 with
              storage := app1.storage.SaveTransaction tx.Hash txData,
              currentBlockTxs := app1.currentBlockTxs ++ [tx],
              currentBlockReceipts := app1.currentBlockReceipts ++ [receipt] })

/-- The `Block` literal built by `ABCIApp.saveBlock`, which `Commit` calls. -/
def assembleBlock {σ : Type} (app : ABCIApp σ) (blockHashStr : String) (parentHash : String) :
    Block :=
  { Header :=
      { Height := app.currentBlockHeight, Hash := blockHashStr, ParentHash := parentHash,
        Timestamp := app.currentBlockTime * 1000000000, Validator := "",
        ChainID := app.chainID },
    Transactions := app.currentBlockTxs,
    Receipts := app.currentBlockReceipts }

/-- Scenario driver: the `DeliverTx` calls of the list, in order, up to the first that
does not return; the application after them. -/
def deliverAll {σ : Type} (lib : Lib) (ex : Executor σ) (app : ABCIApp σ) :
    List (List Nat) → ABCIApp σ
  | [] => app
  | reqTx :: rest =>
    match (DeliverTx lib ex app reqTx).1 with
    | .returns _ => deliverAll lib ex (DeliverTx lib ex app reqTx).2 rest
    | .blocks => (DeliverTx lib ex app reqTx).2
    | .faults => (DeliverTx lib ex app reqTx).2

/-- Sample encoding of one entry of a transaction map. -/
def sampleEncode : Option JValue → List Nat
  | none => [0]
  | some (.str s) => 1 :: s.length :: s.data.map Char.toNat
  | some (.bytes b) => 2 :: b.length :: b
  | some (.num n) => [3, n]

/-- Sample `json.Marshal`: the entries of the transaction keys, in key order. -/
def sampleMarshal (m : String → Option JValue) : Option (List Nat) :=
  some (List.flatten
    (["data", "from", "gasLimit", "gasPrice", "hash", "nonce", "to", "value"].map
      (fun k => sampleEncode (m k))))

/-- Sample digest of a byte string (one byte long). -/
def sampleDigest (b : List Nat) : List Nat :=
  [b.foldl (fun acc x => (acc * 31 + x) % 251) 7]

/-- The first 64 entries of a list, padded with zeros. -/
def pad64 (l : List Nat) : List Nat := (l ++ List.replicate 64 0).take 64

/-- Sample `crypto.Sign`: key and digest in `R ‖ S`, recovery id 0. -/
def sampleSign (hash : List Nat) (sk : Nat) : Option (List Nat) :=
  some (pad64 (sk :: hash) ++ [0])

/-- Sample `crypto.SigToPub`: like go-ethereum's, it rejects a signature that is not 65
bytes long or whose recovery id is 4 or more. -/
def sampleSigToPub (hash sig : List Nat) : Option (List Nat) :=
  if sig.length = 65 ∧ sig.getD 64 0 < 4 ∧ sig.take 64 = pad64 (sig.getD 0 0 :: hash) then
    some [sig.getD 0 0]
  else none

/-- Sample digits of a decimal numeral. -/
def parseDigits (cs : List Char) : Option Nat :=
  if cs = [] then none
  else cs.foldl
    (fun acc c => acc.bind (fun n => if c.isDigit then some (n * 10 + (c.toNat - 48)) else none))
    (some 0)

/-- Sample `big.Int.SetString(s, 10)`. -/
def parseDecimal (s : String) : Option Int :=
  match s.data with
  | '-' :: cs => (parseDigits cs).map (fun n => -(n : Int))
  | '+' :: cs => (parseDigits cs).map (fun n => (n : Int))
  | cs => (parseDigits cs).map (fun n => (n : Int))

/-- Sample transaction of value zero from the sender `"7"`, with a 65-byte signature. -/
def txZeroValue : Transaction :=
  { Hash := "h", From := "7", To := "8", Value := "0", Data := [], GasLimit := 21000,
    GasPrice := "1000000000", Nonce := 0, Signature := 55 :: List.replicate 64 0,
    Timestamp := 0 }

/-- Sample transaction without a signature. -/
def txNoSignature : Transaction :=
  { txZeroValue with Hash := "h1", Value := "5", Signature := [] }

/-- Sample transaction whose value is not a decimal numeral. -/
def txBadValue : Transaction := { txZeroValue with Hash := "h3", Value := "x" }

/-- Sample `json.Unmarshal` into a `Transaction`. -/
def sampleDecode (b : List Nat) : Option Transaction :=
  if b = [1] then some txZeroValue
  else if b = [3] then some txNoSignature
  else if b = [6] then some txBadValue
  else none

/-- Sample library whose `SigToPub` checks the recovery id as go-ethereum does. -/
def sampleLib : Lib :=
  { jsonMarshal := sampleMarshal,
    jsonMarshalTx := fun tx => tx.Hash.data.map Char.toNat,
    jsonUnmarshalTx := sampleDecode,
    keccak256 := sampleDigest,
    sign := sampleSign,
    sigToPub := sampleSigToPub,
    publicKey := fun sk => [sk],
    pubkeyToAddress := fun pk => pk,
    hexToAddress := fun s => s.data.map Char.toNat,
    hexToHash := fun s => s.data.map Char.toNat,
    hashHex := fun h => String.mk (h.map Char.ofNat),
    isHexAddress := fun s => decide (s.length = 1),
    bigSetString := parseDecimal }

/-- Sample executor: every account has balance `"0"` and nonce 0; a transaction with an
empty recipient fails, any other succeeds; the state counts the executions. -/
def sampleExecutor : Executor Nat :=
  { GetState := fun _ address =>
      some { Address := address, Balance := "0", Nonce := 0, CodeHash := "", Storage := [] },
    SetCurrentBlockInfo := fun s _ _ => s,
    ExecuteTransaction := fun s tx =>
      (.ok { Success := decide (tx.To ≠ ""), GasUsed := 21000, ReturnData := [], Logs := [],
             Error := if tx.To = "" then "execution reverted" else "" }, s + 1) }

/-- Sample application, as `NewABCIApp` builds it. -/
def sampleApp : ABCIApp Nat :=
  { storage := { puts := [] }, executor := 0, validators := none, stateHeight := 0,
    stateAppHash := List.replicate 32 0, stateValidators := [], currentBlockHeight := 0,
    currentBlockTime := 0, currentBlockTxs := [], currentBlockReceipts := [],
    chainID := "test-chain" }

/-- Sample consensus wrapper, running, with the limits of `NewCometBFT`. -/
def sampleComet : CometBFT :=
  { mempool := [], rateLimiter := NewRateLimiter 10 1000000000 10000, running := true }

/-- Sample transaction map signed in the round trip: the entries of `txZeroValue` without
its signature. -/
def sampleTxData : String → Option JValue := txCopy (txMap txZeroValue)

/-- The sample map extended with `signature = SignTransaction(sampleTxData, 55)`. -/
def sampleSigned : String → Option JValue :=
  fun k =>
    if k = "signature" then
      match SignTransaction sampleLib sampleTxData 55 with
      | .ok sig => some (.bytes sig)
      | .error _ => none
    else sampleTxData k

/-- The signed sample map with its `hash` entry set to the digest that was signed, as
`TestVerifyTransactionSignature` does before it verifies. -/
def sampleSignedAsTest : String → Option JValue :=
  fun k =>
    if k = "hash" then
      match CalculateTransactionHash sampleLib sampleTxData with
      | .ok digest => some (.str (sampleLib.hashHex digest))
      | .error _ => none
    else sampleSigned k

/-- Scenario driver: the `SubmitTransaction` calls of the list, in order, each at its own
instant; the first component lists what the calls returned. -/
def submitAll (c : CometBFT) : List (Transaction × Int) → List (Option SubmitError) × CometBFT
  | [] => ([], c)
  | call :: rest =>
    let r := SubmitTransaction c call.1 call.2
    let out := submitAll r.2 rest
    (r.1 :: out.1, out.2)

/-- Scenario S5: transaction `i` of the sender `"7"`, with nonce `i` and its own hash. -/
def s5Tx (i : Nat) : Transaction :=
  { txZeroValue with Hash := String.mk [Char.ofNat (65 + i)], Nonce := i }

/-- Scenario S5: transactions 0..9 are submitted 50 ms apart, transaction 10 at 500 ms and
again at 1.6 s. -/
def s5Submissions : List (Transaction × Int) :=
  (List.range 10).map (fun i => (s5Tx i, (i : Int) * 50000000)) ++
    [(s5Tx 10, 500000000), (s5Tx 10, 1600000000)]

/-- Scenario S5 of the specification: ten submissions, 50 ms apart, in nanoseconds. -/
def s5Times : List Int := (List.range 10).map (fun i => (i : Int) * 50000000)

/-! ## Decimal formatting and scanning (package `fmt`, verb `%d`) -/

/-- Decimal digits of `n`, most significant first; `fuel` bounds how many there are. -/
def decDigits : Nat → Nat → List Nat
  | 0, _ => []
  | fuel + 1, n => if n < 10 then [n] else decDigits fuel (n / 10) ++ [n % 10]

/-- The character of a decimal digit. -/
def digitChar (d : Nat) : Char := Char.ofNat (48 + d)

/-- Library call `fmt.Sprintf("%d", n)` for an unsigned `n`. -/
def fmtNat (n : Nat) : String := String.mk ((decDigits (n + 1) n).map digitChar)

/-- Library call `fmt.Sprintf("%d", z)` for a signed `z`. -/
def fmtInt (z : Int) : String := if z < 0 then "-" ++ fmtNat z.natAbs else fmtNat z.natAbs

/-- The value of a decimal digit character. -/
def charDigit (c : Char) : Option Nat :=
  if 48 ≤ c.toNat ∧ c.toNat ≤ 57 then some (c.toNat - 48) else none

/-- The number written by the leading decimal digits of `cs`, continuing from `acc`. -/
def scanDigits : List Char → Nat → Nat
  | [], acc => acc
  | c :: cs, acc =>
    match charDigit c with
    | some d => scanDigits cs (acc * 10 + d)
    | none => acc

/-- The blanks that `fmt.Sscanf` skips before a number, among the ASCII characters: space,
tab, vertical tab, form feed and carriage return. A newline is not skipped: it is an
error. -/
def isBlank (c : Char) : Bool :=
  c.toNat = 32 || c.toNat = 9 || c.toNat = 11 || c.toNat = 12 || c.toNat = 13

/-- Method `SkipSpace` of the scanner of `fmt`. -/
def skipBlanks : List Char → List Char
  | [] => []
  | c :: cs => if isBlank c then skipBlanks cs else c :: cs

/-- The token that `scanNumber` reads for the verb `%d`: the leading characters among the
decimal digits and the underscore. -/
def numberToken (cs : List Char) : List Char :=
  cs.takeWhile (fun c => (charDigit c).isSome || c.toNat = 95)

/-- Library call `fmt.Sscanf(s, "%d", &height)` for a `height uint64` that starts at 0 and
whose error is dropped: leading blanks are skipped and the token of digits is handed to
`strconv.ParseUint(tok, 10, 64)`; `height` stays 0 when the token is empty, holds an
underscore or does not fit 64 bits. -/
def scanUint64 (s : String) : Nat :=
  let tok := numberToken (skipBlanks s.data)
  if tok = [] ∨ tok.any (fun c => c.toNat = 95) then 0
  else
    let v := scanDigits tok 0
    if v < 2 ^ 64 then v else 0

/-- Conversion `[]byte(s)` of a string of ASCII characters. -/
def asciiBytes (s : String) : List Nat := s.data.map Char.toNat

/-- Conversion `string(b)` of ASCII bytes. -/
def asciiString (b : List Nat) : String := String.mk (b.map Char.ofNat)

/-! ## Key-value store (`internal/storage/db.go`) -/

/-- Call `b.db.Put(key, value, nil)` of leveldb. -/
def BlockchainDB.put (db : BlockchainDB) (key : String) (value : List Nat) : BlockchainDB :=
  { puts := (key, value) :: db.puts }

/-- Call `b.db.Get(key, nil)` of leveldb: the newest value put under the key, `none` where
leveldb returns `ErrNotFound`. -/
def BlockchainDB.get (db : BlockchainDB) (key : String) : Option (List Nat) :=
  (db.puts.find? (fun p => p.1 == key)).map (fun p => p.2)

/-- Method `BlockchainDB.SaveBlock`; `height` is a `uint64`. -/
def BlockchainDB.SaveBlock (db : BlockchainDB) (height : Nat) (blockData : List Nat) :
    BlockchainDB :=
  db.put ("block:" ++ fmtNat height) blockData

/-- Method `BlockchainDB.GetBlock`. -/
def BlockchainDB.GetBlock (db : BlockchainDB) (height : Nat) : Option (List Nat) :=
  db.get ("block:" ++ fmtNat height)

/-- Method `BlockchainDB.SaveState`. -/
def BlockchainDB.SaveState (db : BlockchainDB) (stateData : List Nat) : BlockchainDB :=
  db.put "state:latest" stateData

/-- Method `BlockchainDB.GetState`. -/
def BlockchainDB.GetState (db : BlockchainDB) : Option (List Nat) :=
  db.get "state:latest"

/-- Method `BlockchainDB.GetTransaction`. -/
def BlockchainDB.GetTransaction (db : BlockchainDB) (txHash : String) : Option (List Nat) :=
  db.get ("tx:" ++ txHash)

/-- Method `BlockchainDB.SaveAccount`. -/
def BlockchainDB.SaveAccount (db : BlockchainDB) (address : String) (accountData : List Nat) :
    BlockchainDB :=
  db.put ("account:" ++ address) accountData

/-- Method `BlockchainDB.GetAccount`. -/
def BlockchainDB.GetAccount (db : BlockchainDB) (address : String) : Option (List Nat) :=
  db.get ("account:" ++ address)

/-- Method `BlockchainDB.SaveLatestHeight`; `height` is a `uint64`. -/
def BlockchainDB.SaveLatestHeight (db : BlockchainDB) (height : Nat) : BlockchainDB :=
  db.put "height:latest" (asciiBytes (fmtNat height))

/-- Method `BlockchainDB.GetLatestHeight`; `none` where the source returns an error. -/
def BlockchainDB.GetLatestHeight (db : BlockchainDB) : Option Nat :=
  match db.get "height:latest" with
  | none => none
  | some heightBytes => some (scanUint64 (asciiString heightBytes))

/-! ## Request ids (`internal/network/query_handler.go`) -/

/-- Function `generateRequestID`; `counter` is the package variable `requestIDCounter`, an
`int64`, and `nanos` is what `time.Now().UnixNano()` returns. The result is the id and the
new value of the counter. -/
def generateRequestID (counter : Int) (nanos : Int) : String × Int :=
  let counter1 := wrapInt64 (counter + 1)
  ("query-" ++ fmtInt nanos ++ "-" ++ fmtInt counter1, counter1)

/-- Scenario driver: successive calls of `generateRequestID`, one for each clock reading of
the list; the ids in the order of the calls. -/
def generateRequestIDs (counter : Int) : List Int → List String
  | [] => []
  | nanos :: rest =>
    let r := generateRequestID counter nanos
    r.1 :: generateRequestIDs r.2 rest

/-! ## Commit and the stored chain (`abci_app.go`, `internal/execution/state.go`) -/

/-- Encodings of `encoding/json` and conversions of go-ethereum's `common` that `Commit`,
`saveBlock`, `Query`, `HandleQuery` and `InitChain` call, beside those of `Lib`. -/
structure Codec where
  marshalBlock : Block → List Nat
  unmarshalBlock : List Nat → Option Block
  marshalAppState : Int → List Nat → List ValidatorUpdate → List Nat
  marshalStateMeta : String → Int → String → List Nat
  marshalManagerState : String → Nat → Int → List Nat
  unmarshalTimestamp : List Nat → Option Int
  marshalBalance : String → String → List Nat
  marshalAccount : AccountState → List Nat
  marshalHeight : Nat → List Nat
  unmarshalValidators : List Nat → Option (List Validator)
  bytesToAddressHex : List Nat → String

/-- The go-ethereum `state.StateDB` behind the executor's `StateManager`: whether
`sm.stateDB` is set, `IntermediateRoot(true)` and `Commit(true)` (`none` for an error). -/
structure StateBackend (σ : Type) where
  hasStateDB : σ → Bool
  IntermediateRoot : σ → List Nat
  Commit : σ → Option σ

/-- Value `common.Hash{}`. -/
def zeroHash : List Nat := List.replicate 32 0

/-- Function `common.BytesToHash`: the last 32 bytes, padded on the left. -/
def bytesToHash (b : List Nat) : List Nat :=
  if b.length > 32 then b.drop (b.length - 32) else List.replicate (32 - b.length) 0 ++ b

/-- Method `StateManager.GetRootHash`. -/
def StateManager.GetRootHash {σ : Type} (sb : StateBackend σ) (s : σ) : List Nat :=
  if !sb.hasStateDB s then zeroHash else sb.IntermediateRoot s

/-- Method `StateManager.getCurrentHeight`. -/
def StateManager.getCurrentHeight (db : BlockchainDB) : Nat :=
  match db.GetLatestHeight with
  | none => 0
  | some height => height

/-- Method `StateManager.getCurrentTimestamp`. -/
def StateManager.getCurrentTimestamp (cd : Codec) (db : BlockchainDB) : Int :=
  match db.GetLatestHeight with
  | none => 0
  | some height =>
    match db.GetBlock height with
    | none => 0
    | some blockData =>
      match cd.unmarshalTimestamp blockData with
      | none => 0
      | some t => t

/-- Method `StateManager.SaveState`, which `EVMExecutor.SaveState` calls: the error, if
any, the state database and the store. -/
def StateManager.SaveState {σ : Type} (lib : Lib) (cd : Codec) (sb : StateBackend σ) (s : σ)
    (db : BlockchainDB) : Option String × σ × BlockchainDB :=
  if !sb.hasStateDB s then (some "StateDB no está inicializado", s, db)
  else
    let root := sb.IntermediateRoot s
    match sb.Commit s with
    | none => (some "error haciendo commit del StateDB", s, db)
    | some s1 =>
      let stateData := cd.marshalManagerState (lib.hashHex root)
        (StateManager.getCurrentHeight db) (StateManager.getCurrentTimestamp cd db)
      (none, s1, db.SaveState stateData)

/-- Method `ABCIApp.saveBlock`; the writes to the store do not fail. -/
def saveBlock {σ : Type} (lib : Lib) (cd : Codec) (app : ABCIApp σ) (blockHash : List Nat) :
    ABCIApp σ :=
  let blockHashStr := lib.hashHex (bytesToHash blockHash)
  let parentHash :=
    if app.currentBlockHeight > 0 then
      match app.storage.GetBlock (app.currentBlockHeight - 1) with
      | none => ""
      | some parentBlockData =>
        match cd.unmarshalBlock parentBlockData with
        | none => ""
        | some parentBlock => parentBlock.Header.Hash
    else ""
  let block := assembleBlock app blockHashStr parentHash
  let blockData := cd.marshalBlock block
  { app with
    storage := (app.storage.SaveBlock app.currentBlockHeight blockData).SaveLatestHeight
      app.currentBlockHeight }

/-- Method `ABCIApp.Commit`: the `Data` of the response and the application. -/
def Commit {σ : Type} (lib : Lib) (cd : Codec) (sb : StateBackend σ) (app : ABCIApp σ) :
    List Nat × ABCIApp σ :=
  let saved := StateManager.SaveState lib cd sb app.executor app.storage
  let app1 : ABCIApp σ := { app with executor := saved.2.1, storage := saved.2.2 }
  let stateRoot := StateManager.GetRootHash sb app1.executor
  let appHash :=
    if stateRoot ≠ zeroHash then stateRoot
    else
      let stateData := cd.marshalAppState app1.stateHeight app1.stateAppHash app1.stateValidators
      (lib.keccak256 stateData).take 32
  let stateData := cd.marshalStateMeta (lib.hashHex stateRoot) app1.stateHeight
    (lib.hashHex (bytesToHash appHash))
  let app2 : ABCIApp σ := { app1 with storage := app1.storage.SaveState stateData }
  let app3 : ABCIApp σ :=
    if app2.currentBlockHeight > 0 then saveBlock lib cd app2 appHash else app2
  (appHash, { app3 with stateAppHash := copyBytes app3.stateAppHash appHash })

/-- Sample encoding of a string: its length, then its characters. -/
def encString (s : String) : List Nat := s.length :: asciiBytes s

/-- Sample `json.Marshal` of a block: the height, the hash and the parent hash of its
header. -/
def sampleMarshalBlock (b : Block) : List Nat :=
  b.Header.Height :: (encString b.Header.Hash ++ encString b.Header.ParentHash)

/-- Sample `json.Unmarshal` into a block, reading what `sampleMarshalBlock` writes. -/
def sampleUnmarshalBlock : List Nat → Option Block
  | height :: n :: rest =>
    match rest.drop n with
    | m :: rest2 =>
      if n ≤ rest.length ∧ m = rest2.length then
        some { Header := { Height := height, Hash := asciiString (rest.take n),
                           ParentHash := asciiString rest2, Timestamp := 0, Validator := "",
                           ChainID := "" },
               Transactions := [], Receipts := [] }
      else none
    | [] => none
  | _ => none

/-- Sample encodings; `bytesToAddressHex` reads the bytes as characters. -/
def sampleCodec : Codec :=
  { marshalBlock := sampleMarshalBlock,
    unmarshalBlock := sampleUnmarshalBlock,
    marshalAppState := fun height appHash _ => height.toNat :: appHash,
    marshalStateMeta := fun root height appHash =>
      height.toNat :: (encString root ++ encString appHash),
    marshalManagerState := fun root height timestamp =>
      height :: timestamp.toNat :: encString root,
    unmarshalTimestamp := fun _ => some 0,
    marshalBalance := fun address balance => encString address ++ encString balance,
    marshalAccount := fun s => s.Nonce :: (encString s.Address ++ encString s.Balance),
    marshalHeight := fun height => [height],
    unmarshalValidators := fun _ => none,
    bytesToAddressHex := asciiString }

/-- Slice expression `s[:n]` for `n` within the string. -/
def sliceTo (s : String) (n : Nat) : String := String.mk (s.data.take n)

/-- Slice expression `s[n:]` for `n` within the string. -/
def sliceFrom (s : String) (n : Nat) : String := String.mk (s.data.drop n)

/-- Record `abcitypes.ResponseQuery`: the fields that `Query` sets. -/
structure ResponseQuery where
  Code : Nat
  Log : String
  Value : List Nat
deriving DecidableEq, Repr

/-- Method `ABCIApp.Query`; `path` is `string(req.Path)`. The one error of `GetState` is
that the executor is not running. -/
def Query {σ : Type} (cd : Codec) (ex : Executor σ) (app : ABCIApp σ) (path : String) :
    ResponseQuery :=
  if path = "height" then
    let height := (app.stateHeight % 2 ^ 64).toNat
    { Code := 0, Log := "", Value := asciiBytes (fmtNat height) }
  else if path.length > 8 ∧ sliceTo path 8 = "balance/" then
    let address := sliceFrom path 8
    match ex.GetState app.executor address with
    | none =>
      { Code := 1, Log := "Error obteniendo balance: ejecutor EVM no está corriendo",
        Value := [] }
    | some accountState =>
      { Code := 0, Log := "", Value := cd.marshalBalance address accountState.Balance }
  else if path.length > 7 ∧ sliceTo path 7 = "account/" then
    let address := sliceFrom path 7
    match ex.GetState app.executor address with
    | none =>
      { Code := 1, Log := "Error obteniendo cuenta: ejecutor EVM no está corriendo",
        Value := [] }
    | some accountState => { Code := 0, Log := "", Value := cd.marshalAccount accountState }
  else if path.length > 3 ∧ sliceTo path 3 = "tx/" then
    let txHash := sliceFrom path 3
    match app.storage.GetTransaction txHash with
    | none => { Code := 1, Log := "Transacción no encontrada: " ++ txHash, Value := [] }
    | some txData => { Code := 0, Log := "", Value := txData }
  else if path.length > 6 ∧ sliceTo path 6 = "block/" then
    let height := scanUint64 (sliceFrom path 6)
    match app.storage.GetBlock height with
    | none =>
      { Code := 1, Log := "Bloque no encontrado: altura " ++ fmtNat height, Value := [] }
    | some blockData => { Code := 0, Log := "", Value := blockData }
  else { Code := 1, Log := "Query path desconocido: " ++ path, Value := [] }

/-- Record `QueryRequest`: the fields that `HandleQuery` reads. -/
structure QueryRequest where
  RequestID : String
  Path : String
deriving DecidableEq, Repr

/-- Record `QueryResponse`. -/
structure QueryResponse where
  ResponseType : String
  RequestID : String
  Path : String
  Data : List Nat
  Error : String
deriving DecidableEq, Repr

/-- Method `QueryHandler.getAccountState`, followed by the `json.Marshal` of the map it
returns: the state of the executor if there is one and it is running, else the account
data of the store if they parse (`jsonValid`; their re-encoding is taken to be the data
themselves), else the basic record of the address. -/
def getAccountState {σ : Type} (cd : Codec) (ex : Executor σ) (jsonValid : List Nat → Bool)
    (storage : BlockchainDB) (executor : Option σ) (address : String) : List Nat :=
  match executor.bind (fun e => ex.GetState e address) with
  | some accountState => cd.marshalAccount accountState
  | none =>
    match storage.GetAccount address with
    | some accountData =>
      if jsonValid accountData then accountData
      else cd.marshalAccount
        { Address := address, Balance := "0", Nonce := 0, CodeHash := "", Storage := [] }
    | none =>
      cd.marshalAccount
        { Address := address, Balance := "0", Nonce := 0, CodeHash := "", Storage := [] }

/-- Method `QueryHandler.HandleQuery`: the response that it hands to `sendResponse`.
`executor` is `qh.consensus.GetExecutor()`. -/
def HandleQuery {σ : Type} (cd : Codec) (ex : Executor σ) (jsonValid : List Nat → Bool)
    (storage : BlockchainDB) (executor : Option σ) (request : QueryRequest) : QueryResponse :=
  let respond := fun (data : List Nat) (error : String) =>
    ({ ResponseType := "response", RequestID := request.RequestID, Path := request.Path,
       Data := data, Error := error } : QueryResponse)
  if request.Path = "height" ∨ request.Path = "status" then
    match storage.GetLatestHeight with
    | none => respond [] "error obteniendo altura: leveldb: not found"
    | some height => respond (cd.marshalHeight height) ""
  else if request.Path.length > 6 ∧ sliceTo request.Path 6 = "block/" then
    let height := scanUint64 (sliceFrom request.Path 6)
    match storage.GetBlock height with
    | none => respond [] ("bloque no encontrado: altura " ++ fmtNat height)
    | some blockData => respond blockData ""
  else if request.Path.length > 3 ∧ sliceTo request.Path 3 = "tx/" then
    let txHash := sliceFrom request.Path 3
    match storage.GetTransaction txHash with
    | none => respond [] ("transacción no encontrada: " ++ txHash)
    | some txData => respond txData ""
  else if request.Path.length > 7 ∧ sliceTo request.Path 7 = "account/" then
    let address := sliceFrom request.Path 7
    respond (getAccountState cd ex jsonValid storage executor address) ""
  else respond [] ("query path desconocido: " ++ request.Path)

/-! ## The EVM executor (`internal/execution/evmone.go`) -/

/-- Record `types.Message` of go-ethereum, as `types.NewMessage` fills it; `To` is a
pointer, `none` being `nil`, the mark of a contract creation. -/
structure Message where
  From : List Nat
  To : Option (List Nat)
  Nonce : Nat
  Value : Int
  GasLimit : Nat
  GasPrice : Int
  Data : List Nat
deriving DecidableEq, Repr

/-- Record `core.ExecutionResult` of go-ethereum, with `Failed()` as a field and the logs
in the form that `ExecuteTransaction` converts them to. -/
structure CoreResult where
  UsedGas : Nat
  Failed : Bool
  ReturnData : List Nat
  Logs : List ExecutionLog
deriving DecidableEq, Repr

/-- The calls into go-ethereum of `ExecuteTransaction`, `DeployContract` and `GetState`
over a state database `σ`. `NewEVMBlockContext` is the call
`core.NewEVMBlockContext(header, nil, nil)` for the number, gas limit and time of the
header: `none` when it panics. `ApplyMessage` returns the pair `(result, err)` of
`core.ApplyMessage`, each `none` for `nil`, for the block height and time of the header
and the message. `GetStorage` reads the slot of the given number. -/
structure EVM (σ : Type) where
  GetNonce : σ → List Nat → Nat
  GetBalance : σ → List Nat → Int
  GetCodeHash : σ → List Nat → List Nat
  GetStorage : σ → List Nat → Nat → List Nat
  NewEVMBlockContext : Nat → Nat → Int → Option Unit
  ApplyMessage : σ → Nat → Int → Message → (Option CoreResult × Option String) × σ
  Finalise : σ → σ
  CreateAddress : List Nat → Nat → List Nat
  addressHex : List Nat → String

/-- Record `EVMExecutor`: its state database, as `Start` loads it, the block information
and the flag `running`. -/
structure EVMExecutor (σ : Type) where
  stateDB : σ
  currentHeight : Nat
  currentTimestamp : Int
  running : Bool

/-- The message that `ExecuteTransaction` builds with `types.NewMessage`. -/
def buildMessage (lib : Lib) (tx : ExecutionTransaction) (value gasPrice : Int) : Message :=
  let sender := lib.hexToAddress tx.From
  let recipient := lib.hexToAddress tx.To
  { From := sender, To := some recipient, Nonce := tx.Nonce, Value := value,
    GasLimit := tx.GasLimit, GasPrice := gasPrice, Data := tx.Data }

/-- Method `EVMExecutor.SetCurrentBlockInfo`. -/
def EVMExecutor.SetCurrentBlockInfo {σ : Type} (e : EVMExecutor σ) (height : Nat)
    (timestamp : Int) : EVMExecutor σ :=
  { e with currentHeight := height, currentTimestamp := timestamp }

/-- Method `EVMExecutor.GetState`; `none` for its error. The storage holds the slots 0 to
99 whose value is not the zero hash. -/
def EVMExecutor.GetState {σ : Type} (lib : Lib) (evm : EVM σ) (e : EVMExecutor σ)
    (address : String) : Option AccountState :=
  if !e.running then none
  else
    let addr := lib.hexToAddress address
    some { Address := address,
           Balance := fmtInt (evm.GetBalance e.stateDB addr),
           Nonce := evm.GetNonce e.stateDB addr,
           CodeHash := lib.hashHex (evm.GetCodeHash e.stateDB addr),
           Storage := (List.range 100).filterMap (fun i =>
             let value := evm.GetStorage e.stateDB addr i
             if value ≠ zeroHash then some (lib.hashHex (bytesToHash [i]), lib.hashHex value)
             else none) }

/-- Method `EVMExecutor.ExecuteTransaction`. The local `nonce`, read from the state for a
transaction nonce of 0, goes into `ethereumTx` only, which is not used. The block context
is asked of go-ethereum with a nil chain and a nil author; where that call panics, so
does this one. -/
def EVMExecutor.ExecuteTransaction {σ : Type} (lib : Lib) (evm : EVM σ) (e : EVMExecutor σ)
    (tx : ExecutionTransaction) : Outcome ExecutionResult × EVMExecutor σ :=
  if !e.running then (.error "ejecutor EVM no está corriendo", e)
  else
    match lib.bigSetString tx.Value with
    | none => (.error ("valor inválido: " ++ tx.Value), e)
    | some value =>
      match lib.bigSetString tx.GasPrice with
      | none => (.error ("gas price inválido: " ++ tx.GasPrice), e)
      | some gasPrice =>
        let nonce := if tx.Nonce = 0 then evm.GetNonce e.stateDB (lib.hexToAddress tx.From)
          else tx.Nonce
        let _ethereumTx :=
          (nonce, lib.hexToAddress tx.To, value, tx.GasLimit, gasPrice, tx.Data)
        match evm.NewEVMBlockContext e.currentHeight tx.GasLimit e.currentTimestamp with
        | none => (.fault, e)
        | some _ =>
          let msg := buildMessage lib tx value gasPrice
          let r := evm.ApplyMessage e.stateDB e.currentHeight e.currentTimestamp msg
          let e1 : EVMExecutor σ := { e with stateDB := r.2 }
          match r.1.2 with
          | some err =>
            match r.1.1 with
            | none => (.fault, e1)
            | some result =>
              (.ok { Success := false, GasUsed := result.UsedGas, ReturnData := [],
                     Logs := [], Error := err }, e1)
          | none =>
            match r.1.1 with
            | none => (.fault, e1)
            | some result =>
              let e2 : EVMExecutor σ :=
                if !result.Failed then { e1 with stateDB := evm.Finalise e1.stateDB } else e1
              (.ok { Success := !result.Failed, GasUsed := result.UsedGas,
                     ReturnData := result.ReturnData, Logs := result.Logs, Error := "" }, e2)

/-- Method `EVMExecutor.DeployContract`: the contract address and the result, or the
error. The second declarations of `stateDB` and `nonce`, after the execution, are read as
assignments. -/
def EVMExecutor.DeployContract {σ : Type} (lib : Lib) (evm : EVM σ) (e : EVMExecutor σ)
    (sender : String) (code constructorArgs : List Nat) (gasLimit : Nat) (gasPrice : String) :
    Outcome (String × ExecutionResult) × EVMExecutor σ :=
  if !e.running then (.error "ejecutor EVM no está corriendo", e)
  else
    let fromAddr := lib.hexToAddress sender
    let contractData := code ++ constructorArgs
    let nonce := evm.GetNonce e.stateDB (lib.hexToAddress sender)
    let tx : ExecutionTransaction :=
      { Hash := "", From := sender, To := "", Value := "0", Data := contractData,
        GasLimit := gasLimit, GasPrice := gasPrice, Nonce := nonce }
    let r := EVMExecutor.ExecuteTransaction lib evm e tx
    match r.1 with
    | .fault => (.fault, r.2)
    | .error msg => (.error ("error ejecutando deployment: " ++ msg), r.2)
    | .ok result =>
      if !result.Success then (.error ("deployment falló: " ++ result.Error), r.2)
      else
        let nonce := evm.GetNonce r.2.stateDB fromAddr
        let contractAddr := evm.addressHex (evm.CreateAddress fromAddr nonce)
        (.ok (contractAddr, result), r.2)

/-- Sample go-ethereum over a state that is the nonce of every account. As in
go-ethereum, the block context of a nil chain panics (`chain.Engine()` on the nil
interface), and a message whose nonce is not the stored one is refused with `(nil, err)`;
any other message is a successful call that raises the nonce. The address of a contract
is the sender followed by the nonce. -/
def sampleEVM : EVM Nat :=
  { GetNonce := fun s _ => s,
    GetBalance := fun _ _ => 0,
    GetCodeHash := fun _ _ => zeroHash,
    GetStorage := fun _ _ _ => zeroHash,
    NewEVMBlockContext := fun _ _ _ => none,
    ApplyMessage := fun s _ _ msg =>
      if msg.Nonce = s then
        ((some { UsedGas := 21000, Failed := false, ReturnData := [], Logs := [] }, none), s + 1)
      else ((none, some (if msg.Nonce > s then "nonce too high" else "nonce too low")), s),
    Finalise := fun s => s,
    CreateAddress := fun sender nonce => sender ++ [nonce],
    addressHex := fun a => String.mk (a.map Char.ofNat) }

/-- Sample executor record: running, every account at nonce 3. -/
def sampleEVMExecutor : EVMExecutor Nat :=
  { stateDB := 3, currentHeight := 1, currentTimestamp := 0, running := true }

/-- Sample execution transaction with the nonce 5. -/
def txNonceFive : ExecutionTransaction :=
  { Hash := "h", From := "7", To := "8", Value := "0", Data := [], GasLimit := 21000,
    GasPrice := "1", Nonce := 5 }

/-! ## Genesis (`abci_app.go`, `validators.go`) -/

/-- Method `ValidatorSet.LoadValidators` over the store of the node; its error is only
logged. -/
def LoadValidators (cd : Codec) (vs : ValidatorSet) (db : BlockchainDB) : ValidatorSet :=
  match db.GetAccount "validators:set" with
  | none => vs
  | some validatorsData =>
    match cd.unmarshalValidators validatorsData with
    | none => vs
    | some validatorsList => { vs with validators := validatorsList.foldl mapInsert [] }

/-- Method `ABCIApp.InitChain`: how the call ends, with the validators and the app hash
of the response, and the application. The product `v.Power * 1e18` is taken in `int64`;
`now` is the clock reading of `InitializeGenesisValidators`, whose write of the set to the
store is left out. The call ends as `InitializeGenesisValidators` does where it calls
it. -/
def InitChain {σ : Type} (cd : Codec) (app : ABCIApp σ) (reqValidators : List ValidatorUpdate)
    (now : Int) : Call (List ValidatorUpdate × List Nat) × ABCIApp σ :=
  match app.validators with
  | some vs =>
    let vs1 := LoadValidators cd vs app.storage
    if (GetActiveValidators vs1).length = 0 then
      let genesisValidators := reqValidators.map (fun v =>
        ({ Address := cd.bytesToAddressHex v.PubKeyData, PubKey := v.PubKeyData,
           Stake := wrapInt64 (v.Power * 1000000000000000000) } : GenesisValidator))
      let r := InitializeGenesisValidatorsCall vs1 genesisValidators now
      match r.1 with
      | .returns _ =>
        let app1 : ABCIApp σ :=
          { app with validators := some r.2, stateValidators := ToCometBFTValidators r.2 }
        (.returns (app1.stateValidators, app1.stateAppHash), app1)
      | .blocks => (.blocks, { app with validators := some r.2 })
      | .faults => (.faults, { app with validators := some r.2 })
    else
      let app1 : ABCIApp σ :=
        { app with validators := some vs1, stateValidators := ToCometBFTValidators vs1 }
      (.returns (app1.stateValidators, app1.stateAppHash), app1)
  | none =>
    let app1 : ABCIApp σ := { app with stateValidators := reqValidators }
    (.returns (app1.stateValidators, app1.stateAppHash), app1)

/-- Sample application with an empty validator set of minimum stake one token. -/
def genesisApp : ABCIApp Nat :=
  { sampleApp with validators := some (NewValidatorSet 1000000000000000000 100) }

theorem bigInt64_of_small {x : Int} (h0 : 0 ≤ x) (h1 : x ≤ 2 ^ 30) : bigInt64 x = x := by
  unfold bigInt64 wrapInt64
  have hx : ((x.natAbs % 2 ^ 64 : Nat) : Int) = x := by
    have : ((x.natAbs : Nat) : Int) = x := Int.natAbs_of_nonneg h0
    omega
  simp only [hx]
  have : ¬ x < 0 := by omega
  simp only [this, if_false]
  omega

theorem lowest_foldl_some (l : List Validator) (a : Validator) :
    ∃ m, l.foldl
        (fun lowest v =>
          match lowest with
          | none => some v
          | some l => if v.Stake < l.Stake then some v else some l)
        (some a) = some m ∧ (m = a ∨ m ∈ l) ∧ m.Stake ≤ a.Stake ∧ ∀ w ∈ l, m.Stake ≤ w.Stake := by
  induction l generalizing a with
  | nil => exact ⟨a, rfl, Or.inl rfl, le_refl _, by simp⟩
  | cons x xs ih =>
    simp only [List.foldl_cons]
    by_cases hx : x.Stake < a.Stake
    · simp only [hx, if_true]
      obtain ⟨m, hm, hmem, hle, hall⟩ := ih x
      refine ⟨m, hm, ?_, by omega, ?_⟩
      · rcases hmem with h | h
        · exact Or.inr (by simp [h])
        · exact Or.inr (List.mem_cons_of_mem _ h)
      · intro w hw
        rcases List.mem_cons.mp hw with h | h
        · rw [h]; exact hle
        · exact hall w h
    · simp only [hx, if_false]
      obtain ⟨m, hm, hmem, hle, hall⟩ := ih a
      refine ⟨m, hm, ?_, hle, ?_⟩
      · rcases hmem with h | h
        · exact Or.inl h
        · exact Or.inr (List.mem_cons_of_mem _ h)
      · intro w hw
        rcases List.mem_cons.mp hw with h | h
        · rw [h]; omega
        · exact hall w h

theorem findLowest_nil (vs : ValidatorSet) (h : vs.validators = []) :
    findLowestStakeValidator vs = none := by
  unfold findLowestStakeValidator
  rw [h]
  rfl

theorem findLowest_cons (vs : ValidatorSet) (h : vs.validators ≠ []) :
    ∃ m, findLowestStakeValidator vs = some m ∧ m ∈ vs.validators ∧
      ∀ w ∈ vs.validators, m.Stake ≤ w.Stake := by
  unfold findLowestStakeValidator
  cases hl : vs.validators with
  | nil => exact absurd hl h
  | cons x xs =>
    simp only [List.foldl_cons]
    obtain ⟨m, hm, hmem, hle, hall⟩ := lowest_foldl_some xs x
    refine ⟨m, hm, ?_, ?_⟩
    · rcases hmem with h1 | h1
      · simp [h1]
      · exact List.mem_cons_of_mem _ h1
    · intro w hw
      rcases List.mem_cons.mp hw with h1 | h1
      · rw [h1]; exact hle
      · exact hall w h1

theorem mapLookup_isSome (l : List Validator) (address : String) :
    (mapLookup l address).isSome = true ↔ ∃ v ∈ l, v.Address = address := by
  unfold mapLookup
  rw [List.find?_isSome]
  simp

theorem mapDelete_mem (l : List Validator) (a : String) (w : Validator) :
    w ∈ mapDelete l a ↔ w ∈ l ∧ w.Address ≠ a := by
  simp [mapDelete, List.mem_filter]

theorem mapDelete_absent (l : List Validator) (a : String)
    (h : ∀ v ∈ l, v.Address ≠ a) : mapDelete l a = l := by
  unfold mapDelete
  rw [List.filter_eq_self]
  intro v hv
  simpa using h v hv

theorem mapDelete_length (l : List Validator) (m : Validator) (hm : m ∈ l)
    (hnodup : (l.map (fun v => v.Address)).Nodup) :
    (mapDelete l m.Address).length + 1 = l.length := by
  induction l with
  | nil => exact absurd hm (List.not_mem_nil m)
  | cons x xs ih =>
    rw [List.map_cons, List.nodup_cons] at hnodup
    obtain ⟨hx, hxs⟩ := hnodup
    by_cases hxa : x.Address = m.Address
    · have habs : ∀ v ∈ xs, v.Address ≠ m.Address := by
        intro v hv hva
        apply hx
        rw [hxa, ← hva]
        exact List.mem_map_of_mem _ hv
      have h1 : mapDelete (x :: xs) m.Address = mapDelete xs m.Address := by
        simp [mapDelete, hxa]
      rw [h1, mapDelete_absent xs _ habs]
      rfl
    · have hmx : m ∈ xs := by
        rcases List.mem_cons.mp hm with h | h
        · exact absurd (by rw [h]) hxa
        · exact h
      have h1 : mapDelete (x :: xs) m.Address = x :: mapDelete xs m.Address := by
        simp [mapDelete, hxa]
      rw [h1, List.length_cons, List.length_cons, ih hmx hxs]

theorem mapInsert_new (l : List Validator) (v : Validator)
    (h : ∀ w ∈ l, w.Address ≠ v.Address) : mapInsert l v = l ++ [v] := by
  unfold mapInsert
  have : l.any (fun w => w.Address == v.Address) = false := by
    rw [List.any_eq_false]
    intro w hw
    simpa using h w hw
  rw [this]
  rfl

theorem mapLookup_absent (l : List Validator) (address : String)
    (h : ∀ v ∈ l, v.Address ≠ address) : ¬ (mapLookup l address).isSome = true := by
  rw [mapLookup_isSome]
  rintro ⟨v, hv, hva⟩
  exact h v hv hva

/-- What `RegisterValidator` does on a set with room for the new validator. -/
theorem register_room (vs : ValidatorSet) (address : String) (pubKey : List Nat)
    (initialStake now : Int)
    (hroom : (vs.validators.length : Int) < vs.maxValidators)
    (hnew : ∀ v ∈ vs.validators, v.Address ≠ address)
    (hmin : vs.minStake ≤ initialStake) :
    RegisterValidator vs address pubKey initialStake now =
      (.ok (newValidator address pubKey initialStake now),
        { vs with validators := vs.validators ++ [newValidator address pubKey initialStake now] }) := by
  unfold RegisterValidator
  rw [if_neg (mapLookup_absent _ _ hnew), if_neg (by omega), if_neg (by omega)]
  dsimp only
  rw [mapInsert_new _ _ hnew]
  rfl

/-- What `RegisterValidator` does on a full set when the new stake beats the lowest one. -/
theorem register_full (vs : ValidatorSet) (address : String) (pubKey : List Nat)
    (initialStake now : Int)
    (hfull : vs.maxValidators ≤ (vs.validators.length : Int))
    (hnew : ∀ v ∈ vs.validators, v.Address ≠ address)
    (hmin : vs.minStake ≤ initialStake)
    (hgt : ∃ m ∈ vs.validators, m.Stake < initialStake) :
    ∃ evicted, evicted ∈ vs.validators ∧ (∀ w ∈ vs.validators, evicted.Stake ≤ w.Stake) ∧
      RegisterValidator vs address pubKey initialStake now =
        (.ok (newValidator address pubKey initialStake now),
          { vs with validators :=
              mapDelete vs.validators evicted.Address ++
                [newValidator address pubKey initialStake now] }) := by
  obtain ⟨m0, hm0, hlt0⟩ := hgt
  have hnil : vs.validators ≠ [] := List.ne_nil_of_mem hm0
  obtain ⟨m, hm, hmem, hall⟩ := findLowest_cons vs hnil
  refine ⟨m, hmem, hall, ?_⟩
  have h4 : ¬ initialStake ≤ m.Stake := by
    have := hall m0 hm0
    omega
  unfold RegisterValidator
  rw [if_neg (mapLookup_absent _ _ hnew), if_neg (by omega), if_pos (by omega), hm]
  dsimp only
  rw [if_neg h4]
  dsimp only
  have hnew2 : ∀ w ∈ mapDelete vs.validators m.Address,
      w.Address ≠ (newValidator address pubKey initialStake now).Address := by
    intro w hw
    exact hnew w ((mapDelete_mem _ _ _).mp hw).1
  have := mapInsert_new _ _ hnew2
  unfold newValidator at this ⊢
  rw [this]

theorem bubbleLeft_perm {α : Type} (less : α → α → Bool) (x : α) (l : List α) :
    (bubbleLeft less x l).Perm (x :: l) := by
  induction l with
  | nil => exact List.Perm.refl _
  | cons y ys ih =>
    unfold bubbleLeft
    by_cases h : less x y = true
    · rw [if_pos h]
      exact (List.Perm.cons y ih).trans (List.Perm.swap x y ys)
    · rw [if_neg h]

theorem foldl_bubbleLeft_perm {α : Type} (less : α → α → Bool) (l acc : List α) :
    (l.foldl (fun rev x => bubbleLeft less x rev) acc).Perm (acc ++ l) := by
  induction l generalizing acc with
  | nil => simp
  | cons x xs ih =>
    rw [List.foldl_cons]
    refine (ih _).trans ?_
    refine (List.Perm.append_right xs (bubbleLeft_perm less x acc)).trans ?_
    simp only [List.cons_append]
    exact List.perm_middle.symm

theorem sortSlice_perm {α : Type} (less : α → α → Bool) (l : List α) :
    (sortSlice less l).Perm l := by
  unfold sortSlice
  refine (List.reverse_perm _).trans ?_
  simpa using foldl_bubbleLeft_perm less l []

theorem bubbleLeft_sorted {α : Type} (key : α → Int) (x : α) (l : List α)
    (h : l.Pairwise (fun a b => key a ≤ key b)) :
    (bubbleLeft (fun a b => decide (key a > key b)) x l).Pairwise
      (fun a b => key a ≤ key b) := by
  induction l with
  | nil => simp [bubbleLeft]
  | cons y ys ih =>
    rw [List.pairwise_cons] at h
    obtain ⟨hy, hys⟩ := h
    unfold bubbleLeft
    by_cases hxy : key x > key y
    · rw [if_pos (by simpa using hxy)]
      rw [List.pairwise_cons]
      refine ⟨?_, ih hys⟩
      intro b hb
      have hb2 := (bubbleLeft_perm _ x ys).mem_iff.mp hb
      rcases List.mem_cons.mp hb2 with h1 | h1
      · rw [h1]; omega
      · exact hy b h1
    · rw [if_neg (by simpa using hxy)]
      rw [List.pairwise_cons, List.pairwise_cons]
      refine ⟨?_, hy, hys⟩
      intro b hb
      rcases List.mem_cons.mp hb with h1 | h1
      · rw [h1]; omega
      · have := hy b h1
        omega

theorem foldl_bubbleLeft_sorted {α : Type} (key : α → Int) (l acc : List α)
    (h : acc.Pairwise (fun a b => key a ≤ key b)) :
    (l.foldl (fun rev x => bubbleLeft (fun a b => decide (key a > key b)) x rev) acc).Pairwise
      (fun a b => key a ≤ key b) := by
  induction l generalizing acc with
  | nil => exact h
  | cons x xs ih =>
    rw [List.foldl_cons]
    exact ih _ (bubbleLeft_sorted key x acc h)

theorem sortSlice_sorted {α : Type} (key : α → Int) (l : List α) :
    (sortSlice (fun a b => decide (key a > key b)) l).Pairwise (fun a b => key a ≥ key b) := by
  unfold sortSlice
  rw [List.pairwise_reverse]
  exact foldl_bubbleLeft_sorted key l [] List.Pairwise.nil

theorem mapLookup_mapUpdate (l : List Validator) (address : String) (f : Validator → Validator)
    (hf : ∀ w, (f w).Address = w.Address) :
    mapLookup (mapUpdate l address f) address = (mapLookup l address).map f := by
  induction l with
  | nil => rfl
  | cons x xs ih =>
    unfold mapLookup mapUpdate at ih ⊢
    rw [List.map_cons, List.find?_cons, List.find?_cons]
    by_cases hx : x.Address = address
    · have h1 : (x.Address == address) = true := by simpa using hx
      have h2 : ((f x).Address == address) = true := by rw [hf]; exact h1
      rw [if_pos h1, h2, h1]
      rfl
    · have h1 : (x.Address == address) = false := by simpa using hx
      rw [if_neg (by simp [h1]), h1]
      exact ih

theorem mapLookup_mapDelete (l : List Validator) (address : String) :
    mapLookup (mapDelete l address) address = none := by
  unfold mapLookup
  rw [List.find?_eq_none]
  intro w hw
  have := ((mapDelete_mem _ _ _).mp hw).2
  simpa using this

theorem mapLookup_none (l : List Validator) (address : String)
    (h : mapLookup l address = none) : ∀ w ∈ l, w.Address ≠ address := by
  unfold mapLookup at h
  rw [List.find?_eq_none] at h
  intro w hw
  simpa using h w hw

/-- The entry under `address` after a `Slash` of a registered validator. -/
theorem Slash_lookup (vs : ValidatorSet) (address : String) (p d now : Int) (v : Validator)
    (hv : mapLookup vs.validators address = some v) :
    (Slash vs address p d now).1 = none ∧
      mapLookup (Slash vs address p d now).2.validators address =
        if v.Stake - v.Stake * p / 100 < vs.minStake then none
        else some { v with Stake := v.Stake - v.Stake * p / 100,
                           Power := calculatePower (v.Stake - v.Stake * p / 100),
                           Jailed := true, JailedUntil := now + d } := by
  unfold Slash
  rw [hv]
  dsimp only
  refine ⟨rfl, ?_⟩
  by_cases h : v.Stake - v.Stake * p / 100 < vs.minStake
  · rw [if_pos h, if_pos h, mapLookup_mapDelete]
  · rw [if_neg h, if_neg h, mapLookup_mapUpdate, hv]
    · rfl
    · intro w
      rfl

theorem wrapInt64_of_range {x : Int} (h0 : -2 ^ 63 ≤ x) (h1 : x < 2 ^ 63) : wrapInt64 x = x := by
  unfold wrapInt64
  omega

/-- The percentage handed to `Slash` for `k` full hundreds of missed blocks. -/
theorem slashPercentage_floor (k : Int) :
    ⌊(if (k : ℚ) * (5 / 100) > 50 / 100 then (50 / 100 : ℚ) else (k : ℚ) * (5 / 100)) * 100⌋ =
      min 50 (5 * k) := by
  by_cases h : (k : ℚ) * (5 / 100) > 50 / 100
  · rw [if_pos h]
    have h1 : (50 / 100 : ℚ) * 100 = ((50 : Int) : ℚ) := by norm_num
    rw [h1, Int.floor_intCast]
    have h2 : (10 : ℚ) < (k : ℚ) := by linarith
    have h3 : (10 : Int) < k := by exact_mod_cast h2
    rw [min_eq_left (by omega)]
  · rw [if_neg h]
    have h1 : (k : ℚ) * (5 / 100) * 100 = ((5 * k : Int) : ℚ) := by push_cast; ring
    rw [h1, Int.floor_intCast]
    have h2 : (k : ℚ) ≤ (10 : ℚ) := by
      have := not_lt.mp h
      linarith
    have h3 : k ≤ (10 : Int) := by exact_mod_cast h2
    rw [min_eq_right (by omega)]

/-- The write lock is held when `SaveValidators` asks for the read lock: the run of
`Lock`, then the operations of `SaveValidators`, then `Unlock` stops at index 1. -/
theorem runLocks_save_under_lock :
    runLocks freeMutex 0 ([.Lock] ++ SaveValidatorsLocks ++ [.Unlock]) = .blocks 1 := by
  decide

theorem runLocks_no_save :
    runLocks freeMutex 0 ([.Lock] ++ [] ++ [.Unlock]) = .returns freeMutex := by
  decide

/-- A call that reaches `SaveValidators` waits there, its writes made. -/
theorem lockedCall_save {α : Type} (done : α × ValidatorSet) :
    lockedCall ([.Lock] ++ SaveValidatorsLocks ++ [.Unlock]) done = (.blocks, done.2) := by
  unfold lockedCall
  rw [runLocks_save_under_lock]

/-- A call that does not reach `SaveValidators` returns. -/
theorem lockedCall_no_save {α : Type} (done : α × ValidatorSet) :
    lockedCall ([.Lock] ++ [] ++ [.Unlock]) done = (.returns done.1, done.2) := by
  unfold lockedCall
  rw [runLocks_no_save]

theorem lockedCall_snd {α : Type} (locks : List LockOp) (done : α × ValidatorSet) :
    (lockedCall locks done).2 = done.2 := by
  unfold lockedCall
  cases runLocks freeMutex 0 locks <;> rfl

theorem RegisterValidatorCall_ok (vs : ValidatorSet) (address : String) (pubKey : List Nat)
    (initialStake now : Int)
    (h : isError (RegisterValidator vs address pubKey initialStake now).1 = false) :
    RegisterValidatorCall vs address pubKey initialStake now =
      (.blocks, (RegisterValidator vs address pubKey initialStake now).2) := by
  unfold RegisterValidatorCall RegisterValidatorLocks
  rw [h]
  exact lockedCall_save _

theorem StakeCall_none (vs : ValidatorSet) (address : String) (amount now : Int)
    (h : (Stake vs address amount now).1 = none) :
    StakeCall vs address amount now = (.blocks, (Stake vs address amount now).2) := by
  unfold StakeCall StakeLocks
  rw [h]
  exact lockedCall_save _

theorem StakeCall_some (vs : ValidatorSet) (address : String) (amount now : Int) (e : VError)
    (h : (Stake vs address amount now).1 = some e) :
    StakeCall vs address amount now = (.returns (some e), (Stake vs address amount now).2) := by
  unfold StakeCall StakeLocks
  rw [h]
  exact (lockedCall_no_save _).trans (by rw [h])

theorem UnstakeCall_none (vs : ValidatorSet) (address : String) (amount now : Int)
    (h : (Unstake vs address amount now).1 = none) :
    UnstakeCall vs address amount now = (.blocks, (Unstake vs address amount now).2) := by
  unfold UnstakeCall UnstakeLocks
  rw [h]
  exact lockedCall_save _

theorem UnstakeCall_some (vs : ValidatorSet) (address : String) (amount now : Int) (e : VError)
    (h : (Unstake vs address amount now).1 = some e) :
    UnstakeCall vs address amount now =
      (.returns (some e), (Unstake vs address amount now).2) := by
  unfold UnstakeCall UnstakeLocks
  rw [h]
  exact (lockedCall_no_save _).trans (by rw [h])

/-- `InitializeGenesisValidators` waits at the read lock of `SaveValidators`, the genesis
validators written. -/
theorem InitializeGenesisValidatorsCall_eq (vs : ValidatorSet)
    (genesisValidators : List GenesisValidator) (now : Int) :
    InitializeGenesisValidatorsCall vs genesisValidators now =
      (.blocks, InitializeGenesisValidators vs genesisValidators now) := by
  unfold InitializeGenesisValidatorsCall InitializeGenesisValidatorsLocks
  exact lockedCall_save _

/-- `RotateValidators` waits at the read lock of `GetActiveValidators`, nothing written. -/
theorem RotateValidators_eq (vs : ValidatorSet) : RotateValidators vs = (.blocks, vs) := by
  unfold RotateValidators
  rfl

theorem copyBytes_nil (src : List Nat) : copyBytes [] src = [] := by
  unfold copyBytes
  simp

/-! ## Claims -/

/-- C1: for every non-negative stake `s`, `calculatePower s` is
`min(2^30, ⌊s / 10^18⌋)`, and so lies between `0` and `2^30`. -/
theorem calculatePower_spec (s : Int) (hs : 0 ≤ s) :
    calculatePower s = min (2 ^ 30) ⌊(s : ℚ) / 10 ^ 18⌋ ∧
      0 ≤ calculatePower s ∧ calculatePower s ≤ 2 ^ 30 := by
  have hfloor : ⌊(s : ℚ) / 10 ^ 18⌋ = s / 1000000000000000000 := by
    have := Rat.floor_intCast_div_natCast s (10 ^ 18)
    norm_num at this ⊢
    exact this
  have hq : 0 ≤ s / 1000000000000000000 := Int.ediv_nonneg hs (by norm_num)
  rw [hfloor]
  unfold calculatePower
  simp only
  by_cases h : s / 1000000000000000000 > 2 ^ 30
  · simp only [h, if_true]
    refine ⟨?_, by norm_num, le_refl _⟩
    rw [min_eq_left (le_of_lt h)]
  · simp only [h, if_false]
    have hle : s / 1000000000000000000 ≤ 2 ^ 30 := not_lt.mp h
    rw [bigInt64_of_small hq hle]
    exact ⟨(min_eq_right hle).symm, hq, hle⟩

/-- Witness for C1 at a stake of 1500 tokens. -/
theorem calculatePower_spec_witness :
    (0 : Int) ≤ 1500000000000000000000 ∧
      calculatePower 1500000000000000000000 =
        min (2 ^ 30) ⌊((1500000000000000000000 : Int) : ℚ) / 10 ^ 18⌋ :=
  ⟨by decide, (calculatePower_spec 1500000000000000000000 (by decide)).1⟩

/-- C2: `RegisterValidator` returns an error exactly when the address is already in
the set, or the stake is below `minStake`, or the set is full (its size has reached
`maxValidators`) and the stake does not strictly exceed the smallest stake in the set;
in every error case the set is left as it was. -/
theorem RegisterValidator_error_iff (vs : ValidatorSet) (address : String) (pubKey : List Nat)
    (initialStake now : Int) :
    (isError (RegisterValidator vs address pubKey initialStake now).1 = true ↔
        ((∃ v ∈ vs.validators, v.Address = address) ∨ initialStake < vs.minStake ∨
          (vs.maxValidators ≤ (vs.validators.length : Int) ∧
            ¬ ∃ m ∈ vs.validators,
                (∀ w ∈ vs.validators, m.Stake ≤ w.Stake) ∧ m.Stake < initialStake))) ∧
      (isError (RegisterValidator vs address pubKey initialStake now).1 = true →
        (RegisterValidator vs address pubKey initialStake now).2 = vs) := by
  unfold RegisterValidator
  by_cases h1 : (mapLookup vs.validators address).isSome = true
  · rw [if_pos h1]
    exact ⟨⟨fun _ => Or.inl ((mapLookup_isSome _ _).mp h1), fun _ => rfl⟩, fun _ => rfl⟩
  · have h1a : ¬ ∃ v ∈ vs.validators, v.Address = address :=
      fun h => h1 ((mapLookup_isSome _ _).mpr h)
    rw [if_neg h1]
    by_cases h2 : initialStake < vs.minStake
    · rw [if_pos h2]
      exact ⟨⟨fun _ => Or.inr (Or.inl h2), fun _ => rfl⟩, fun _ => rfl⟩
    · rw [if_neg h2]
      by_cases h3 : (vs.validators.length : Int) ≥ vs.maxValidators
      · rw [if_pos h3]
        by_cases hnil : vs.validators = []
        · rw [findLowest_nil vs hnil]
          refine ⟨⟨fun _ => Or.inr (Or.inr ⟨h3, ?_⟩), fun _ => rfl⟩, fun _ => rfl⟩
          rintro ⟨m, hm, -⟩
          rw [hnil] at hm
          exact absurd hm (List.not_mem_nil m)
        · obtain ⟨m, hm, hmem, hall⟩ := findLowest_cons vs hnil
          rw [hm]
          dsimp only
          by_cases h4 : initialStake ≤ m.Stake
          · rw [if_pos h4]
            dsimp only
            refine ⟨⟨fun _ => Or.inr (Or.inr ⟨h3, ?_⟩), fun _ => rfl⟩, fun _ => rfl⟩
            rintro ⟨m2, hm2, hall2, hlt⟩
            have := hall m2 hm2
            omega
          · rw [if_neg h4]
            dsimp only
            refine ⟨⟨fun h => absurd h (by simp [isError]), ?_⟩,
              fun h => absurd h (by simp [isError])⟩
            rintro (h | h | ⟨-, h⟩)
            · exact absurd h h1a
            · exact absurd h h2
            · exact absurd ⟨m, hmem, hall, by omega⟩ h
      · rw [if_neg h3]
        refine ⟨⟨fun h => absurd h (by simp [isError]), ?_⟩,
          fun h => absurd h (by simp [isError])⟩
        rintro (h | h | ⟨h, -⟩)
        · exact absurd h h1a
        · exact absurd h h2
        · exact absurd h h3

/-- C3 (failing input: the registration of `"c"` with stake 15 on the full set of `"a"`
with 10 and `"b"` with 20): on a set holding exactly `maxValidators` entries, a call of
`RegisterValidator` for a new address whose stake is at least `minStake` and strictly
above the smallest stake in the set removes one validator of minimal stake, inserts the
new validator and leaves `maxValidators` entries, but it does not return: it waits for
ever at the read lock of `SaveValidators`, under its own write lock. So does the first
of the 101 registrations of scenario S6, which leaves the set with entry `0` alone. -/
theorem RegisterValidator_replaces_lowest_and_blocks :
    (∀ (vs : ValidatorSet) (address : String) (pubKey : List Nat) (initialStake now : Int),
      (vs.validators.map (fun v => v.Address)).Nodup →
      (vs.validators.length : Int) = vs.maxValidators →
      (∀ v ∈ vs.validators, v.Address ≠ address) →
      vs.minStake ≤ initialStake →
      (∃ m ∈ vs.validators, (∀ w ∈ vs.validators, m.Stake ≤ w.Stake) ∧ m.Stake < initialStake) →
      (RegisterValidatorCall vs address pubKey initialStake now).1 = .blocks ∧
      ∃ evicted,
        evicted ∈ vs.validators ∧ (∀ w ∈ vs.validators, evicted.Stake ≤ w.Stake) ∧
        (∀ w, w ∈ (RegisterValidatorCall vs address pubKey initialStake now).2.validators ↔
          (w = newValidator address pubKey initialStake now ∨
            (w ∈ vs.validators ∧ w ≠ evicted))) ∧
        ((RegisterValidatorCall vs address pubKey initialStake now).2.validators.length : Int) =
          vs.maxValidators) ∧
    (∀ (addr : Nat → String) (pk : Nat → List Nat) (minStake now : Int),
      registerAllCalls (NewValidatorSet minStake 100) now (s6Registrations addr pk minStake) =
        (.blocks,
          { validators := [newValidator (addr 0) (pk 0) minStake now], minStake := minStake,
            maxValidators := 100 })) := by
  constructor
  · intro vs address pubKey initialStake now hnodup hfull hnew hmin hgt
    obtain ⟨m0, hm0, -, hlt0⟩ := hgt
    obtain ⟨ev, hev, hevmin, hreg⟩ := register_full vs address pubKey initialStake now
      (by omega) hnew hmin ⟨m0, hm0, hlt0⟩
    have hcall := RegisterValidatorCall_ok vs address pubKey initialStake now (by rw [hreg]; rfl)
    rw [hcall, hreg]
    refine ⟨rfl, ev, hev, hevmin, ?_, ?_⟩
    · intro w
      simp only [List.mem_append, List.mem_singleton, mapDelete_mem]
      constructor
      · rintro (⟨hw, hne⟩ | hw)
        · exact Or.inr ⟨hw, fun h => hne (by rw [h])⟩
        · exact Or.inl hw
      · rintro (hw | ⟨hw, hne⟩)
        · exact Or.inr hw
        · exact Or.inl ⟨hw, fun h => hne (List.inj_on_of_nodup_map hnodup hw hev h)⟩
    · simp only [List.length_append, List.length_singleton]
      have := mapDelete_length vs.validators ev hev hnodup
      omega
  · intro addr pk minStake now
    have hreg := register_room (NewValidatorSet minStake 100) (addr 0) (pk 0) minStake now
      (by simp [NewValidatorSet]) (fun v hv => absurd hv (List.not_mem_nil v)) (le_refl _)
    have hcall := RegisterValidatorCall_ok (NewValidatorSet minStake 100) (addr 0) (pk 0)
      minStake now (by rw [hreg]; rfl)
    rw [hreg] at hcall
    unfold s6Registrations
    rw [List.range_succ_eq_map, List.map_cons]
    unfold registerAllCalls
    simp only [Nat.cast_zero, zero_mul, add_zero]
    rw [hcall]
    rfl

/-- Witness for C3: the registration of `"c"` with stake 15 on the sample full set. -/
theorem RegisterValidator_replaces_lowest_and_blocks_witness :
    (sampleFull.validators.length : Int) = sampleFull.maxValidators ∧
      (RegisterValidatorCall sampleFull "c" [] 15 1).1 = .blocks :=
  ⟨by decide,
    (RegisterValidator_replaces_lowest_and_blocks.1 sampleFull "c" [] 15 1 (by decide)
      (by decide) (by decide) (by decide)
      ⟨newValidator "a" [] 10 0, by decide, by decide, by decide⟩).1⟩

/-- C4 (failing input): a genesis of two validators put into an empty set with
`maxValidators = 1` leaves two active validators; `InitializeGenesisValidators` inserts
without the capacity check that `RegisterValidator` makes. -/
theorem GetActiveValidators_exceeds_max :
    (GetActiveValidators
        (InitializeGenesisValidators (NewValidatorSet 5 1) sampleGenesis 0)).length = 2 ∧
      (InitializeGenesisValidators (NewValidatorSet 5 1) sampleGenesis 0).maxValidators = 1 := by
  decide

/-- C5 (counterexample): two validators of equal stake come back as `"b"`, `"a"`, not in
ascending order of address, and the other visiting order of the same map gives
another result. -/
theorem GetActiveValidators_tie_order :
    ¬ List.Pairwise
        (fun a b : Validator => a.Stake > b.Stake ∨ (a.Stake = b.Stake ∧ a.Address < b.Address))
        (GetActiveValidators sampleTie) ∧
      sampleTieSwapped.validators.Perm sampleTie.validators ∧
      GetActiveValidators sampleTieSwapped ≠ GetActiveValidators sampleTie := by
  refine ⟨?_, by decide, by decide⟩
  have h : GetActiveValidators sampleTie = sampleTie.validators := by decide
  rw [h]
  simp only [sampleTie, newValidator, String.lt_iff_toList_lt]
  decide

/-- C5 (amended): for every validator set the list returned by `GetActiveValidators`
holds exactly the non-jailed validators with stake at least `minStake` and is sorted by
stake in descending order; nothing orders validators of equal stake by address. -/
theorem GetActiveValidators_sorted (vs : ValidatorSet) :
    (GetActiveValidators vs).Perm
        (vs.validators.filter (fun v => !v.Jailed && decide (v.Stake ≥ vs.minStake))) ∧
      (GetActiveValidators vs).Pairwise (fun a b : Validator => a.Stake ≥ b.Stake) := by
  unfold GetActiveValidators
  exact ⟨sortSlice_perm _ _, sortSlice_sorted (fun v : Validator => v.Stake) _⟩

/-- C6 (counterexample): a negative amount is not refused. `Stake` and `Unstake` of the
amount -3 for the validator `"a"` of stake 10 return no error and write the stakes 7 and
13 (either call then waits at the read lock of `SaveValidators`). -/
theorem Stake_negative_amount_accepted :
    (StakeCall sampleFull "a" (-3) 1).1 = .blocks ∧
      (mapLookup (StakeCall sampleFull "a" (-3) 1).2.validators "a").map (fun v => v.Stake) =
        some 7 ∧
      (UnstakeCall sampleFull "a" (-3) 1).1 = .blocks ∧
      (mapLookup (UnstakeCall sampleFull "a" (-3) 1).2.validators "a").map
        (fun v => v.Stake) = some 13 := by
  decide

/-- C6 (amended): `Stake` and `Unstake` return an error and leave the set unchanged
whenever the validator is jailed, and `Unstake` also whenever `stake - amount < minStake`.
The sign of the amount is not checked: for a validator that is not jailed no error is
returned and `Stake` writes the stake `stake + amount`, `Unstake` the stake
`stake - amount` when that is at least `minStake`, negative amounts included. -/
theorem Stake_Unstake_rejections (vs : ValidatorSet) (address : String) (amount now : Int)
    (v : Validator) (hv : mapLookup vs.validators address = some v) :
    (v.Jailed = true →
        StakeCall vs address amount now = (.returns (some .inJail), vs) ∧
        UnstakeCall vs address amount now = (.returns (some .inJail), vs)) ∧
      (v.Stake - amount < vs.minStake →
        ∃ e, UnstakeCall vs address amount now = (.returns (some e), vs)) ∧
      (v.Jailed = false →
        (∀ e, (StakeCall vs address amount now).1 ≠ .returns (some e)) ∧
        mapLookup (StakeCall vs address amount now).2.validators address =
          some { v with Stake := v.Stake + amount, Power := calculatePower (v.Stake + amount),
                        LastActiveAt := now }) ∧
      (v.Jailed = false → vs.minStake ≤ v.Stake - amount →
        (∀ e, (UnstakeCall vs address amount now).1 ≠ .returns (some e)) ∧
        mapLookup (UnstakeCall vs address amount now).2.validators address =
          some { v with Stake := v.Stake - amount, Power := calculatePower (v.Stake - amount),
                        LastActiveAt := now }) := by
  have hsj : v.Jailed = true → Stake vs address amount now = (some .inJail, vs) := by
    intro hj
    unfold Stake
    rw [hv]
    dsimp only
    rw [if_pos hj]
  have huj : v.Jailed = true → Unstake vs address amount now = (some .inJail, vs) := by
    intro hj
    unfold Unstake
    rw [hv]
    dsimp only
    rw [if_pos hj]
  have hs : v.Jailed = false → Stake vs address amount now =
      (none, { vs with validators := mapUpdate vs.validators address (fun w =>
        { w with Stake := w.Stake + amount, Power := calculatePower (w.Stake + amount),
                 LastActiveAt := now }) }) := by
    intro hj
    unfold Stake
    rw [hv]
    dsimp only
    rw [if_neg (by simp [hj])]
  have hu : v.Jailed = false → vs.minStake ≤ v.Stake - amount →
      Unstake vs address amount now =
      (none, { vs with validators := mapUpdate vs.validators address (fun w =>
        { w with Stake := w.Stake - amount, Power := calculatePower (w.Stake - amount),
                 LastActiveAt := now }) }) := by
    intro hj hge
    unfold Unstake
    rw [hv]
    dsimp only
    rw [if_neg (by simp [hj]), if_neg (by omega), if_neg (by omega)]
  have huf : v.Jailed = false → v.Stake - amount < vs.minStake →
      Unstake vs address amount now = (some .cannotUnstake, vs) := by
    intro hj hlt
    unfold Unstake
    rw [hv]
    dsimp only
    rw [if_neg (by simp [hj]), if_pos hlt]
  refine ⟨?_, ?_, ?_, ?_⟩
  · intro hj
    have h1 := StakeCall_some vs address amount now .inJail (by rw [hsj hj])
    have h2 := UnstakeCall_some vs address amount now .inJail (by rw [huj hj])
    rw [hsj hj] at h1
    rw [huj hj] at h2
    exact ⟨h1, h2⟩
  · intro hlt
    cases hj : v.Jailed with
    | true =>
      have h2 := UnstakeCall_some vs address amount now .inJail (by rw [huj hj])
      rw [huj hj] at h2
      exact ⟨_, h2⟩
    | false =>
      have h2 := UnstakeCall_some vs address amount now .cannotUnstake (by rw [huf hj hlt])
      rw [huf hj hlt] at h2
      exact ⟨_, h2⟩
  · intro hj
    have h1 := StakeCall_none vs address amount now (by rw [hs hj])
    rw [hs hj] at h1
    rw [h1]
    refine ⟨(fun e h => by cases h), ?_⟩
    dsimp only
    rw [mapLookup_mapUpdate, hv]
    · rfl
    · intro w
      rfl
  · intro hj hge
    have h1 := UnstakeCall_none vs address amount now (by rw [hu hj hge])
    rw [hu hj hge] at h1
    rw [h1]
    refine ⟨(fun e h => by cases h), ?_⟩
    dsimp only
    rw [mapLookup_mapUpdate, hv]
    · rfl
    · intro w
      rfl

/-- Witness for C6 (amended): an `Unstake` that would leave less than `minStake`. -/
theorem Stake_Unstake_rejections_witness :
    mapLookup sampleFull.validators "a" = some (newValidator "a" [] 10 0) ∧
      ∃ e, UnstakeCall sampleFull "a" 6 1 = (.returns (some e), sampleFull) :=
  ⟨by decide,
    (Stake_Unstake_rejections sampleFull "a" 6 1 (newValidator "a" [] 10 0) (by decide)).2.1
      (by decide)⟩

/-- C7: `Slash` of a registered validator with stake `s` leaves the stake
`s - ⌊s * p / 100⌋`; when that is at least `minStake` the validator stays, jailed until
`now + d` and with the power of the new stake; when it is below `minStake` the validator
is removed.  `Slash` of an unknown address returns an error and changes nothing. -/
theorem Slash_spec (vs : ValidatorSet) (address : String) (p d now : Int) :
    (∀ v, mapLookup vs.validators address = some v →
      (vs.minStake ≤ v.Stake - ⌊((v.Stake * p : Int) : ℚ) / 100⌋ →
        mapLookup (SlashCall vs address p d now).2.validators address =
          some { v with Stake := v.Stake - ⌊((v.Stake * p : Int) : ℚ) / 100⌋,
                        Power := calculatePower (v.Stake - ⌊((v.Stake * p : Int) : ℚ) / 100⌋),
                        Jailed := true, JailedUntil := now + d }) ∧
      (v.Stake - ⌊((v.Stake * p : Int) : ℚ) / 100⌋ < vs.minStake →
        ∀ w ∈ (SlashCall vs address p d now).2.validators, w.Address ≠ address)) ∧
    (mapLookup vs.validators address = none →
      SlashCall vs address p d now = (.returns (some .notFound), vs)) := by
  have hsnd : (SlashCall vs address p d now).2 = (Slash vs address p d now).2 := by
    unfold SlashCall
    exact lockedCall_snd _ _
  constructor
  · intro v hv
    have hfloor : ⌊((v.Stake * p : Int) : ℚ) / 100⌋ = v.Stake * p / 100 := by
      have := Rat.floor_intCast_div_natCast (v.Stake * p) 100
      norm_num at this ⊢
      exact this
    rw [hfloor, hsnd]
    obtain ⟨-, h2⟩ := Slash_lookup vs address p d now v hv
    refine ⟨?_, ?_⟩
    · intro hge
      rw [h2, if_neg (by omega)]
    · intro hlt
      rw [if_pos hlt] at h2
      exact mapLookup_none _ _ h2
  · intro hnone
    have hs : Slash vs address p d now = (some .notFound, vs) := by
      unfold Slash
      rw [hnone]
    unfold SlashCall SlashLocks
    rw [hs]
    exact lockedCall_no_save _

/-- Witness for C7: a 10% slash of the sample validator `"a"`, which keeps it in the set,
jailed. -/
theorem Slash_spec_witness :
    mapLookup sampleFull.validators "a" = some (newValidator "a" [] 10 0) ∧
      ∃ v2, mapLookup (SlashCall sampleFull "a" 10 60 1).2.validators "a" = some v2 ∧
        v2.Jailed = true ∧ v2.JailedUntil = 1 + 60 := by
  have hfl : ⌊((((newValidator "a" [] 10 0).Stake * 10 : Int)) : ℚ) / 100⌋ = 1 := by
    have := Rat.floor_intCast_div_natCast ((newValidator "a" [] 10 0).Stake * 10) 100
    norm_num at this ⊢
    rw [this]
    decide
  have h := ((Slash_spec sampleFull "a" 10 60 1).1 (newValidator "a" [] 10 0) (by decide)).1
    (by rw [hfl]; decide)
  exact ⟨by decide, _, h, rfl, rfl⟩

/-- C8 (counterexample): a negative percentage raises the stake from 20 to 30, and a
second slash with a shorter jail moves the expiry from 1000 back to 15. -/
theorem Slash_not_monotone :
    (mapLookup sampleFull.validators "b").map (fun v => v.Stake) = some 20 ∧
      (mapLookup (Slash sampleFull "b" (-50) 0 0).2.validators "b").map (fun v => v.Stake) =
        some 30 ∧
      (mapLookup (Slash sampleFull "b" 10 1000 0).2.validators "b").map
        (fun v => v.JailedUntil) = some 1000 ∧
      (mapLookup (Slash (Slash sampleFull "b" 10 1000 0).2 "b" 10 5 10).2.validators "b").map
        (fun v => v.JailedUntil) = some 15 := by
  decide

/-- C8 (amended): for a validator of non-negative stake and a percentage `p ≥ 0`, `Slash`
does not increase the stake; `Slash` sets the jail expiry to `now + d`, which is not
earlier than the previous expiry when the previous expiry is at most `now + d`. -/
theorem Slash_monotone_cases (vs : ValidatorSet) (address : String) (p d now : Int)
    (v v2 : Validator) (hv : mapLookup vs.validators address = some v)
    (hv2 : mapLookup (Slash vs address p d now).2.validators address = some v2) :
    (0 ≤ v.Stake → 0 ≤ p → v2.Stake ≤ v.Stake) ∧ v2.JailedUntil = now + d ∧
      (v.JailedUntil ≤ now + d → v.JailedUntil ≤ v2.JailedUntil) := by
  obtain ⟨-, h2⟩ := Slash_lookup vs address p d now v hv
  rw [h2] at hv2
  by_cases h : v.Stake - v.Stake * p / 100 < vs.minStake
  · rw [if_pos h] at hv2
    exact absurd hv2 (by simp)
  · rw [if_neg h] at hv2
    have hv2b := Option.some.inj hv2
    subst hv2b
    refine ⟨?_, rfl, fun h3 => h3⟩
    intro hs hp
    have : 0 ≤ v.Stake * p / 100 := Int.ediv_nonneg (mul_nonneg hs hp) (by norm_num)
    show v.Stake - v.Stake * p / 100 ≤ v.Stake
    omega

/-- Witness for C8 (amended): a 10% slash of the sample validator `"b"`. -/
theorem Slash_monotone_cases_witness :
    mapLookup sampleFull.validators "b" = some (newValidator "b" [] 20 0) ∧
      ∃ v2, mapLookup (Slash sampleFull "b" 10 60 1).2.validators "b" = some v2 ∧
        v2.JailedUntil = 1 + 60 :=
  ⟨by decide,
    { newValidator "b" [] 20 0 with Stake := 18, Power := 0, Jailed := true, JailedUntil := 61 },
    by decide,
    (Slash_monotone_cases sampleFull "b" 10 60 1 (newValidator "b" [] 20 0) _ (by decide)
      (by decide)).2.1⟩

/-- C9: with `missed = true`, `UpdateValidatorActivity` adds one to `MissedBlocks` and to
`TotalMissed`; when the consecutive counter `c` thereby is 100 or more, the stake `s` is
reduced by `⌊s * min(50, 5 * ⌊c / 100⌋) / 100⌋`, the validator is jailed until
`now + 24h` and the consecutive counter is set to 0 (a validator whose remaining stake
is below `minStake` is removed by the slash).  With `missed = false` the consecutive
counter is set to 0 and `TotalMissed` is unchanged. -/
theorem UpdateValidatorActivity_spec (vs : ValidatorSet) (address : String) (now : Int)
    (v : Validator) (hv : mapLookup vs.validators address = some v)
    (hm : -2 ^ 63 ≤ v.MissedBlocks + 1 ∧ v.MissedBlocks + 1 < 2 ^ 63)
    (ht : -2 ^ 63 ≤ v.TotalMissed + 1 ∧ v.TotalMissed + 1 < 2 ^ 63) :
    (v.MissedBlocks + 1 < 100 →
      mapLookup (UpdateValidatorActivity vs address true now).validators address =
        some { v with LastActiveAt := now, MissedBlocks := v.MissedBlocks + 1,
                      TotalMissed := v.TotalMissed + 1 }) ∧
    (100 ≤ v.MissedBlocks + 1 →
      (vs.minStake ≤
          v.Stake - ⌊((v.Stake * min 50 (5 * ((v.MissedBlocks + 1) / 100)) : Int) : ℚ) / 100⌋ →
        mapLookup (UpdateValidatorActivity vs address true now).validators address =
          some { v with
            Stake := v.Stake -
              ⌊((v.Stake * min 50 (5 * ((v.MissedBlocks + 1) / 100)) : Int) : ℚ) / 100⌋,
            Power := calculatePower (v.Stake -
              ⌊((v.Stake * min 50 (5 * ((v.MissedBlocks + 1) / 100)) : Int) : ℚ) / 100⌋),
            Jailed := true, JailedUntil := now + 24 * 3600 * 10 ^ 9, LastActiveAt := now,
            MissedBlocks := 0, TotalMissed := v.TotalMissed + 1 }) ∧
      (v.Stake - ⌊((v.Stake * min 50 (5 * ((v.MissedBlocks + 1) / 100)) : Int) : ℚ) / 100⌋ <
          vs.minStake →
        mapLookup (UpdateValidatorActivity vs address true now).validators address = none)) ∧
    mapLookup (UpdateValidatorActivity vs address false now).validators address =
      some { v with LastActiveAt := now, MissedBlocks := 0 } := by
  have hwm := wrapInt64_of_range hm.1 hm.2
  have hwt := wrapInt64_of_range ht.1 ht.2
  obtain ⟨l2, hl2def⟩ : ∃ l2,
      mapUpdate (mapUpdate vs.validators address (fun v => { v with LastActiveAt := now }))
        address (fun v =>
          { v with MissedBlocks := wrapInt64 (v.MissedBlocks + 1),
                   TotalMissed := wrapInt64 (v.TotalMissed + 1) }) = l2 := ⟨_, rfl⟩
  have hl2 : mapLookup l2 address =
      some { v with LastActiveAt := now, MissedBlocks := v.MissedBlocks + 1,
                    TotalMissed := v.TotalMissed + 1 } := by
    rw [← hl2def, mapLookup_mapUpdate, mapLookup_mapUpdate, hv]
    · simp only [Option.map_some', hwm, hwt]
    · intro w
      rfl
    · intro w
      rfl
  refine ⟨?_, ?_, ?_⟩
  · intro hlt
    unfold UpdateValidatorActivity
    rw [hv]
    dsimp only
    rw [if_pos rfl, hwm, if_neg (by omega), hl2def]
    exact hl2
  · intro hge
    have hfloor : ⌊((v.Stake * min 50 (5 * ((v.MissedBlocks + 1) / 100)) : Int) : ℚ) / 100⌋ =
        v.Stake * min 50 (5 * ((v.MissedBlocks + 1) / 100)) / 100 := by
      have := Rat.floor_intCast_div_natCast
        (v.Stake * min 50 (5 * ((v.MissedBlocks + 1) / 100))) 100
      norm_num at this ⊢
      exact this
    rw [hfloor]
    have hpct : ⌊(if (((Int.tdiv (v.MissedBlocks + 1) 100 : Int) : ℚ) * (5 / 100) > 50 / 100)
        then (50 / 100 : ℚ) else ((Int.tdiv (v.MissedBlocks + 1) 100 : Int) : ℚ) * (5 / 100)) *
          100⌋ = min 50 (5 * ((v.MissedBlocks + 1) / 100)) := by
      rw [slashPercentage_floor, Int.tdiv_eq_ediv (by omega) (by norm_num)]
    obtain ⟨hs1, hs2⟩ := Slash_lookup
      { validators := l2, minStake := vs.minStake, maxValidators := vs.maxValidators }
      address (min 50 (5 * ((v.MissedBlocks + 1) / 100))) (24 * timeHour) now _ hl2
    have hupd : mapLookup (UpdateValidatorActivity vs address true now).validators address =
        (mapLookup (Slash
          { validators := l2, minStake := vs.minStake, maxValidators := vs.maxValidators }
          address (min 50 (5 * ((v.MissedBlocks + 1) / 100))) (24 * timeHour) now).2.validators
          address).map (fun v => { v with MissedBlocks := 0 }) := by
      unfold UpdateValidatorActivity
      rw [hv]
      dsimp only
      rw [if_pos rfl, hwm, if_pos (by omega), hl2def]
      unfold SlashValidator
      rw [hpct]
      rcases hS : Slash
          { validators := l2, minStake := vs.minStake, maxValidators := vs.maxValidators }
          address (min 50 (5 * ((v.MissedBlocks + 1) / 100))) (24 * timeHour) now with ⟨e, S⟩
      rw [hS] at hs1
      dsimp only at hs1
      subst hs1
      dsimp only
      rw [mapLookup_mapUpdate]
      intro w
      rfl
    rw [hupd, hs2]
    dsimp only
    constructor
    · intro hmin
      rw [if_neg (by omega)]
      simp only [Option.map_some', timeHour]
      norm_num
    · intro hmin
      rw [if_pos hmin]
      rfl
  · unfold UpdateValidatorActivity
    rw [hv]
    dsimp only
    rw [if_neg (by simp), mapLookup_mapUpdate, mapLookup_mapUpdate, hv]
    · rfl
    · intro w
      rfl
    · intro w
      rfl

/-- Witness for C9: the hundredth consecutive miss of the sample validator costs 5%. -/
theorem UpdateValidatorActivity_spec_witness :
    mapLookup sampleMissing.validators "a" = some sampleMisser ∧
      mapLookup (UpdateValidatorActivity sampleMissing "a" true 7).validators "a" =
        some { sampleMisser with
          Stake := 950, Power := 0, Jailed := true, JailedUntil := 7 + 86400000000000,
          LastActiveAt := 7, MissedBlocks := 0, TotalMissed := 121 } := by
  have hfl : ⌊(((sampleMisser.Stake * min 50 (5 * ((sampleMisser.MissedBlocks + 1) / 100)) : Int)
      : ℚ)) / 100⌋ = 50 := by
    have := Rat.floor_intCast_div_natCast
      (sampleMisser.Stake * min 50 (5 * ((sampleMisser.MissedBlocks + 1) / 100))) 100
    norm_num at this ⊢
    rw [this]
    decide
  have h := ((UpdateValidatorActivity_spec sampleMissing "a" 7 sampleMisser (by decide)
    (by decide) (by decide)).2.1 (by decide)).1
  rw [hfl] at h
  refine ⟨by decide, ?_⟩
  rw [h (by decide)]
  decide

/-- C10 (failing input: any validator set, such as the sample set of `"a"` and `"b"`):
a call of `RotateValidators` returns no updates at all. It takes the write lock of the set
and then waits for ever at the read lock of `GetActiveValidators`, its first statement,
with nothing written. And every entry that `ToCometBFTValidators`, from which the output
would come, emits has an empty public key: the key is copied into a slice of no
length. -/
theorem RotateValidators_blocks (vs : ValidatorSet) :
    RotateValidators vs = (.blocks, vs) ∧
      ∀ u ∈ ToCometBFTValidators vs, u.PubKeyData = [] := by
  refine ⟨RotateValidators_eq vs, ?_⟩
  intro u hu
  unfold ToCometBFTValidators at hu
  rw [List.mem_filterMap] at hu
  obtain ⟨v, -, hv⟩ := hu
  split at hv
  · cases hv
    exact copyBytes_nil _
  · cases hv

/-! ## Rate limiter: auxiliary facts -/

/-- What one call of `Allow` returns and records, for a limit of at least 1. -/
theorem Allow_result (rl : RateLimiter) (a : String) (now : Int)
    (hL : 1 ≤ rl.perAddressLimit) :
    (rl.Allow a now).2.perAddressLimit = rl.perAddressLimit ∧
    (rl.Allow a now).2.timeWindow = rl.timeWindow ∧
    (∀ b, b ≠ a → (rl.Allow a now).2.transactions b = rl.transactions b) ∧
    (((((rl.transactions a).getD []).filter
          (fun t => decide (t > now + -rl.timeWindow))).length : Int) ≥ rl.perAddressLimit →
      (rl.Allow a now).1 = false ∧
      (rl.Allow a now).2.transactions a =
        some (((rl.transactions a).getD []).filter
          (fun t => decide (t > now + -rl.timeWindow)))) ∧
    (((((rl.transactions a).getD []).filter
          (fun t => decide (t > now + -rl.timeWindow))).length : Int) < rl.perAddressLimit →
      (rl.Allow a now).1 = true ∧
      (rl.Allow a now).2.transactions a =
        some (((rl.transactions a).getD []).filter
          (fun t => decide (t > now + -rl.timeWindow)) ++ [now])) := by
  cases h : rl.transactions a with
  | none =>
    have hres : rl.Allow a now =
        (true, { rl with transactions := (Function.update rl.transactions a (some [now])) }) := by
      unfold RateLimiter.Allow
      simp [h]
    rw [hres]
    refine ⟨rfl, rfl, ?_, ?_, ?_⟩
    · intro b hb
      simp [Function.update, hb]
    · intro hc
      simp at hc
      omega
    · intro _
      simp [Function.update]
  | some S =>
    by_cases hc : (((S.filter (fun t => decide (t > now + -rl.timeWindow))).length : Int) ≥
        rl.perAddressLimit)
    · have hres : rl.Allow a now =
          (false, { rl with transactions := (Function.update rl.transactions a
            (some (S.filter (fun t => decide (t > now + -rl.timeWindow))))) }) := by
        unfold RateLimiter.Allow
        simp only [h, Function.update_same, hc, decide_True, if_true]
      rw [hres]
      refine ⟨rfl, rfl, ?_, ?_, ?_⟩
      · intro b hb
        simp [Function.update, hb]
      · intro _
        simp
      · intro hlt
        simp only [Option.getD_some] at hlt
        omega
    · have hres : rl.Allow a now =
          (true, { rl with transactions := (Function.update rl.transactions a
            (some (S.filter (fun t => decide (t > now + -rl.timeWindow)) ++ [now]))) }) := by
        unfold RateLimiter.Allow
        simp only [h, Function.update_same, hc, decide_False, Bool.false_eq_true, if_false,
          Function.update_idem]
      rw [hres]
      refine ⟨rfl, rfl, ?_, ?_, ?_⟩
      · intro b hb
        simp [Function.update, hb]
      · intro hge
        simp only [Option.getD_some] at hge
        exact absurd hge hc
      · intro _
        simp

theorem admittedIn_cons (o : (String × Int) × Bool) (outs : List ((String × Int) × Bool))
    (a : String) (lo hi : Int) :
    admittedIn (o :: outs) a lo hi =
      (if o.2 = true ∧ o.1.1 = a ∧ lo < o.1.2 ∧ o.1.2 ≤ hi then 1 else 0) +
        admittedIn outs a lo hi := by
  unfold admittedIn
  by_cases h : o.2 = true ∧ o.1.1 = a ∧ lo < o.1.2 ∧ o.1.2 ≤ hi
  · rw [if_pos h, List.filter_cons_of_pos (by simp [h]), List.length_cons]
    omega
  · rw [if_neg h, List.filter_cons_of_neg]
    · omega
    · simp only [Bool.and_eq_true, decide_eq_true_eq, and_assoc]
      exact h

theorem allowRun_cons (rl : RateLimiter) (call : String × Int) (rest : List (String × Int)) :
    (allowRun rl (call :: rest)).1 =
      (call, (rl.Allow call.1 call.2).1) :: (allowRun (rl.Allow call.1 call.2).2 rest).1 := rfl

theorem admittedIn_late (a : String) (lo hi : Int) (calls : List (String × Int)) :
    ∀ rl : RateLimiter, (∀ c ∈ calls, hi < c.2) →
      admittedIn (allowRun rl calls).1 a lo hi = 0 := by
  induction calls with
  | nil => intro rl _; rfl
  | cons c rest ih =>
    intro rl h
    rw [allowRun_cons, admittedIn_cons, ih _ (fun d hd => h d (List.mem_cons_of_mem _ hd))]
    have hc := h c (List.mem_cons_self _ _)
    rw [if_neg]
    rintro ⟨-, -, -, h4⟩
    dsimp only at h4
    omega

/-- Entries that lie in a window ending at or after `u` survive the pruning done at `u`. -/
theorem filter_window_prune (S : List Int) (t u W : Int) (hut : u ≤ t) :
    ((S.filter (fun s => decide (s > u + -W))).filter
        (fun s => decide (t - W < s) && decide (s ≤ t))).length =
      (S.filter (fun s => decide (t - W < s) && decide (s ≤ t))).length := by
  rw [List.filter_filter]
  congr 1
  apply List.filter_congr
  intro s _
  by_cases h1 : t - W < s
  · have : s > u + -W := by omega
    simp [h1, this]
  · simp [h1]

/-- The sliding-window bound, from any state whose list for `a` is within the limit. -/
theorem allowRun_window (a : String) (t : Int) (calls : List (String × Int)) :
    ∀ rl : RateLimiter, 1 ≤ rl.perAddressLimit →
      ((((rl.transactions a).getD []).length : Nat) : Int) ≤ rl.perAddressLimit →
      calls.Pairwise (fun c d => c.2 ≤ d.2) →
      ((admittedIn (allowRun rl calls).1 a (t - rl.timeWindow) t : Nat) : Int) +
          (((((rl.transactions a).getD []).filter
            (fun s => decide (t - rl.timeWindow < s) && decide (s ≤ t))).length : Nat) : Int) ≤
        rl.perAddressLimit := by
  induction calls with
  | nil =>
    intro rl _ hlen _
    have := List.length_filter_le
      (fun s => decide (t - rl.timeWindow < s) && decide (s ≤ t)) ((rl.transactions a).getD [])
    simp only [allowRun, admittedIn, List.filter_nil, List.length_nil, Nat.cast_zero, zero_add]
    omega
  | cons c rest ih =>
    intro rl hL hlen hsorted
    rw [List.pairwise_cons] at hsorted
    obtain ⟨hc, hrest⟩ := hsorted
    obtain ⟨hlim, hwin, hother, hrej, hadm⟩ := Allow_result rl c.1 c.2 hL
    by_cases hut : c.2 ≤ t
    · by_cases hca : c.1 = a
      · rw [allowRun_cons, admittedIn_cons]
        have hprune := filter_window_prune ((rl.transactions a).getD []) t c.2 rl.timeWindow hut
        rw [hca] at hrej hadm
        by_cases hfull : ((((rl.transactions a).getD []).filter
            (fun s => decide (s > c.2 + -rl.timeWindow))).length : Int) ≥ rl.perAddressLimit
        · obtain ⟨hr, hst⟩ := hrej hfull
          have hlen2 : (((((rl.Allow c.1 c.2).2.transactions a).getD []).length : Nat) : Int) ≤
              (rl.Allow c.1 c.2).2.perAddressLimit := by
            rw [hlim, hca, hst, Option.getD_some]
            have := List.length_filter_le (fun s => decide (s > c.2 + -rl.timeWindow))
              ((rl.transactions a).getD [])
            omega
          have := ih (rl.Allow c.1 c.2).2 (by rw [hlim]; exact hL) hlen2 hrest
          rw [hlim, hwin] at this
          rw [hca] at this
          rw [hst, Option.getD_some, hprune] at this
          rw [hca, hr, if_neg (by simp)]
          omega
        · have hlt := not_le.mp hfull
          obtain ⟨hr, hst⟩ := hadm hlt
          have hlen2 : (((((rl.Allow c.1 c.2).2.transactions a).getD []).length : Nat) : Int) ≤
              (rl.Allow c.1 c.2).2.perAddressLimit := by
            rw [hlim, hca, hst]
            simp only [Option.getD_some, List.length_append, List.length_singleton]
            push_cast
            omega
          have := ih (rl.Allow c.1 c.2).2 (by rw [hlim]; exact hL) hlen2 hrest
          rw [hlim, hwin] at this
          rw [hca] at this
          rw [hst] at this
          simp only [Option.getD_some, List.filter_append, List.length_append] at this
          rw [hprune] at this
          by_cases hin : t - rl.timeWindow < c.2
          · have h1 : ([c.2].filter
                (fun s => decide (t - rl.timeWindow < s) && decide (s ≤ t))).length = 1 := by
              simp [hin, hut]
            rw [h1] at this
            rw [hca, hr, if_pos ⟨rfl, rfl, hin, hut⟩]
            push_cast at this ⊢
            omega
          · have h1 : ([c.2].filter
                (fun s => decide (t - rl.timeWindow < s) && decide (s ≤ t))).length = 0 := by
              simp [hin]
            rw [h1] at this
            rw [hca, hr, if_neg (fun h => hin h.2.2.1)]
            push_cast at this ⊢
            omega
      · rw [allowRun_cons, admittedIn_cons, if_neg (fun h => hca h.2.1)]
        have hsame := hother a (fun h => hca h.symm)
        have := ih (rl.Allow c.1 c.2).2 (by rw [hlim]; exact hL)
          (by rw [hlim, hsame]; exact hlen) hrest
        rw [hlim, hwin, hsame] at this
        omega
    · have hlate : ∀ d ∈ c :: rest, t < d.2 := by
        intro d hd
        rcases List.mem_cons.mp hd with h | h
        · rw [h]; omega
        · have := hc d h
          omega
      rw [admittedIn_late a _ t (c :: rest) rl hlate]
      have := List.length_filter_le
        (fun s => decide (t - rl.timeWindow < s) && decide (s ≤ t)) ((rl.transactions a).getD [])
      omega

/-- A burst of calls that all lie in one window `(u1 - W, u1]` is admitted as long as the
list stays within the limit, and every instant is recorded. -/
theorem allowRun_burst (a : String) (u1 : Int) (ts : List Int) :
    ∀ rl : RateLimiter, 1 ≤ rl.perAddressLimit →
      (∀ s ∈ (rl.transactions a).getD [], u1 - rl.timeWindow < s) →
      (∀ x ∈ ts, u1 - rl.timeWindow < x ∧ x ≤ u1) →
      ((((rl.transactions a).getD []).length + ts.length : Nat) : Int) ≤ rl.perAddressLimit →
      (∀ o ∈ (allowRun rl (ts.map (fun x => (a, x)))).1, o.2 = true) ∧
      ((allowRun rl (ts.map (fun x => (a, x)))).2.transactions a).getD [] =
        (rl.transactions a).getD [] ++ ts ∧
      (allowRun rl (ts.map (fun x => (a, x)))).2.perAddressLimit = rl.perAddressLimit ∧
      (allowRun rl (ts.map (fun x => (a, x)))).2.timeWindow = rl.timeWindow := by
  induction ts with
  | nil =>
    intro rl _ _ _ _
    simp [allowRun]
  | cons x xs ih =>
    intro rl hL hS hts hlen
    obtain ⟨hlim, hwin, -, -, hadm⟩ := Allow_result rl a x hL
    have hx := hts x (List.mem_cons_self _ _)
    have hkeep : ((rl.transactions a).getD []).filter
        (fun t => decide (t > x + -rl.timeWindow)) = (rl.transactions a).getD [] := by
      rw [List.filter_eq_self]
      intro s hs
      have := hS s hs
      simp only [decide_eq_true_eq]
      omega
    rw [hkeep] at hadm
    obtain ⟨hr, hst⟩ := hadm (by
      simp only [List.length_cons] at hlen
      push_cast at hlen
      omega)
    have hnext := ih (rl.Allow a x).2 (by rw [hlim]; exact hL)
      (by
        rw [hwin, hst, Option.getD_some]
        intro s hs
        rcases List.mem_append.mp hs with h | h
        · exact hS s h
        · rw [List.mem_singleton] at h
          rw [h]
          exact hx.1)
      (by
        rw [hwin]
        intro y hy
        exact hts y (List.mem_cons_of_mem _ hy))
      (by
        rw [hlim, hst, Option.getD_some]
        simp only [List.length_cons, List.length_append, List.length_nil] at hlen ⊢
        push_cast at hlen ⊢
        omega)
    obtain ⟨h1, h2, h3, h4⟩ := hnext
    rw [List.map_cons]
    refine ⟨?_, ?_, ?_, ?_⟩
    · intro o ho
      rw [allowRun_cons] at ho
      rcases List.mem_cons.mp ho with h | h
      · rw [h]
        exact hr
      · exact h1 o h
    · show ((allowRun (rl.Allow a x).2 (xs.map (fun x => (a, x)))).2.transactions a).getD [] = _
      rw [h2, hst, Option.getD_some, List.append_assoc]
      rfl
    · show (allowRun (rl.Allow a x).2 (xs.map (fun x => (a, x)))).2.perAddressLimit = _
      rw [h3, hlim]
    · show (allowRun (rl.Allow a x).2 (xs.map (fun x => (a, x)))).2.timeWindow = _
      rw [h4, hwin]

/-! ## Rate limiter: claims -/

/-- C11 (counterexample): with limit 1 and window 10, the calls at the instants 0 and 10
are both admitted, so the closed interval `[0, 10]` holds two admissions; and with limit
0 the first call of a fresh address is admitted. -/
theorem Allow_closed_window_exceeds :
    admittedInClosed (allowRun (NewRateLimiter 1 10 100) [("a", 0), ("a", 10)]).1 "a" 0 10 = 2 ∧
      admittedInClosed (allowRun (NewRateLimiter 0 10 100) [("a", 0)]).1 "a" 0 10 = 1 := by
  decide

/-- C11 (amended): on a limiter with `perAddressLimit ≥ 1`, for every run of `Allow` calls
made at non-decreasing instants and every half-open interval `(t - timeWindow, t]`, the
number of calls for one address in the interval that returned `true` is at most
`perAddressLimit`. -/
theorem Allow_sliding_window (L W cap : Int) (hL : 1 ≤ L) (a : String)
    (calls : List (String × Int)) (hs : calls.Pairwise (fun c d => c.2 ≤ d.2)) (t : Int) :
    ((admittedIn (allowRun (NewRateLimiter L W cap) calls).1 a (t - W) t : Nat) : Int) ≤ L := by
  have h := allowRun_window a t calls (NewRateLimiter L W cap) hL
    (by simp only [NewRateLimiter, Option.getD_none, List.length_nil]; omega) hs
  simp only [NewRateLimiter, Option.getD_none, List.filter_nil, List.length_nil] at h
  simp only [NewRateLimiter]
  omega

/-- Witness for C11 (amended): the two calls of the counterexample, seen through the
half-open window ending at 10. -/
theorem Allow_sliding_window_witness :
    (1 : Int) ≤ 1 ∧
      ((admittedIn (allowRun (NewRateLimiter 1 10 100) [("a", 0), ("a", 10)]).1 "a" (10 - 10) 10
        : Nat) : Int) ≤ 1 :=
  ⟨by decide,
    Allow_sliding_window 1 10 100 (by decide) "a" [("a", 0), ("a", 10)] (by decide) 10⟩

/-- C12: for a sender without recorded admissions and a limit `L ≥ 1`, `L` calls of `Allow`
made within one window all return `true`; one more call inside that window returns
`false` and records nothing; a later call, made more than one window after the last
admitted one, returns `true`. -/
theorem Allow_burst_then_reject (rl : RateLimiter) (a : String) (ts : List Int) (u1 u2 : Int)
    (hfresh : rl.transactions a = none) (hL : 1 ≤ rl.perAddressLimit)
    (hlen : (ts.length : Int) = rl.perAddressLimit)
    (hwin : ∀ x ∈ ts, u1 - rl.timeWindow < x ∧ x ≤ u1)
    (hlater : ∀ x ∈ ts, x + rl.timeWindow < u2) :
    (∀ o ∈ (allowRun rl (ts.map (fun x => (a, x)))).1, o.2 = true) ∧
    ((allowRun rl (ts.map (fun x => (a, x)))).2.Allow a u1).1 = false ∧
    (((allowRun rl (ts.map (fun x => (a, x)))).2.Allow a u1).2.transactions a).getD [] =
      ((allowRun rl (ts.map (fun x => (a, x)))).2.transactions a).getD [] ∧
    (((allowRun rl (ts.map (fun x => (a, x)))).2.Allow a u1).2.Allow a u2).1 = true := by
  obtain ⟨h1, h2, h3, h4⟩ := allowRun_burst a u1 ts rl hL
    (by rw [hfresh]; intro s hs; exact absurd hs (List.not_mem_nil s)) hwin
    (by rw [hfresh]; simp only [Option.getD_none, List.length_nil]; omega)
  rw [hfresh, Option.getD_none, List.nil_append] at h2
  obtain ⟨hlim1, hwin1, -, hrej1, -⟩ :=
    Allow_result (allowRun rl (ts.map (fun x => (a, x)))).2 a u1 (by rw [h3]; exact hL)
  have hkeep : (((allowRun rl (ts.map (fun x => (a, x)))).2.transactions a).getD []).filter
      (fun t => decide (t > u1 + -(allowRun rl (ts.map (fun x => (a, x)))).2.timeWindow)) = ts := by
    rw [h2, h4, List.filter_eq_self]
    intro s hs
    have := (hwin s hs).1
    simp only [decide_eq_true_eq]
    omega
  rw [hkeep] at hrej1
  obtain ⟨hr1, hst1⟩ := hrej1 (by rw [h3]; omega)
  obtain ⟨-, -, -, -, hadm2⟩ :=
    Allow_result ((allowRun rl (ts.map (fun x => (a, x)))).2.Allow a u1).2 a u2
      (by rw [hlim1, h3]; exact hL)
  have hdrop : (((((allowRun rl (ts.map (fun x => (a, x)))).2.Allow a u1).2.transactions a).getD
      []).filter (fun t => decide
        (t > u2 + -((allowRun rl (ts.map (fun x => (a, x)))).2.Allow a u1).2.timeWindow))) =
      [] := by
    rw [hst1, Option.getD_some, hwin1, h4, List.filter_eq_nil_iff]
    intro s hs
    have := hlater s hs
    simp only [decide_eq_true_eq]
    omega
  rw [hdrop] at hadm2
  refine ⟨h1, hr1, ?_, (hadm2 (by
    rw [hlim1, h3]
    simp only [List.length_nil, Nat.cast_zero]
    omega)).1⟩
  rw [hst1, Option.getD_some, h2]

/-- Witness for C12: scenario S5, limit 10 and a window of one second; ten submissions
50 ms apart, the eleventh at 500 ms, the retry at 1.6 s; and the same scenario through
`SubmitTransaction`. -/
theorem Allow_burst_then_reject_witness :
    (s5Times.length : Int) = (NewRateLimiter 10 1000000000 10000).perAddressLimit ∧
      ((allowRun (NewRateLimiter 10 1000000000 10000)
          (s5Times.map (fun x => ("A", x)))).2.Allow "A" 500000000).1 = false ∧
      (((allowRun (NewRateLimiter 10 1000000000 10000)
          (s5Times.map (fun x => ("A", x)))).2.Allow "A" 500000000).2.Allow "A"
            1600000000).1 = true ∧
      (submitAll sampleComet s5Submissions).1 =
        List.replicate 10 none ++ [some .rateLimited, none] := by
  have h := Allow_burst_then_reject (NewRateLimiter 10 1000000000 10000) "A" s5Times
    500000000 1600000000 rfl (by decide) (by decide) (by decide) (by decide)
  exact ⟨by decide, h.2.1, h.2.2.2, by decide⟩

/-! ## Mempool admission -/

/-- What `Allow` returned, read off the list it found. -/
theorem Allow_true_iff (rl : RateLimiter) (a : String) (now : Int) :
    ((rl.Allow a now).1 = true ↔
      ∀ times, rl.transactions a = some times →
        ((times.filter (fun t => decide (t > now + -rl.timeWindow))).length : Int) <
          rl.perAddressLimit) ∧
    ((rl.Allow a now).1 = true →
      ∃ l, (rl.Allow a now).2.transactions a = some (l ++ [now])) := by
  cases h : rl.transactions a with
  | none =>
    have hres : rl.Allow a now =
        (true, { rl with transactions := (Function.update rl.transactions a (some [now])) }) := by
      unfold RateLimiter.Allow
      simp [h]
    rw [hres]
    refine ⟨⟨fun _ times ht => absurd ht (by simp), fun _ => rfl⟩, fun _ => ⟨[], ?_⟩⟩
    simp [Function.update]
  | some S =>
    by_cases hc : (((S.filter (fun t => decide (t > now + -rl.timeWindow))).length : Int) ≥
        rl.perAddressLimit)
    · have hres : rl.Allow a now =
          (false, { rl with transactions := (Function.update rl.transactions a
            (some (S.filter (fun t => decide (t > now + -rl.timeWindow))))) }) := by
        unfold RateLimiter.Allow
        simp only [h, Function.update_same, hc, decide_True, if_true]
      rw [hres]
      refine ⟨⟨fun hf => absurd hf (by simp), fun hall => ?_⟩, fun hf => absurd hf (by simp)⟩
      have := hall S rfl
      omega
    · have hres : rl.Allow a now =
          (true, { rl with transactions := (Function.update rl.transactions a
            (some (S.filter (fun t => decide (t > now + -rl.timeWindow)) ++ [now]))) }) := by
        unfold RateLimiter.Allow
        simp only [h, Function.update_same, hc, decide_False, Bool.false_eq_true, if_false,
          Function.update_idem]
      rw [hres]
      refine ⟨⟨fun _ times ht => ?_, fun _ => rfl⟩,
        fun _ => ⟨S.filter (fun t => decide (t > now + -rl.timeWindow)), ?_⟩⟩
      · cases ht
        omega
      · simp [Function.update]

/-- C13 (counterexample): a transaction already in the mempool is answered with the
duplicate error only after `Allow` has recorded the instant 5 for its sender; with the pool
at its cap the answer is the mempool-full error, with the sender at its limit the
rate-limit error. -/
theorem SubmitTransaction_duplicate_not_first :
    ((SubmitTransaction sampleComet txZeroValue 4).2.rateLimiter.transactions "7" = some [4] ∧
      (SubmitTransaction (SubmitTransaction sampleComet txZeroValue 4).2 txZeroValue 5).1 =
        some .duplicate ∧
      (SubmitTransaction (SubmitTransaction sampleComet txZeroValue 4).2 txZeroValue
        5).2.rateLimiter.transactions "7" = some [4, 5]) ∧
    (SubmitTransaction
        { sampleComet with mempool := [txZeroValue],
                           rateLimiter := NewRateLimiter 10 1000000000 1 } txZeroValue 5).1 =
      some .mempoolFull ∧
    (SubmitTransaction
        (SubmitTransaction { sampleComet with rateLimiter := NewRateLimiter 1 1000000000 10000 }
          txZeroValue 4).2 txZeroValue 5).1 = some .rateLimited := by
  refine ⟨⟨by decide, by decide, by decide⟩, by decide, by decide⟩

/-- C13 (amended): for a running consensus and a transaction with a non-empty hash that is
already in the mempool, `SubmitTransaction` leaves the mempool as it was and returns the
mempool-full error when the pool is at its cap, otherwise the rate-limit error when the
sender is at its limit, otherwise the duplicate error; in that last case `Allow` has
recorded the instant of the call for the sender. -/
theorem SubmitTransaction_duplicate (c : CometBFT) (tx : Transaction) (now : Int)
    (hrun : c.running = true) (hhash : tx.Hash ≠ "")
    (hdup : ∃ e ∈ c.mempool, e.Hash = tx.Hash) :
    (SubmitTransaction c tx now).2.mempool = c.mempool ∧
    (¬ (c.mempool.length : Int) < c.rateLimiter.mempoolSizeLimit →
      (SubmitTransaction c tx now).1 = some .mempoolFull ∧
      (SubmitTransaction c tx now).2.rateLimiter.transactions tx.From =
        c.rateLimiter.transactions tx.From) ∧
    ((c.mempool.length : Int) < c.rateLimiter.mempoolSizeLimit →
      (c.rateLimiter.Allow tx.From now).1 = false →
      (SubmitTransaction c tx now).1 = some .rateLimited) ∧
    ((c.mempool.length : Int) < c.rateLimiter.mempoolSizeLimit →
      (c.rateLimiter.Allow tx.From now).1 = true →
      (SubmitTransaction c tx now).1 = some .duplicate ∧
      ∃ l, (SubmitTransaction c tx now).2.rateLimiter.transactions tx.From =
        some (l ++ [now])) := by
  have hany : c.mempool.any (fun existingTx => existingTx.Hash == tx.Hash) = true := by
    rw [List.any_eq_true]
    obtain ⟨e, he, heq⟩ := hdup
    exact ⟨e, he, by simpa using heq⟩
  unfold SubmitTransaction
  rw [if_neg (by simp [hrun]), if_neg hhash]
  dsimp only
  by_cases hcap : (c.mempool.length : Int) < c.rateLimiter.mempoolSizeLimit
  · rw [if_neg (by simp [RateLimiter.CheckMempoolSize, hcap])]
    by_cases hallow : (c.rateLimiter.Allow tx.From now).1 = true
    · rw [if_neg (by simp [hallow]), if_pos hany]
      refine ⟨rfl, fun h => absurd hcap h, fun _ h => ?_, fun _ _ => ⟨rfl, ?_⟩⟩
      · rw [hallow] at h
        cases h
      · exact (Allow_true_iff c.rateLimiter tx.From now).2 hallow
    · rw [if_pos (by simp [hallow])]
      refine ⟨rfl, fun h => absurd hcap h, fun _ _ => rfl, fun _ h => absurd h hallow⟩
  · rw [if_pos (by simp [RateLimiter.CheckMempoolSize, hcap])]
    exact ⟨rfl, fun _ => ⟨rfl, rfl⟩, fun h => absurd h hcap, fun h => absurd h hcap⟩

/-- Witness for C13 (amended): the resubmission of the counterexample. -/
theorem SubmitTransaction_duplicate_witness :
    (SubmitTransaction sampleComet txZeroValue 4).2.running = true ∧
      (SubmitTransaction (SubmitTransaction sampleComet txZeroValue 4).2 txZeroValue 5).2.mempool =
        (SubmitTransaction sampleComet txZeroValue 4).2.mempool :=
  ⟨by decide,
    (SubmitTransaction_duplicate (SubmitTransaction sampleComet txZeroValue 4).2 txZeroValue 5
      (by decide) (by decide) ⟨txZeroValue, by decide, rfl⟩).1⟩

/-- C14 (counterexample): a transaction with an empty signature, which no library verifies,
is admitted by `SubmitTransaction` and the mempool grows from 0 to 1. -/
theorem SubmitTransaction_admits_unsigned :
    txNoSignature.Signature = [] ∧
      (∀ lib : Lib, VerifyTransactionSignature lib (txMap txNoSignature) =
        .error .signatureRequired) ∧
      sampleComet.mempool.length = 0 ∧
      (SubmitTransaction sampleComet txNoSignature 0).1 = none ∧
      (SubmitTransaction sampleComet txNoSignature 0).2.mempool.length = 1 := by
  refine ⟨rfl, fun lib => ?_, rfl, by decide, by decide⟩
  unfold VerifyTransactionSignature
  rfl

/-- C14 (amended): whenever `SubmitTransaction` returns nil, the consensus was running, the
hash of the transaction is not empty and not in the mempool, the mempool held fewer
entries than the cap, the sender was under its quota for the window ending at the call,
and the transaction is appended to the mempool; signature, canonical hash, nonce and
balance are not looked at. -/
theorem SubmitTransaction_admitted (c : CometBFT) (tx : Transaction) (now : Int)
    (h : (SubmitTransaction c tx now).1 = none) :
    c.running = true ∧ tx.Hash ≠ "" ∧
      (c.mempool.length : Int) < c.rateLimiter.mempoolSizeLimit ∧
      (∀ times, c.rateLimiter.transactions tx.From = some times →
        ((times.filter (fun t => decide (t > now + -c.rateLimiter.timeWindow))).length : Int) <
          c.rateLimiter.perAddressLimit) ∧
      (∀ e ∈ c.mempool, e.Hash ≠ tx.Hash) ∧
      (SubmitTransaction c tx now).2.mempool = c.mempool ++ [tx] := by
  unfold SubmitTransaction at h ⊢
  by_cases hrun : c.running = true
  · rw [if_neg (by simp [hrun])] at h ⊢
    by_cases hhash : tx.Hash = ""
    · rw [if_pos hhash] at h
      cases h
    · rw [if_neg hhash] at h ⊢
      dsimp only at h ⊢
      by_cases hcap : (c.mempool.length : Int) < c.rateLimiter.mempoolSizeLimit
      · rw [if_neg (by simp [RateLimiter.CheckMempoolSize, hcap])] at h ⊢
        by_cases hallow : (c.rateLimiter.Allow tx.From now).1 = true
        · rw [if_neg (by simp [hallow])] at h ⊢
          by_cases hany : c.mempool.any (fun existingTx => existingTx.Hash == tx.Hash) = true
          · rw [if_pos hany] at h
            cases h
          · rw [if_neg hany]
            refine ⟨hrun, hhash, hcap, (Allow_true_iff c.rateLimiter tx.From now).1.mp hallow,
              ?_, rfl⟩
            intro e he heq
            apply hany
            rw [List.any_eq_true]
            exact ⟨e, he, by simpa using heq⟩
        · rw [if_pos (by simp [hallow])] at h
          cases h
      · rw [if_pos (by simp [RateLimiter.CheckMempoolSize, hcap])] at h
        cases h
  · rw [if_pos (by simp [hrun])] at h
    cases h

/-- Witness for C14 (amended): the admission of the counterexample. -/
theorem SubmitTransaction_admitted_witness :
    (SubmitTransaction sampleComet txNoSignature 0).1 = none ∧
      (SubmitTransaction sampleComet txNoSignature 0).2.mempool =
        sampleComet.mempool ++ [txNoSignature] :=
  ⟨by decide, (SubmitTransaction_admitted sampleComet txNoSignature 0 (by decide)).2.2.2.2.2⟩

/-! ## Signatures and transaction validation -/

/-- What a successful `VerifyTransactionSignature` has checked. -/
theorem VerifyTransactionSignature_ok (lib : Lib) (txData : String → Option JValue)
    (addr : List Nat) (h : VerifyTransactionSignature lib txData = .ok addr) :
    ∃ hashHex sig fromAddrStr pubKey,
      txData "hash" = some (.str hashHex) ∧ txData "signature" = some (.bytes sig) ∧
      txData "from" = some (.str fromAddrStr) ∧ sig.length = 65 ∧
      lib.sigToPub (lib.hexToHash hashHex)
        (sig.take 64 ++ [if sig.getD 64 0 < 27 then sig.getD 64 0 + 27 else sig.getD 64 0]) =
          some pubKey ∧
      lib.pubkeyToAddress pubKey = lib.hexToAddress fromAddrStr ∧
      addr = lib.pubkeyToAddress pubKey := by
  unfold VerifyTransactionSignature at h
  split at h
  · rename_i hashHex hhash
    split at h
    · cases h
    · split at h
      · rename_i sig hsig
        split at h
        · cases h
        · split at h
          · rename_i fromAddrStr hfrom
            split at h
            · cases h
            · dsimp only at h
              split at h
              · cases h
              · rename_i hlen
                split at h
                · cases h
                · rename_i pubKey hpub
                  split at h
                  · cases h
                  · rename_i haddr
                    refine ⟨hashHex, sig, fromAddrStr, pubKey, hhash, hsig, hfrom,
                      not_not.mp hlen, hpub, not_not.mp haddr, ?_⟩
                    cases h
                    rfl
          · cases h
      · cases h
  · cases h

/-- What `validateTransactionComplete` has checked when it returns nil. -/
theorem validateTransactionComplete_none {σ : Type} (lib : Lib) (ex : Executor σ)
    (app : ABCIApp σ) (tx : Transaction)
    (h : validateTransactionComplete lib ex app tx = none) :
    tx.Hash ≠ "" ∧
    (∀ acc, ex.GetState app.executor tx.From = some acc → acc.Nonce ≤ tx.Nonce) ∧
    (tx.Value ≠ "" → tx.Value ≠ "0" →
      ∃ acc value balance gasPrice,
        ex.GetState app.executor tx.From = some acc ∧
        lib.bigSetString tx.Value = some value ∧
        lib.bigSetString acc.Balance = some balance ∧
        lib.bigSetString tx.GasPrice = some gasPrice ∧
        value + gasPrice * wrapInt64 (tx.GasLimit : Int) ≤ balance) ∧
    tx.Signature.length ≠ 0 ∧
    (∃ addr, VerifyTransactionSignature lib (txMap tx) = .ok addr) ∧
    (∃ expectedHash, CalculateTransactionHash lib (txMap tx) = .ok expectedHash ∧
      tx.Hash = lib.hashHex expectedHash) := by
  unfold validateTransactionComplete at h
  split at h
  · cases h
  · split at h
    · cases h
    · rename_i hhash
      dsimp only at h
      split at h
      · cases h
      · rename_i hnonce
        split at h
        · cases h
        · rename_i hbalance
          split at h
          · cases h
          · rename_i hsig
            split at h
            · cases h
            · rename_i addr hver
              split at h
              · cases h
              · rename_i expectedHash hcalc
                split at h
                · cases h
                · rename_i hmatch
                  refine ⟨hhash, ?_, ?_, hsig, ⟨addr, hver⟩, ⟨expectedHash, hcalc,
                    not_not.mp hmatch⟩⟩
                  · intro acc hacc
                    rw [hacc] at hnonce
                    dsimp only at hnonce
                    by_contra hlt
                    rw [if_pos (by omega)] at hnonce
                    cases hnonce
                  · intro hv1 hv2
                    rw [if_pos ⟨hv1, hv2⟩] at hbalance
                    split at hbalance
                    · cases hbalance
                    · rename_i acc hacc
                      split at hbalance
                      · cases hbalance
                      · rename_i value hvalue
                        split at hbalance
                        · cases hbalance
                        · rename_i balance hbal
                          split at hbalance
                          · cases hbalance
                          · rename_i gasPrice hgp
                            split at hbalance
                            · cases hbalance
                            · rename_i hcmp
                              exact ⟨acc, value, balance, gasPrice, hacc, hvalue, hbal, hgp,
                                not_lt.mp hcmp⟩

theorem txMap_hash (tx : Transaction) : txMap tx "hash" = some (.str tx.Hash) := rfl

theorem txMap_from (tx : Transaction) : txMap tx "from" = some (.str tx.From) := by
  unfold txMap
  rw [if_neg (by decide), if_pos rfl]

theorem txMap_signature (tx : Transaction) :
    txMap tx "signature" = some (.bytes tx.Signature) := by
  unfold txMap
  simp

/-- C16: `CheckTx` returns code 0 only for a transaction whose signature is 65 bytes long
and recovers, over the hash the transaction carries, to its declared sender; so it
returns a non-zero code whenever the signature is empty or not 65 bytes long, whatever
the other fields; and it leaves the application as it was. -/
theorem CheckTx_needs_signature {σ : Type} (lib : Lib) (ex : Executor σ) (app : ABCIApp σ)
    (reqTx : List Nat) :
    ((CheckTx lib ex app reqTx).1.Code = 0 →
      ∃ tx pubKey, lib.jsonUnmarshalTx reqTx = some tx ∧ tx.Signature.length = 65 ∧
        lib.sigToPub (lib.hexToHash tx.Hash)
          (tx.Signature.take 64 ++
            [if tx.Signature.getD 64 0 < 27 then tx.Signature.getD 64 0 + 27
             else tx.Signature.getD 64 0]) = some pubKey ∧
        lib.pubkeyToAddress pubKey = lib.hexToAddress tx.From) ∧
    (∀ tx, lib.jsonUnmarshalTx reqTx = some tx → tx.Signature.length ≠ 65 →
      (CheckTx lib ex app reqTx).1.Code ≠ 0) ∧
    (lib.jsonUnmarshalTx reqTx = none → (CheckTx lib ex app reqTx).1.Code ≠ 0) ∧
    (CheckTx lib ex app reqTx).2 = app := by
  have hmain : (CheckTx lib ex app reqTx).1.Code = 0 →
      ∃ tx pubKey, lib.jsonUnmarshalTx reqTx = some tx ∧ tx.Signature.length = 65 ∧
        lib.sigToPub (lib.hexToHash tx.Hash)
          (tx.Signature.take 64 ++
            [if tx.Signature.getD 64 0 < 27 then tx.Signature.getD 64 0 + 27
             else tx.Signature.getD 64 0]) = some pubKey ∧
        lib.pubkeyToAddress pubKey = lib.hexToAddress tx.From := by
    intro h
    unfold CheckTx at h
    split at h
    · simp at h
    · rename_i tx htx
      split at h
      · simp at h
      · rename_i hval
        obtain ⟨-, -, -, -, ⟨addr, hver⟩, -⟩ :=
          validateTransactionComplete_none lib ex app tx hval
        obtain ⟨hashHex, sig, fromAddrStr, pubKey, h1, h2, h3, h4, h5, h6, -⟩ :=
          VerifyTransactionSignature_ok lib (txMap tx) addr hver
        rw [txMap_hash] at h1
        rw [txMap_signature] at h2
        rw [txMap_from] at h3
        cases h1
        cases h2
        cases h3
        exact ⟨tx, pubKey, htx, h4, h5, h6⟩
  refine ⟨hmain, ?_, ?_, ?_⟩
  · intro tx htx hlen h0
    obtain ⟨tx2, -, htx2, hlen2, -, -⟩ := hmain h0
    rw [htx] at htx2
    cases htx2
    exact hlen hlen2
  · intro hnone h0
    obtain ⟨tx2, -, htx2, -, -, -⟩ := hmain h0
    rw [hnone] at htx2
    cases htx2
  · unfold CheckTx
    split
    · rfl
    · split <;> rfl

/-- C17 (failing input): for every library whose `SigToPub` rejects a recovery id of 4 or
more, as go-ethereum's does, `VerifyTransactionSignature` returns an error on every
transaction map: it hands `SigToPub` the signature with its last byte raised to 27 or
more. -/
theorem VerifyTransactionSignature_rejects (lib : Lib)
    (hlib : ∀ hash sig pubKey, lib.sigToPub hash sig = some pubKey → sig.getD 64 0 < 4)
    (txData : String → Option JValue) :
    ∃ e, VerifyTransactionSignature lib txData = .error e := by
  cases hres : VerifyTransactionSignature lib txData with
  | error e => exact ⟨e, rfl⟩
  | ok addr =>
    obtain ⟨hashHex, sig, fromAddrStr, pubKey, -, -, -, hlen, hpub, -, -⟩ :=
      VerifyTransactionSignature_ok lib txData addr hres
    have hv := hlib _ _ _ hpub
    have hget : ∀ v : Nat, (sig.take 64 ++ [v]).getD 64 0 = v := by
      intro v
      have h64 : (sig.take 64).length = 64 := by
        rw [List.length_take, hlen]
        rfl
      rw [List.getD_eq_getElem?_getD, List.getElem?_append_right (by omega), h64]
      rfl
    rw [hget] at hv
    split at hv <;> omega

/-- Witness for C17: in the sample library a signature made by `SignTransaction` recovers
to the signer's key, yet `VerifyTransactionSignature` rejects the signed map, with its
`hash` entry as signed and with it set to the signed digest. -/
theorem VerifyTransactionSignature_rejects_witness :
    (∃ digest sig,
      CalculateTransactionHash sampleLib sampleTxData = .ok digest ∧
      SignTransaction sampleLib sampleTxData 55 = .ok sig ∧
      sampleLib.sigToPub digest sig = some (sampleLib.publicKey 55) ∧
      sampleLib.pubkeyToAddress (sampleLib.publicKey 55) = sampleLib.hexToAddress "7" ∧
      sampleTxData "from" = some (.str "7")) ∧
    (∃ e, VerifyTransactionSignature sampleLib sampleSigned = .error e) ∧
    (∃ e, VerifyTransactionSignature sampleLib sampleSignedAsTest = .error e) := by
  have hlib : ∀ hash sig pubKey, sampleLib.sigToPub hash sig = some pubKey →
      sig.getD 64 0 < 4 := by
    intro hash sig pubKey h
    simp only [sampleLib, sampleSigToPub] at h
    split at h
    · rename_i hc
      exact hc.2.1
    · cases h
  refine ⟨⟨sampleDigest (sampleMarshal (txCopy sampleTxData)).get!,
    pad64 (55 :: sampleDigest (sampleMarshal (txCopy sampleTxData)).get!) ++ [0],
    rfl, rfl, by decide, by decide, by decide⟩,
    VerifyTransactionSignature_rejects sampleLib hlib sampleSigned,
    VerifyTransactionSignature_rejects sampleLib hlib sampleSignedAsTest⟩

/-- C18 (counterexample): two maps that agree on `from`, `to`, `value`, `data`,
`gasLimit`, `gasPrice` and `nonce` and differ in their `hash` entry get different
canonical hashes in the sample library. -/
theorem CalculateTransactionHash_reads_hash :
    (∀ k ∈ ["from", "to", "value", "data", "gasLimit", "gasPrice", "nonce"],
      txMap txZeroValue k = txMap { txZeroValue with Hash := "x" } k) ∧
    CalculateTransactionHash sampleLib (txMap txZeroValue) ≠
      CalculateTransactionHash sampleLib (txMap { txZeroValue with Hash := "x" }) := by
  refine ⟨by decide, fun h => ?_⟩
  have h2 := congrArg Except.toOption h
  revert h2
  decide

/-- C18 (amended): two transaction maps that agree on every key other than `signature`
hand the same entries to the serialiser and get the same canonical hash, and
`SignTransaction` signs exactly the digest that `CalculateTransactionHash` returns. -/
theorem CalculateTransactionHash_ignores_signature (lib : Lib)
    (m1 m2 : String → Option JValue) (privateKey : Nat)
    (h : ∀ k, k ≠ "signature" → m1 k = m2 k) :
    txCopy m1 = txCopy m2 ∧
    CalculateTransactionHash lib m1 = CalculateTransactionHash lib m2 ∧
    SignTransaction lib m1 privateKey =
      (match CalculateTransactionHash lib m1 with
       | .error e => .error e
       | .ok digest =>
         match lib.sign digest privateKey with
         | none => .error .signFailed
         | some signature => .ok signature) := by
  have hcopy : txCopy m1 = txCopy m2 := by
    funext k
    unfold txCopy
    by_cases hk : k ≠ "signature"
    · rw [if_pos hk, if_pos hk, h k hk]
    · rw [if_neg hk, if_neg hk]
  refine ⟨hcopy, ?_, ?_⟩
  · unfold CalculateTransactionHash
    rw [hcopy]
  · unfold SignTransaction CalculateTransactionHash
    cases lib.jsonMarshal (txCopy m1) <;> rfl

/-- Witness for C18 (amended): the sample transaction with and without its signature. -/
theorem CalculateTransactionHash_ignores_signature_witness :
    CalculateTransactionHash sampleLib (txMap txZeroValue) =
      CalculateTransactionHash sampleLib (txMap { txZeroValue with Signature := [] }) :=
  (CalculateTransactionHash_ignores_signature sampleLib (txMap txZeroValue)
    (txMap { txZeroValue with Signature := [] }) 55
    (by
      intro k hk
      unfold txMap
      simp [hk])).2.1

/-! ## Per-block buffers -/

/-- One `DeliverTx` either leaves both per-block buffers as they were or appends one
transaction and one receipt carrying its hash. -/
theorem DeliverTx_buffers {σ : Type} (lib : Lib) (ex : Executor σ) (app : ABCIApp σ)
    (reqTx : List Nat) :
    ((DeliverTx lib ex app reqTx).2.currentBlockTxs = app.currentBlockTxs ∧
      (DeliverTx lib ex app reqTx).2.currentBlockReceipts = app.currentBlockReceipts) ∨
    (∃ tx receipt, receipt.TransactionHash = tx.Hash ∧
      (DeliverTx lib ex app reqTx).2.currentBlockTxs = app.currentBlockTxs ++ [tx] ∧
      (DeliverTx lib ex app reqTx).2.currentBlockReceipts =
        app.currentBlockReceipts ++ [receipt]) := by
  unfold DeliverTx
  split
  · exact Or.inl ⟨rfl, rfl⟩
  · split
    · exact Or.inl ⟨rfl, rfl⟩
    · dsimp only
      split
      · exact Or.inl ⟨rfl, rfl⟩
      · exact Or.inl ⟨rfl, rfl⟩
      · split
        · exact Or.inl ⟨rfl, rfl⟩
        · exact Or.inr ⟨_, _, rfl, rfl, rfl⟩

theorem DeliverTx_aligned {σ : Type} (lib : Lib) (ex : Executor σ) (app : ABCIApp σ)
    (reqTx : List Nat)
    (h : app.currentBlockReceipts.map (fun r => r.TransactionHash) =
      app.currentBlockTxs.map (fun t => t.Hash)) :
    (DeliverTx lib ex app reqTx).2.currentBlockReceipts.map (fun r => r.TransactionHash) =
      (DeliverTx lib ex app reqTx).2.currentBlockTxs.map (fun t => t.Hash) := by
  rcases DeliverTx_buffers lib ex app reqTx with ⟨h1, h2⟩ | ⟨tx, receipt, h0, h1, h2⟩
  · rw [h1, h2]
    exact h
  · rw [h1, h2, List.map_append, List.map_append, h]
    simp [h0]

theorem deliverAll_aligned {σ : Type} (lib : Lib) (ex : Executor σ) (reqs : List (List Nat)) :
    ∀ app : ABCIApp σ,
      app.currentBlockReceipts.map (fun r => r.TransactionHash) =
        app.currentBlockTxs.map (fun t => t.Hash) →
      (deliverAll lib ex app reqs).currentBlockReceipts.map (fun r => r.TransactionHash) =
        (deliverAll lib ex app reqs).currentBlockTxs.map (fun t => t.Hash) := by
  induction reqs with
  | nil => intro app h; exact h
  | cons reqTx rest ih =>
    intro app h
    have h1 := DeliverTx_aligned lib ex app reqTx h
    unfold deliverAll
    split
    · exact ih _ h1
    · exact h1
    · exact h1

/-- C19: after `BeginBlock` and any sequence of `DeliverTx` calls, the per-block
transaction buffer and receipt buffer have equal length and the receipt at every index
carries the hash of the transaction at that index; the block that `saveBlock` assembles
for `Commit` holds these two buffers. -/
theorem DeliverTx_buffers_aligned {σ : Type} (lib : Lib) (ex : Executor σ) (app : ABCIApp σ)
    (height time : Int) (reqs : List (List Nat)) :
    (deliverAll lib ex (BeginBlock app height time) reqs).currentBlockTxs.length =
      (deliverAll lib ex (BeginBlock app height time) reqs).currentBlockReceipts.length ∧
    (∀ i : Nat,
      ((deliverAll lib ex (BeginBlock app height time) reqs).currentBlockReceipts.get? i).map
          (fun r => r.TransactionHash) =
        ((deliverAll lib ex (BeginBlock app height time) reqs).currentBlockTxs.get? i).map
          (fun t => t.Hash)) ∧
    (∀ blockHashStr parentHash,
      (assembleBlock (deliverAll lib ex (BeginBlock app height time) reqs) blockHashStr
          parentHash).Transactions =
        (deliverAll lib ex (BeginBlock app height time) reqs).currentBlockTxs ∧
      (assembleBlock (deliverAll lib ex (BeginBlock app height time) reqs) blockHashStr
          parentHash).Receipts =
        (deliverAll lib ex (BeginBlock app height time) reqs).currentBlockReceipts) := by
  have h := deliverAll_aligned lib ex reqs (BeginBlock app height time) rfl
  refine ⟨?_, ?_, fun _ _ => ⟨rfl, rfl⟩⟩
  · have := congrArg List.length h
    rw [List.length_map, List.length_map] at this
    exact this.symm
  · intro i
    have := congrArg (fun l => l.get? i) h
    simpa [List.get?_eq_getElem?, List.getElem?_map] using this

theorem decDigits_lt (fuel n : Nat) : ∀ d ∈ decDigits fuel n, d < 10 := by
  induction fuel generalizing n with
  | zero => intro d hd; simp [decDigits] at hd
  | succ k ih =>
    intro d hd
    unfold decDigits at hd
    split at hd
    · simp at hd; omega
    · rw [List.mem_append] at hd
      rcases hd with hd | hd
      · exact ih _ d hd
      · simp at hd; omega

theorem digitChar_toNat {d : Nat} (h : d < 10) : (digitChar d).toNat = 48 + d := by
  interval_cases d <;> rfl

theorem charDigit_digitChar {d : Nat} (h : d < 10) : charDigit (digitChar d) = some d := by
  interval_cases d <;> rfl

theorem scanDigits_digits (ds : List Nat) (hds : ∀ d ∈ ds, d < 10) (acc : Nat) :
    scanDigits (ds.map digitChar) acc = ds.foldl (fun a d => a * 10 + d) acc := by
  induction ds generalizing acc with
  | nil => rfl
  | cons d ds ih =>
    simp only [List.map_cons, scanDigits, List.foldl_cons]
    rw [charDigit_digitChar (hds d (List.mem_cons_self _ _))]
    exact ih (fun x hx => hds x (List.mem_cons_of_mem _ hx)) _

theorem decDigits_value (fuel n : Nat) (h : n < fuel) :
    (decDigits fuel n).foldl (fun a d => a * 10 + d) 0 = n := by
  induction fuel generalizing n with
  | zero => omega
  | succ k ih =>
    unfold decDigits
    split
    · simp
    · rw [List.foldl_append, ih (n / 10) (by omega)]
      simp only [List.foldl_cons, List.foldl_nil]
      omega

theorem scanDigits_fmtNat (n : Nat) : scanDigits (fmtNat n).data 0 = n := by
  unfold fmtNat
  rw [scanDigits_digits _ (decDigits_lt _ _)]
  exact decDigits_value _ _ (Nat.lt_succ_self n)

theorem fmtNat_injective {a b : Nat} (h : fmtNat a = fmtNat b) : a = b := by
  rw [← scanDigits_fmtNat a, ← scanDigits_fmtNat b, h]

theorem fmtNat_no_dash (n : Nat) : ∀ c ∈ (fmtNat n).data, c ≠ '-' := by
  intro c hc
  unfold fmtNat at hc
  simp only [List.mem_map] at hc
  obtain ⟨d, hd, rfl⟩ := hc
  have h := digitChar_toNat (decDigits_lt _ _ d hd)
  intro he
  rw [he] at h
  have : ('-' : Char).toNat = 45 := rfl
  omega

theorem digitChar_plain {d : Nat} (h : d < 10) :
    isBlank (digitChar d) = false ∧ (charDigit (digitChar d)).isSome = true ∧
      decide ((digitChar d).toNat = 95) = false := by
  interval_cases d <;> exact ⟨rfl, rfl, rfl⟩

theorem decDigits_ne_nil (fuel n : Nat) : decDigits (fuel + 1) n ≠ [] := by
  unfold decDigits
  split <;> simp

theorem skipBlanks_digits (ds : List Nat) (hds : ∀ d ∈ ds, d < 10) :
    skipBlanks (ds.map digitChar) = ds.map digitChar := by
  cases ds with
  | nil => rfl
  | cons d rest =>
    simp only [List.map_cons, skipBlanks, (digitChar_plain (hds d (List.mem_cons_self _ _))).1]
    rfl

theorem numberToken_digits (ds : List Nat) (hds : ∀ d ∈ ds, d < 10) :
    numberToken (ds.map digitChar) = ds.map digitChar := by
  unfold numberToken
  rw [List.takeWhile_eq_self_iff]
  intro c hc
  obtain ⟨d, hd, rfl⟩ := List.mem_map.mp hc
  simp [(digitChar_plain (hds d hd)).2.1]

theorem scanUint64_fmtNat {n : Nat} (h : n < 2 ^ 64) : scanUint64 (fmtNat n) = n := by
  have hv := scanDigits_fmtNat n
  unfold fmtNat at hv
  unfold scanUint64 fmtNat
  simp only [skipBlanks_digits _ (decDigits_lt _ _), numberToken_digits _ (decDigits_lt _ _)]
  have h1 : ¬ ((decDigits (n + 1) n).map digitChar = [] ∨
      ((decDigits (n + 1) n).map digitChar).any (fun c => decide (c.toNat = 95)) = true) := by
    rintro (h1 | h1)
    · exact decDigits_ne_nil n n (List.map_eq_nil_iff.mp h1)
    · rw [List.any_eq_true] at h1
      obtain ⟨c, hc, hc2⟩ := h1
      obtain ⟨d, hd, rfl⟩ := List.mem_map.mp hc
      rw [(digitChar_plain (decDigits_lt _ _ d hd)).2.2] at hc2
      exact absurd hc2 (by simp)
  rw [if_neg h1, hv, if_pos h]

theorem asciiString_asciiBytes (s : String) : asciiString (asciiBytes s) = s := by
  unfold asciiString asciiBytes
  rw [List.map_map]
  have : (Char.ofNat ∘ Char.toNat) = id := by
    funext c
    simp [Char.ofNat_toNat]
  rw [this, List.map_id]

theorem get_put_same (db : BlockchainDB) (k : String) (v : List Nat) :
    (db.put k v).get k = some v := by
  simp [BlockchainDB.put, BlockchainDB.get]

theorem get_put_other (db : BlockchainDB) {k k2 : String} (v : List Nat) (h : k ≠ k2) :
    (db.put k v).get k2 = db.get k2 := by
  simp [BlockchainDB.put, BlockchainDB.get, List.find?_cons, h]

theorem key_head_ne {a b : String} (c d : Char) (ra rb : List Char)
    (ha : a.data = c :: ra) (hb : b.data = d :: rb) (h : c ≠ d) : a ≠ b := by
  intro he
  rw [he, hb] at ha
  exact h (List.cons.inj ha).1.symm

/-! ## Request ids -/

theorem takeWhile_append_stop {α : Type} (p : α → Bool) (l : List α) (a : α) (r : List α)
    (hl : ∀ x ∈ l, p x = true) (ha : p a = false) : (l ++ a :: r).takeWhile p = l := by
  induction l with
  | nil => simp [List.takeWhile, ha]
  | cons x xs ih =>
    rw [List.cons_append, List.takeWhile_cons_of_pos (hl x (List.mem_cons_self _ _)),
      ih (fun y hy => hl y (List.mem_cons_of_mem _ hy))]

/-- The part of a string after its last `-`. -/
theorem lastField_eq (a d : List Char) (hd : ∀ c ∈ d, c ≠ '-') :
    ((a ++ '-' :: d).reverse.takeWhile (fun c => c != '-')).reverse = d := by
  rw [List.reverse_append, List.reverse_cons, List.append_assoc, List.singleton_append,
    takeWhile_append_stop]
  · exact List.reverse_reverse d
  · intro x hx
    simpa using hd x (List.mem_reverse.mp hx)
  · simp

theorem requestID_data (t : Int) (k : Nat) :
    ("query-" ++ fmtInt t ++ "-" ++ fmtNat k).data =
      ("query-".data ++ (fmtInt t).data) ++ '-' :: (fmtNat k).data := by
  simp [String.data_append]

theorem requestID_ne (t1 t2 : Int) {k1 k2 : Nat} (h : k1 ≠ k2) :
    "query-" ++ fmtInt t1 ++ "-" ++ fmtNat k1 ≠ "query-" ++ fmtInt t2 ++ "-" ++ fmtNat k2 := by
  intro he
  have h1 := congrArg
    (fun s : String => (s.data.reverse.takeWhile (fun c => c != '-')).reverse) he
  simp only [requestID_data] at h1
  rw [lastField_eq _ _ (fmtNat_no_dash k1), lastField_eq _ _ (fmtNat_no_dash k2)] at h1
  exact h (fmtNat_injective (String.ext h1))

theorem generateRequestID_eq (c : Nat) (nanos : Int) (h : (c : Int) + 1 < 2 ^ 63) :
    generateRequestID c nanos = ("query-" ++ fmtInt nanos ++ "-" ++ fmtNat (c + 1), ((c + 1 : Nat) : Int)) := by
  unfold generateRequestID
  have hw : wrapInt64 ((c : Int) + 1) = ((c + 1 : Nat) : Int) := by
    unfold wrapInt64
    push_cast
    omega
  simp only [hw]
  have : fmtInt ((c + 1 : Nat) : Int) = fmtNat (c + 1) := by
    unfold fmtInt
    rw [if_neg (by omega)]
    have hn : ((c + 1 : Nat) : Int).natAbs = c + 1 := by omega
    rw [hn]
  rw [this]

theorem generateRequestIDs_mem (times : List Int) (c : Nat)
    (h : (c : Int) + times.length < 2 ^ 63) :
    ∀ s ∈ generateRequestIDs c times,
      ∃ (t : Int) (k : Nat), c < k ∧ s = "query-" ++ fmtInt t ++ "-" ++ fmtNat k := by
  induction times generalizing c with
  | nil => intro s hs; simp [generateRequestIDs] at hs
  | cons nanos rest ih =>
    intro s hs
    simp only [List.length_cons, Nat.cast_add, Nat.cast_one] at h
    unfold generateRequestIDs at hs
    rw [generateRequestID_eq c nanos (by omega)] at hs
    simp only [List.mem_cons] at hs
    rcases hs with hs | hs
    · exact ⟨nanos, c + 1, by omega, hs⟩
    · obtain ⟨t, k, hk, rfl⟩ := ih (c + 1) (by push_cast; omega) s hs
      exact ⟨t, k, by omega, rfl⟩

theorem generateRequestIDs_nodup (times : List Int) (c : Nat)
    (h : (c : Int) + times.length < 2 ^ 63) : (generateRequestIDs c times).Nodup := by
  induction times generalizing c with
  | nil => simp [generateRequestIDs]
  | cons nanos rest ih =>
    simp only [List.length_cons, Nat.cast_add, Nat.cast_one] at h
    unfold generateRequestIDs
    rw [generateRequestID_eq c nanos (by omega)]
    simp only [List.nodup_cons]
    refine ⟨?_, ih (c + 1) (by push_cast; omega)⟩
    intro hmem
    obtain ⟨t, k, hk, he⟩ := generateRequestIDs_mem rest (c + 1) (by push_cast; omega) _ hmem
    exact requestID_ne nanos t (by omega) he

theorem fmtInt_of_nonneg {z : Int} (h : 0 ≤ z) : fmtInt z = fmtNat z.natAbs := by
  unfold fmtInt
  rw [if_neg (by omega)]

theorem requestID_injective (t1 t2 c1 c2 : Int) (ht1 : 0 ≤ t1) (ht2 : 0 ≤ t2) (hc1 : 0 ≤ c1)
    (hc2 : 0 ≤ c2)
    (he : "query-" ++ fmtInt t1 ++ "-" ++ fmtInt c1 = "query-" ++ fmtInt t2 ++ "-" ++ fmtInt c2) :
    t1 = t2 ∧ c1 = c2 := by
  rw [fmtInt_of_nonneg hc1, fmtInt_of_nonneg hc2] at he
  have hk : c1.natAbs = c2.natAbs := by
    by_contra hne
    exact requestID_ne t1 t2 hne he
  rw [hk] at he
  have hd := congrArg String.data he
  rw [requestID_data, requestID_data] at hd
  have hd2 := List.append_cancel_left (List.append_cancel_right hd)
  rw [fmtInt_of_nonneg ht1, fmtInt_of_nonneg ht2] at hd2
  have ht : t1.natAbs = t2.natAbs := fmtNat_injective (String.ext hd2)
  omega

/-- Claim C25: request ids are unique over the process lifetime. Starting from the initial
counter 0, any run of fewer than 2^63 calls of `generateRequestID` returns pairwise
different strings, whatever clock readings (also negative or repeated ones) the calls
see: each call below the 64-bit bound raises the counter by one, and the format
`query-<nanos>-<counter>` is injective on pairs of non-negative integers. -/
theorem generateRequestID_unique (times : List Int) (h : (times.length : Int) < 2 ^ 63) :
    (generateRequestIDs 0 times).Nodup ∧
      (∀ (c : Nat) (nanos : Int), (c : Int) + 1 < 2 ^ 63 →
        generateRequestID c nanos =
          ("query-" ++ fmtInt nanos ++ "-" ++ fmtInt ((c : Int) + 1), (c : Int) + 1)) ∧
      (∀ t1 t2 c1 c2 : Int, 0 ≤ t1 → 0 ≤ t2 → 0 ≤ c1 → 0 ≤ c2 →
        "query-" ++ fmtInt t1 ++ "-" ++ fmtInt c1 = "query-" ++ fmtInt t2 ++ "-" ++ fmtInt c2 →
        t1 = t2 ∧ c1 = c2) := by
  refine ⟨?_, ?_, requestID_injective⟩
  · have := generateRequestIDs_nodup times 0 (by simpa using h)
    simpa using this
  · intro c nanos hc
    have hf : fmtInt ((c : Int) + 1) = fmtNat (c + 1) := by
      rw [fmtInt_of_nonneg (by omega)]
      have hn : ((c : Int) + 1).natAbs = c + 1 := by omega
      rw [hn]
    rw [generateRequestID_eq c nanos hc, hf]
    push_cast
    rfl

/-- Witness for C25: three calls, two of them at the same clock reading and one at a
negative one. -/
theorem generateRequestID_unique_witness :
    generateRequestIDs 0 [7, 7, -3] = ["query-7-1", "query-7-2", "query--3-3"] ∧
      (generateRequestIDs 0 [7, 7, -3]).Nodup :=
  ⟨by decide, (generateRequestID_unique [7, 7, -3] (by decide)).1⟩

/-! ## Storage round trip -/

theorem blockKey_data (s : String) : ("block:" ++ s).data = 'b' :: ("lock:".data ++ s.data) :=
  rfl

theorem txKey_data (s : String) : ("tx:" ++ s).data = 't' :: ("x:".data ++ s.data) := rfl

theorem accountKey_data (s : String) :
    ("account:" ++ s).data = 'a' :: ("ccount:".data ++ s.data) := rfl

theorem stateKey_data : "state:latest".data = 's' :: "tate:latest".data := rfl

theorem heightKey_data : "height:latest".data = 'h' :: "eight:latest".data := rfl

theorem key_block_tx (s1 s2 : String) : "block:" ++ s1 ≠ "tx:" ++ s2 :=
  key_head_ne _ _ _ _ (blockKey_data s1) (txKey_data s2) (by decide)

theorem key_block_account (s1 s2 : String) : "block:" ++ s1 ≠ "account:" ++ s2 :=
  key_head_ne _ _ _ _ (blockKey_data s1) (accountKey_data s2) (by decide)

theorem key_block_state (s1 : String) : "block:" ++ s1 ≠ "state:latest" :=
  key_head_ne _ _ _ _ (blockKey_data s1) stateKey_data (by decide)

theorem key_block_height (s1 : String) : "block:" ++ s1 ≠ "height:latest" :=
  key_head_ne _ _ _ _ (blockKey_data s1) heightKey_data (by decide)

theorem key_tx_account (s1 s2 : String) : "tx:" ++ s1 ≠ "account:" ++ s2 :=
  key_head_ne _ _ _ _ (txKey_data s1) (accountKey_data s2) (by decide)

theorem key_tx_state (s1 : String) : "tx:" ++ s1 ≠ "state:latest" :=
  key_head_ne _ _ _ _ (txKey_data s1) stateKey_data (by decide)

theorem key_tx_height (s1 : String) : "tx:" ++ s1 ≠ "height:latest" :=
  key_head_ne _ _ _ _ (txKey_data s1) heightKey_data (by decide)

theorem key_account_state (s1 : String) : "account:" ++ s1 ≠ "state:latest" :=
  key_head_ne _ _ _ _ (accountKey_data s1) stateKey_data (by decide)

theorem key_account_height (s1 : String) : "account:" ++ s1 ≠ "height:latest" :=
  key_head_ne _ _ _ _ (accountKey_data s1) heightKey_data (by decide)

theorem key_state_height : "state:latest" ≠ "height:latest" := by decide

theorem GetLatestHeight_put_other (db : BlockchainDB) {k : String} (v : List Nat)
    (h : k ≠ "height:latest") : (db.put k v).GetLatestHeight = db.GetLatestHeight := by
  unfold BlockchainDB.GetLatestHeight
  rw [get_put_other db v h]

theorem GetLatestHeight_SaveLatestHeight (db : BlockchainDB) (h : Nat) (hh : h < 2 ^ 64) :
    (db.SaveLatestHeight h).GetLatestHeight = some h := by
  unfold BlockchainDB.GetLatestHeight BlockchainDB.SaveLatestHeight
  rw [get_put_same]
  simp only [asciiString_asciiBytes, scanUint64_fmtNat hh]

/-- Claim C26: storage round trip over the key-value model of the store. A block, a
transaction and the latest height are read back as they were saved (the height for every
unsigned 64-bit value), and a save in one of the namespaces block, tx, account,
state:latest, height:latest leaves every read of another namespace as it was. -/
theorem storage_round_trip (db : BlockchainDB) (h : Nat) (x a : String) (d : List Nat) :
    (db.SaveBlock h d).GetBlock h = some d ∧
    (db.SaveTransaction x d).GetTransaction x = some d ∧
    (h < 2 ^ 64 → (db.SaveLatestHeight h).GetLatestHeight = some h) ∧
    (∀ (h2 : Nat) (x2 a2 : String),
      ((db.SaveBlock h d).GetTransaction x2 = db.GetTransaction x2 ∧
        (db.SaveBlock h d).GetAccount a2 = db.GetAccount a2 ∧
        (db.SaveBlock h d).GetState = db.GetState ∧
        (db.SaveBlock h d).GetLatestHeight = db.GetLatestHeight) ∧
      ((db.SaveTransaction x d).GetBlock h2 = db.GetBlock h2 ∧
        (db.SaveTransaction x d).GetAccount a2 = db.GetAccount a2 ∧
        (db.SaveTransaction x d).GetState = db.GetState ∧
        (db.SaveTransaction x d).GetLatestHeight = db.GetLatestHeight) ∧
      ((db.SaveAccount a d).GetBlock h2 = db.GetBlock h2 ∧
        (db.SaveAccount a d).GetTransaction x2 = db.GetTransaction x2 ∧
        (db.SaveAccount a d).GetState = db.GetState ∧
        (db.SaveAccount a d).GetLatestHeight = db.GetLatestHeight) ∧
      ((db.SaveState d).GetBlock h2 = db.GetBlock h2 ∧
        (db.SaveState d).GetTransaction x2 = db.GetTransaction x2 ∧
        (db.SaveState d).GetAccount a2 = db.GetAccount a2 ∧
        (db.SaveState d).GetLatestHeight = db.GetLatestHeight) ∧
      ((db.SaveLatestHeight h).GetBlock h2 = db.GetBlock h2 ∧
        (db.SaveLatestHeight h).GetTransaction x2 = db.GetTransaction x2 ∧
        (db.SaveLatestHeight h).GetAccount a2 = db.GetAccount a2 ∧
        (db.SaveLatestHeight h).GetState = db.GetState)) := by
  refine ⟨get_put_same _ _ _, get_put_same _ _ _, ?_, ?_⟩
  · exact GetLatestHeight_SaveLatestHeight db h
  · intro h2 x2 a2
    refine ⟨⟨?_, ?_, ?_, ?_⟩, ⟨?_, ?_, ?_, ?_⟩, ⟨?_, ?_, ?_, ?_⟩, ⟨?_, ?_, ?_, ?_⟩,
      ⟨?_, ?_, ?_, ?_⟩⟩
    · exact get_put_other db d (key_block_tx _ _)
    · exact get_put_other db d (key_block_account _ _)
    · exact get_put_other db d (key_block_state _)
    · exact GetLatestHeight_put_other db d (key_block_height _)
    · exact get_put_other db d (key_block_tx _ _).symm
    · exact get_put_other db d (key_tx_account _ _)
    · exact get_put_other db d (key_tx_state _)
    · exact GetLatestHeight_put_other db d (key_tx_height _)
    · exact get_put_other db d (key_block_account _ _).symm
    · exact get_put_other db d (key_tx_account _ _).symm
    · exact get_put_other db d (key_account_state _)
    · exact GetLatestHeight_put_other db d (key_account_height _)
    · exact get_put_other db d (key_block_state _).symm
    · exact get_put_other db d (key_tx_state _).symm
    · exact get_put_other db d (key_account_state _).symm
    · exact GetLatestHeight_put_other db d key_state_height
    · exact get_put_other db _ (key_block_height _).symm
    · exact get_put_other db _ (key_tx_height _).symm
    · exact get_put_other db _ (key_account_height _).symm
    · exact get_put_other db _ key_state_height.symm

/-- Witness for C26: the height 42 of the repository's storage test. -/
theorem storage_round_trip_witness :
    (42 : Nat) < 2 ^ 64 ∧
      (BlockchainDB.SaveLatestHeight { puts := [] } 42).GetLatestHeight = some 42 :=
  ⟨by decide, (storage_round_trip { puts := [] } 42 "0x1234567890abcdef" "" [1, 2]).2.2.1
    (by decide)⟩

/-! ## Commit -/

theorem saveBlock_fields {σ : Type} (lib : Lib) (cd : Codec) (app : ABCIApp σ)
    (blockHash : List Nat) :
    (saveBlock lib cd app blockHash).executor = app.executor ∧
      (saveBlock lib cd app blockHash).stateAppHash = app.stateAppHash ∧
      (saveBlock lib cd app blockHash).stateHeight = app.stateHeight ∧
      (saveBlock lib cd app blockHash).validators = app.validators ∧
      (saveBlock lib cd app blockHash).currentBlockHeight = app.currentBlockHeight :=
  ⟨rfl, rfl, rfl, rfl, rfl⟩

theorem sliceTo_length_le (s : String) (n : Nat) : (sliceTo s n).length ≤ n := by
  unfold sliceTo
  show (s.data.take n).length ≤ n
  rw [List.length_take]
  exact Nat.min_le_left _ _

/-- The comparison `path[:7] == "account/"` of `Query` and `HandleQuery` is never true:
the right-hand side is eight characters long. -/
theorem sliceTo_seven_ne_account (s : String) : sliceTo s 7 ≠ "account/" := by
  intro h
  have h1 := sliceTo_length_le s 7
  rw [h] at h1
  exact absurd h1 (by decide)

theorem accountPath_data (addr : String) :
    ("account/" ++ addr).data = 'a' :: ("ccount/".data ++ addr.data) := rfl

theorem sliceTo_accountPath (addr : String) (n : Nat) :
    (sliceTo ("account/" ++ addr) (n + 1)).data =
      'a' :: ("ccount/".data ++ addr.data).take n := rfl

theorem heightPath_data : "height".data = 'h' :: "eight".data := rfl

theorem statusPath_data : "status".data = 's' :: "tatus".data := rfl

theorem balancePath_data : "balance/".data = 'b' :: "alance/".data := rfl

theorem txPath_data : "tx/".data = 't' :: "x/".data := rfl

theorem blockPath_data : "block/".data = 'b' :: "lock/".data := rfl

/-- Claim C24 (failing input `account/<addr>`): `Query` answers the path `height` with code
0 and the decimal height, but for every address it answers the path `account/<addr>` with
the unknown-path error, code 1, whatever the executor returns, because it compares the
first seven characters of the path with the eight characters `account/`;
`QueryHandler.HandleQuery` does the same. The sibling path `balance/<addr>`, compared over
eight characters, reaches the executor. -/
theorem Query_account_path_unknown {σ : Type} (cd : Codec) (ex : Executor σ)
    (app : ABCIApp σ) (jsonValid : List Nat → Bool) (storage : BlockchainDB)
    (executor : Option σ) (requestID addr : String) :
    Query cd ex app "height" =
        { Code := 0, Log := "",
          Value := asciiBytes (fmtNat (app.stateHeight % 2 ^ 64).toNat) } ∧
      Query cd ex app ("account/" ++ addr) =
        { Code := 1, Log := "Query path desconocido: " ++ ("account/" ++ addr), Value := [] } ∧
      HandleQuery cd ex jsonValid storage executor
          { RequestID := requestID, Path := "account/" ++ addr } =
        { ResponseType := "response", RequestID := requestID, Path := "account/" ++ addr,
          Data := [], Error := "query path desconocido: " ++ ("account/" ++ addr) } ∧
      (Query sampleCodec sampleExecutor sampleApp "balance/7").Code = 0 ∧
      (Query sampleCodec sampleExecutor sampleApp "account/7").Code = 1 := by
  have hh : "account/" ++ addr ≠ "height" :=
    key_head_ne _ _ _ _ (accountPath_data addr) heightPath_data (by decide)
  have hs : "account/" ++ addr ≠ "status" :=
    key_head_ne _ _ _ _ (accountPath_data addr) statusPath_data (by decide)
  have hb : sliceTo ("account/" ++ addr) 8 ≠ "balance/" :=
    key_head_ne _ _ _ _ (sliceTo_accountPath addr 7) balancePath_data (by decide)
  have ht : sliceTo ("account/" ++ addr) 3 ≠ "tx/" :=
    key_head_ne _ _ _ _ (sliceTo_accountPath addr 2) txPath_data (by decide)
  have hk : sliceTo ("account/" ++ addr) 6 ≠ "block/" :=
    key_head_ne _ _ _ _ (sliceTo_accountPath addr 5) blockPath_data (by decide)
  have ha := sliceTo_seven_ne_account ("account/" ++ addr)
  refine ⟨rfl, ?_, ?_, by decide, by decide⟩
  · unfold Query
    rw [if_neg hh, if_neg (fun h => hb h.2), if_neg (fun h => ha h.2),
      if_neg (fun h => ht h.2), if_neg (fun h => hk h.2)]
  · unfold HandleQuery
    dsimp only
    rw [if_neg (fun h => h.elim hh hs), if_neg (fun h => hk h.2), if_neg (fun h => ht h.2),
      if_neg (fun h => ha h.2)]

/-! ## The EVM executor -/

/-- Claim C27 (failing input): `ExecuteTransaction` hands the nonce carried by the
transaction to the EVM message, also when it is 0. But whenever go-ethereum refuses the
message with the pair `(nil, err)`, as it does for a nonce that differs from the stored
one, the error branch reads `result.UsedGas` of the nil result: the call ends in a
nil-pointer dereference and returns no rejection result. -/
theorem ExecuteTransaction_error_branch_faults {σ : Type} (lib : Lib) (evm : EVM σ)
    (e : EVMExecutor σ) (tx : ExecutionTransaction) (value gasPrice : Int) (err : String)
    (hrun : e.running = true) (hv : lib.bigSetString tx.Value = some value)
    (hg : lib.bigSetString tx.GasPrice = some gasPrice)
    (herr : (evm.ApplyMessage e.stateDB e.currentHeight e.currentTimestamp
        (buildMessage lib tx value gasPrice)).1 = (none, some err)) :
    (buildMessage lib tx value gasPrice).Nonce = tx.Nonce ∧
      (EVMExecutor.ExecuteTransaction lib evm e tx).1 = .fault := by
  refine ⟨rfl, ?_⟩
  unfold EVMExecutor.ExecuteTransaction
  rw [hrun, hv, hg]
  dsimp only
  rw [herr]
  cases evm.NewEVMBlockContext e.currentHeight tx.GasLimit e.currentTimestamp <;> rfl

/-- Witness for C27: a transaction of nonce 5 from a sender whose stored nonce is 3. -/
theorem ExecuteTransaction_error_branch_faults_witness :
    sampleEVM.GetNonce sampleEVMExecutor.stateDB (sampleLib.hexToAddress txNonceFive.From) ≠
        txNonceFive.Nonce ∧
      (EVMExecutor.ExecuteTransaction sampleLib sampleEVM sampleEVMExecutor txNonceFive).1 =
        .fault :=
  ⟨by decide, (ExecuteTransaction_error_branch_faults sampleLib sampleEVM sampleEVMExecutor
    txNonceFive 0 1 "nonce too high" rfl (by decide) (by decide) (by decide)).2⟩

/-- Claim C28 (failing input: the deployment of the code `[0x60]` by the sender `"7"` on
a running executor): the message that `ExecuteTransaction` builds always has a recipient,
also for an empty `tx.To`, where it is the address that `HexToAddress` reads from the
empty string: no message is a contract creation. And with go-ethereum's
`core.NewEVMBlockContext`, which panics for the nil chain that `ExecuteTransaction` hands
to it, `DeployContract` returns an address for no input at all: on a running executor a
deployment whose gas price is a numeral ends in that panic. -/
theorem DeployContract_never_returns_address {σ : Type} (lib : Lib) (evm : EVM σ)
    (e : EVMExecutor σ) (sender : String) (code constructorArgs : List Nat) (gasLimit : Nat)
    (gasPrice : String)
    (hctx : ∀ number gas time, evm.NewEVMBlockContext number gas time = none) :
    (∀ (tx : ExecutionTransaction) (value price : Int),
        (buildMessage lib tx value price).To = some (lib.hexToAddress tx.To) ∧
        (tx.To = "" → (buildMessage lib tx value price).To ≠ none)) ∧
      (∀ contractAddr result,
        (EVMExecutor.DeployContract lib evm e sender code constructorArgs gasLimit
          gasPrice).1 ≠ .ok (contractAddr, result)) ∧
      (e.running = true → (lib.bigSetString "0").isSome = true →
        (lib.bigSetString gasPrice).isSome = true →
        (EVMExecutor.DeployContract lib evm e sender code constructorArgs gasLimit
          gasPrice).1 = .fault) := by
  have hexec : ∀ (e : EVMExecutor σ) (tx : ExecutionTransaction),
      (∀ result, (EVMExecutor.ExecuteTransaction lib evm e tx).1 ≠ .ok result) ∧
      (e.running = true → (lib.bigSetString tx.Value).isSome = true →
        (lib.bigSetString tx.GasPrice).isSome = true →
        (EVMExecutor.ExecuteTransaction lib evm e tx).1 = .fault) := by
    intro e tx
    unfold EVMExecutor.ExecuteTransaction
    split
    · rename_i hrun
      refine ⟨(fun result h => by cases h), ?_⟩
      intro h
      rw [h] at hrun
      cases hrun
    · cases hv : lib.bigSetString tx.Value with
      | none => exact ⟨(fun result h => by cases h), fun _ h _ => by cases h⟩
      | some value =>
        cases hg : lib.bigSetString tx.GasPrice with
        | none => exact ⟨(fun result h => by cases h), fun _ _ h => by cases h⟩
        | some price =>
          dsimp only
          rw [hctx]
          exact ⟨(fun result h => by cases h), fun _ _ _ => rfl⟩
  refine ⟨fun tx value price => ⟨rfl, fun _ h => by cases h⟩, ?_, ?_⟩
  · intro contractAddr result
    unfold EVMExecutor.DeployContract
    split
    · intro h
      cases h
    · dsimp only
      split
      · intro h
        cases h
      · intro h
        cases h
      · rename_i res hres
        exact absurd hres ((hexec _ _).1 res)
  · intro hrun h0 hg
    unfold EVMExecutor.DeployContract
    rw [if_neg (by simp [hrun])]
    dsimp only
    rw [(hexec e _).2 hrun h0 hg]

/-- Witness for C28: a deployment by the sample sender, of nonce 3, on the sample
executor. -/
theorem DeployContract_never_returns_address_witness :
    sampleEVMExecutor.running = true ∧
      (EVMExecutor.DeployContract sampleLib sampleEVM sampleEVMExecutor "7" [96] [] 100000
        "1").1 = .fault :=
  ⟨rfl, (DeployContract_never_returns_address sampleLib sampleEVM sampleEVMExecutor "7" [96] []
    100000 "1" (fun _ _ _ => rfl)).2.2 rfl (by decide) (by decide)⟩

/-! ## Genesis stake -/

theorem wrapInt64_lt (x : Int) : wrapInt64 x < 2 ^ 63 := by
  unfold wrapInt64
  omega

/-- Claim C29 (failing input: a genesis entry of power 10): for a validator set with no
saved and no loaded validators, `InitChain` stores for the single genesis entry of power
p a validator whose stake is the signed 64-bit product of p and 10^18. For every p from
10 to 2^30 that product wraps: the stored stake is below 2^63 and is not p * 10^18. -/
theorem InitChain_genesis_stake_wraps {σ : Type} (cd : Codec) (app : ABCIApp σ)
    (vs : ValidatorSet) (keyType : String) (pubKey : List Nat) (p now : Int)
    (hvs : app.validators = some vs) (hnone : vs.validators = [])
    (hstore : app.storage.GetAccount "validators:set" = none)
    (hp : 10 ≤ p) (_hp2 : p ≤ 2 ^ 30) :
    ∃ v, (InitChain cd app [{ PubKeyType := keyType, PubKeyData := pubKey, Power := p }]
          now).2.validators.map (fun s => s.validators) = some [v] ∧
      v.Stake = wrapInt64 (p * 1000000000000000000) ∧
      v.Power = calculatePower (wrapInt64 (p * 1000000000000000000)) ∧
      v.Stake < 2 ^ 63 ∧ v.Stake ≠ p * 1000000000000000000 := by
  have hw := wrapInt64_lt (p * 1000000000000000000)
  have hload : LoadValidators cd vs app.storage = vs := by
    unfold LoadValidators
    rw [hstore]
  have hact : (GetActiveValidators vs).length = 0 := by
    unfold GetActiveValidators
    rw [hnone]
    rfl
  refine ⟨newValidator (cd.bytesToAddressHex pubKey) pubKey
    (wrapInt64 (p * 1000000000000000000)) now, ?_, rfl, rfl, hw, ?_⟩
  · unfold InitChain
    rw [hvs]
    dsimp only
    rw [hload, if_pos hact]
    rw [InitializeGenesisValidatorsCall_eq]
    dsimp only
    unfold InitializeGenesisValidators
    simp only [List.map_cons, List.map_nil, List.foldl_cons, List.foldl_nil, hnone,
      Option.map_some']
    rfl
  · show wrapInt64 (p * 1000000000000000000) ≠ p * 1000000000000000000
    have : ((2 : Int) ^ 63) = 9223372036854775808 := by norm_num
    omega

/-- Witness for C29: a genesis entry of power 10 is stored with a negative stake and the
power -9. -/
theorem InitChain_genesis_stake_wraps_witness :
    ((10 : Int) ≤ 10 ∧ (10 : Int) ≤ 2 ^ 30) ∧
    ∃ v, (InitChain sampleCodec genesisApp
          [{ PubKeyType := "/tm.PubKeyEd25519", PubKeyData := samplePubKey 1, Power := 10 }]
          0).2.validators.map (fun s => s.validators) = some [v] ∧
      v.Stake = -8446744073709551616 ∧ v.Power = -9 := by
  obtain ⟨v, h1, h2, h3, _⟩ := InitChain_genesis_stake_wraps sampleCodec genesisApp
    (NewValidatorSet 1000000000000000000 100) "/tm.PubKeyEd25519" (samplePubKey 1) 10 0 rfl rfl
    (by decide) (by decide) (by decide)
  exact ⟨by decide, v, h1, h2.trans (by decide), h3.trans (by decide)⟩

/-! ## The mutex of the validator set -/

/-- Claim C30 (failing input: any call that succeeds, such as the registration of a first
validator): with `vs.mutex` a non-reentrant read/write lock that no other goroutine
touches, every call of RegisterValidator, Stake, Unstake, Slash or Unjail that does not
return an error, and every call of RotateValidators and InitializeGenesisValidators,
asks for the read lock of `vs.mutex` (in SaveValidators or GetActiveValidators) while it
holds the write lock, and waits for ever at its second lock operation. Only the calls
that return an error, and the calls of UpdateValidatorActivity that do not reach
`SlashValidator`, return. -/
theorem mutating_calls_block (vs : ValidatorSet) (address : String) (pubKey : List Nat)
    (stake amount slashPercent jailDuration now : Int) (missedBlock : Bool)
    (slashValidatorLocks : List LockOp) :
    (isError (RegisterValidator vs address pubKey stake now).1 = false →
        runLocks freeMutex 0 (RegisterValidatorLocks vs address pubKey stake now) =
          .blocks 1) ∧
      ((Stake vs address amount now).1 = none →
        runLocks freeMutex 0 (StakeLocks vs address amount now) = .blocks 1) ∧
      ((Unstake vs address amount now).1 = none →
        runLocks freeMutex 0 (UnstakeLocks vs address amount now) = .blocks 1) ∧
      ((Slash vs address slashPercent jailDuration now).1 = none →
        runLocks freeMutex 0 (SlashLocks vs address slashPercent jailDuration now) =
          .blocks 1) ∧
      ((Unjail vs address now).1 = none →
        runLocks freeMutex 0 (UnjailLocks vs address now) = .blocks 1) ∧
      runLocks freeMutex 0 RotateValidatorsLocks = .blocks 1 ∧
      runLocks freeMutex 0 InitializeGenesisValidatorsLocks = .blocks 1 ∧
      (isError (RegisterValidator vs address pubKey stake now).1 = true →
        runLocks freeMutex 0 (RegisterValidatorLocks vs address pubKey stake now) =
          .returns freeMutex) ∧
      ((missedBlock = false ∨ mapLookup vs.validators address = none) →
        runLocks freeMutex 0
            (UpdateValidatorActivityLocks slashValidatorLocks vs address missedBlock) =
          .returns freeMutex) := by
  refine ⟨?_, ?_, ?_, ?_, ?_, by decide, by decide, ?_, ?_⟩
  · intro h
    unfold RegisterValidatorLocks
    rw [h]
    exact runLocks_save_under_lock
  · intro h
    unfold StakeLocks
    rw [h]
    exact runLocks_save_under_lock
  · intro h
    unfold UnstakeLocks
    rw [h]
    exact runLocks_save_under_lock
  · intro h
    unfold SlashLocks
    rw [h]
    exact runLocks_save_under_lock
  · intro h
    unfold UnjailLocks
    rw [h]
    exact runLocks_save_under_lock
  · intro h
    unfold RegisterValidatorLocks
    rw [h]
    exact runLocks_no_save
  · intro h
    unfold UpdateValidatorActivityLocks
    rcases h with h | h
    · subst h
      cases mapLookup vs.validators address with
      | none => rfl
      | some v =>
        dsimp only
        rw [if_neg (by simp)]
        rfl
    · rw [h]
      rfl

/-- Witness for C30: the registration of a first validator. -/
theorem mutating_calls_block_witness :
    isError (RegisterValidator (NewValidatorSet 1 100) "a" (samplePubKey 1) 5 0).1 = false ∧
      runLocks freeMutex 0
          (RegisterValidatorLocks (NewValidatorSet 1 100) "a" (samplePubKey 1) 5 0) =
        .blocks 1 :=
  ⟨by decide, (mutating_calls_block (NewValidatorSet 1 100) "a" (samplePubKey 1) 5 0 0 0 0
    false []).1 (by decide)⟩

end Oxy
